import Mathlib

/-! # Market maker: a shallow embedding of the order-sizing and reconciliation code

Sources embedded here: of the market maker, `mm/maker.go`, `mm/market.go`, `mm/orderbook.go`,
`mm/cmc/priceprovider.go` and `mm/blockchain/priceprovider.go`; of the price reporter,
`pricefilter.go` and `sinusoid.go`.

Modelling conventions.

* Machine integers are `Int`/`Nat` with explicit wrap-around (`wrapInt64`, `wrapUint64`,
  `wrapInt32`) at every Go conversion or arithmetic operation that can overflow.
* `math/big.Float` values are modelled by the extended rational they denote (`BigFloat`):
  a finite rational or one of the two infinities; signed zeros are not modelled.  An operation
  that panics with `ErrNaN` returns `none`.
* `float64` values are modelled by the rational they denote; `fl64` rounds a rational to the
  nearest `float64` and `round64` to the nearest `big.Float` of precision 64 (both to nearest,
  ties to even), and every arithmetic operation of the program is followed by its rounding.
  Overflow of a `float64` to an infinity and NaN are not modelled.  The fusion of a product
  with the sum that follows it, which the compiler may choose on some architectures, is not
  modelled; the one place where a product feeds a sum is `GetSinusoidPrice`, and at the
  quarter points its product is exact.
* Order sizing is embedded twice.  `MarketMaker.createOrders` and the functions under it are
  the code in exact arithmetic: `Quo`, `Mul` and `Sub` return the exact rational result and the
  spread is an exact rational.  They carry the statements on which rounding has no bearing and
  those made for exact arithmetic.  `Machine.createOrders` and the functions under it are the
  same code with every `big.Float` result rounded to 64 bits and the spread computed in
  `float64`, as the program computes them.  The price providers and the price reporter are
  embedded with rounding only.
* The rates and thresholds of the hysteresis guard of `makeMarket` are exact rationals.
* `time.Time` and `time.Duration` are integers counting nanoseconds on one time line;
  arithmetic on them is exact (the `int64` range of a duration is not modelled).
* Logging is omitted; calls to the ledger RPC are inputs of a tick (`TickEnv`) and
  the calls a tick makes are recorded as a trace of `Event`s.
-/

namespace MM

/-! ## Machine integers -/

/-- Conversion to a signed 64-bit integer (two's complement wrap-around). -/
def wrapInt64 (x : Int) : Int := (x + 2 ^ 63) % 2 ^ 64 - 2 ^ 63

/-- Conversion to an unsigned 64-bit integer (wrap-around). -/
def wrapUint64 (x : Int) : Nat := (x % 2 ^ 64).toNat

/-- Conversion to a signed 32-bit integer (two's complement wrap-around). -/
def wrapInt32 (x : Int) : Int := (x + 2 ^ 31) % 2 ^ 32 - 2 ^ 31

/-- Largest unsigned 64-bit value, `math.MaxUint64`. -/
def maxUint64 : Nat := 2 ^ 64 - 1

/-- Truncation of a rational towards zero. -/
def truncToInt (q : ℚ) : Int := if 0 ≤ q then ⌊q⌋ else ⌈q⌉

/-- Conversion of a `float64` to `int64`, as in `objects.Int64(x)`: truncation towards zero.
For a value outside the `int64` range Go leaves the result to the implementation; the value
given here, -2^63, is the one of amd64. -/
def float64ToInt64 (x : ℚ) : Int :=
  if -2 ^ 63 ≤ truncToInt x ∧ truncToInt x < 2 ^ 63 then truncToInt x else -2 ^ 63

/-- The zero value `time.Time{}` (1 January of year 1, UTC) in nanoseconds from the Unix
epoch. -/
def zeroTime : Int := -62135596800 * 10 ^ 9

/-! ## Binary floating-point rounding -/

/-- Rounding to the nearest integer, ties to the even one. -/
def roundHalfEven (q : ℚ) : Int :=
  if q - ⌊q⌋ < 1 / 2 then ⌊q⌋
  else if 1 / 2 < q - ⌊q⌋ then ⌊q⌋ + 1
  else if ⌊q⌋ % 2 = 0 then ⌊q⌋ else ⌊q⌋ + 1

/-- Rounding to the nearest multiple of `2 ^ k`, ties to the even multiple. -/
def roundAt (k : Int) (q : ℚ) : ℚ := (roundHalfEven (q / 2 ^ k) : ℚ) * 2 ^ k

/-- The value of a `big.Float` of precision 64 and rounding mode `ToNearestEven` set to `q`:
the nearest binary floating-point number with a mantissa of 64 bits (the exponent of a
`big.Float` is not bounded in practice). -/
def round64 (q : ℚ) : ℚ := if q = 0 then 0 else roundAt (Int.log 2 |q| - 63) q

/-- The `float64` nearest to `q` (round to nearest, ties to even): a mantissa of 53 bits with
the last place not below `2 ^ -1074`.  Overflow to an infinity, for results of magnitude
`2 ^ 1024` or more, is not modelled. -/
def fl64 (q : ℚ) : ℚ := if q = 0 then 0 else roundAt (max (Int.log 2 |q| - 52) (-1074)) q

/-- The constant `math.Pi` as a `float64`: `0x400921FB54442D18`. -/
def pi64 : ℚ := 884279719003555 / 281474976710656

/-! ## `shopspring/decimal` -/

/-- A `decimal.Decimal`: the number `value * 10 ^ exp`, with `exp` an `int32`. -/
structure Decimal where
  value : Int
  exp : Int
deriving DecidableEq, Repr

namespace Decimal

/-- `Decimal.Shift`: adds `shift` to the exponent (an `int32` addition). -/
def Shift (d : Decimal) (shift : Int) : Decimal :=
  { value := d.value, exp := wrapInt32 (d.exp + shift) }

/-- The integer `rescale(0)` leaves in `value`: multiplied out for a non-negative exponent,
divided by the power of ten with truncation towards zero (`big.Int.Quo`) otherwise. -/
def rescale0 (d : Decimal) : Int :=
  if 0 ≤ d.exp then d.value * 10 ^ d.exp.toNat else Int.tdiv d.value (10 ^ (-d.exp).toNat)

/-- `Decimal.IntPart`: the integer part, read back with `big.Int.Int64` (low 64 bits). -/
def IntPart (d : Decimal) : Int := wrapInt64 d.rescale0

/-- `Decimal.IsZero`. -/
def IsZero (d : Decimal) : Bool := decide (d.value = 0)

end Decimal

/-! ## `math/big.Float` -/

/-- A `big.Float` value: a finite rational or an infinity. -/
inductive BigFloat where
  | fin (q : ℚ)
  | pinf
  | ninf
deriving DecidableEq, Repr

namespace BigFloat

/-- `new(big.Float).SetInt64(x)` for an `int64` value `x`. -/
def SetInt64 (x : Int) : BigFloat := fin x

/-- `new(big.Float).SetUint64(x)` for a `uint64` value `x`. -/
def SetUint64 (x : Nat) : BigFloat := fin x

/-- `x.Cmp(y)`: -1, 0 or +1. -/
def Cmp : BigFloat → BigFloat → Int
  | fin x, fin y => if x < y then -1 else if y < x then 1 else 0
  | fin _, pinf => -1
  | fin _, ninf => 1
  | pinf, pinf => 0
  | pinf, _ => 1
  | ninf, ninf => 0
  | ninf, _ => -1

/-- `z.Sub(x, y)` in exact arithmetic: panics with `ErrNaN` when both are infinities of equal
sign. -/
def Sub : BigFloat → BigFloat → Option BigFloat
  | fin x, fin y => some (fin (x - y))
  | fin _, pinf => some ninf
  | fin _, ninf => some pinf
  | pinf, pinf => none
  | pinf, _ => some pinf
  | ninf, ninf => none
  | ninf, _ => some ninf

/-- `z.Mul(x, y)` in exact arithmetic: panics with `ErrNaN` when one operand is zero and the
other infinite. -/
def Mul : BigFloat → BigFloat → Option BigFloat
  | fin x, fin y => some (fin (x * y))
  | fin x, pinf => if x = 0 then none else some (if x < 0 then ninf else pinf)
  | fin x, ninf => if x = 0 then none else some (if x < 0 then pinf else ninf)
  | pinf, fin y => if y = 0 then none else some (if y < 0 then ninf else pinf)
  | ninf, fin y => if y = 0 then none else some (if y < 0 then pinf else ninf)
  | pinf, pinf => some pinf
  | pinf, ninf => some ninf
  | ninf, pinf => some ninf
  | ninf, ninf => some pinf

/-- `z.Quo(x, y)` in exact arithmetic: panics with `ErrNaN` when both operands are zero or both
are infinite; a non-zero finite value divided by zero is an infinity. -/
def Quo : BigFloat → BigFloat → Option BigFloat
  | fin x, fin y =>
    if y = 0 then (if x = 0 then none else some (if x < 0 then ninf else pinf))
    else some (fin (x / y))
  | fin _, pinf => some (fin 0)
  | fin _, ninf => some (fin 0)
  | pinf, fin y => some (if y < 0 then ninf else pinf)
  | ninf, fin y => some (if y < 0 then pinf else ninf)
  | pinf, pinf => none
  | pinf, ninf => none
  | ninf, pinf => none
  | ninf, ninf => none

/-- `x.Uint64()`: truncation towards zero, 0 for negative values and `math.MaxUint64`
for values above it. -/
def Uint64 : BigFloat → Nat
  | fin x => min (Int.toNat ⌊x⌋) maxUint64
  | pinf => maxUint64
  | ninf => 0

end BigFloat

/-! ## `mm/maker.go`: `reserveFee` -/

/-- The fee in smallest units as `reserveFee` computes it:
`feeAmount.Shift(int32(precision)).IntPart()`. -/
def feeUnits (feeAmount : Decimal) (precision : Int) : Int :=
  (feeAmount.Shift (wrapInt32 precision)).IntPart

/-- `reserveFee(balance, feeAmount, precision)` of `mm/maker.go` in exact arithmetic (the
difference is held exactly at 64 bits whenever the fee is not negative). -/
def reserveFee (balance : BigFloat) (feeAmount : Decimal) (precision : Int) : Option BigFloat :=
  let fee := BigFloat.SetInt64 (feeUnits feeAmount precision)
  if balance.Cmp fee > 0 then balance.Sub fee else some (BigFloat.fin 0)

/-! ## Ledger objects (package `objects` of the ledger client library) -/

/-- An object id of the ledger, such as `1.3.0`; the code only compares ids. -/
structure GrapheneID where
  space : Nat
  kind : Nat
  number : Nat
deriving DecidableEq, Repr

/-- `objects.AssetAmount`: an asset id and an amount (`objects.Int64`) in smallest units. -/
structure AssetAmount where
  asset : GrapheneID
  amount : Int
deriving DecidableEq, Repr

/-- `objects.Price`: a base and a quote amount. -/
structure Price where
  base : AssetAmount
  quote : AssetAmount
deriving DecidableEq, Repr

/-- `objects.Asset`, with the fields the market maker reads.  `bitassetDataID` is the id of
the asset's bitasset data when `BitassetDataID.Valid()` holds, and `none` otherwise. -/
structure Asset where
  id : GrapheneID
  symbol : String
  precision : Int
  bitassetDataID : Option GrapheneID := none
deriving DecidableEq, Repr

/-- `objects.LimitOrder`, with the fields the market maker reads. -/
structure LimitOrder where
  id : GrapheneID
  seller : GrapheneID
  forSale : Int
  deferredFee : Int
  sellPrice : Price
deriving DecidableEq, Repr

/-- The two operations the market maker builds: `objects.NewLimitOrderCancelOperation(id, seller)`
and `objects.LimitOrderCreateOperation`. -/
inductive Operation where
  | cancel (order : GrapheneID) (feePayingAccount : GrapheneID)
  | create (seller : GrapheneID) (amountToSell : AssetAmount) (minToReceive : AssetAmount)
      (fillOrKill : Bool) (expiration : Int)
deriving DecidableEq, Repr

/-- Modelled from the spec: `objects.Price.Valid` is not in the sources; the spec gives
"true iff both base and quote amounts are strictly positive". -/
def Price.Valid (p : Price) : Bool := decide (0 < p.base.amount) && decide (0 < p.quote.amount)

/-- Modelled from the spec: `objects.Price.Rate(basePrecision, quotePrecision)` is not in the
sources; the spec gives "rate = quote.amount/base.amount scaled by precisions", that is the
quote amount in whole units divided by the base amount in whole units. -/
def Price.Rate (p : Price) (basePrecision quotePrecision : Int) : ℚ :=
  ((p.quote.amount : ℚ) / (10 : ℚ) ^ quotePrecision) / ((p.base.amount : ℚ) / (10 : ℚ) ^ basePrecision)

/-- The zero value `objects.Price{}`. -/
def zeroPrice : Price :=
  { base := { asset := { space := 0, kind := 0, number := 0 }, amount := 0 }
    quote := { asset := { space := 0, kind := 0, number := 0 }, amount := 0 } }

/-! ## `mm/market.go` -/

/-- `mm.Market`. -/
structure Market where
  base : Asset
  quote : Asset
deriving DecidableEq, Repr

/-- `Market.NewPrice(baseAmount, quoteAmount)` for `uint64` amounts, stored as
`objects.Int64`. -/
def Market.NewPrice (m : Market) (baseAmount quoteAmount : Nat) : Price :=
  { base := { asset := m.base.id, amount := wrapInt64 baseAmount }
    quote := { asset := m.base.id, amount := wrapInt64 quoteAmount } }

/-- `Market.GetRate(price)`, with `objects.Rate` read as its value. -/
def Market.GetRate (m : Market) (price : Price) : ℚ :=
  if price.Valid then
    if price.base.asset = m.base.id ∧ price.quote.asset = m.quote.id then
      price.Rate m.base.precision m.quote.precision
    else if price.base.asset = m.quote.id ∧ price.quote.asset = m.base.id then
      price.Rate m.quote.precision m.base.precision
    else 0
  else 0

/-! ## `mm/orderbook.go` -/

/-- `mm.OrderBook` (the logger is omitted). -/
structure OrderBook where
  sell : List LimitOrder
  buy : List LimitOrder
deriving DecidableEq, Repr

/-- `FilterByAsset(orders, asset)`. -/
def FilterByAsset (orders : List LimitOrder) (asset : GrapheneID) : List LimitOrder :=
  orders.filter (fun order => decide (order.sellPrice.base.asset = asset))

/-- `FilterBySeller(orders, seller)`. -/
def FilterBySeller (orders : List LimitOrder) (seller : GrapheneID) : List LimitOrder :=
  orders.filter (fun order => decide (order.seller = seller))

/-- `OrdersAmount(orders)`: the `uint64` sum of `uint64(order.ForSale)`. -/
def OrdersAmount (orders : List LimitOrder) : Nat :=
  orders.foldl (fun amount order => (amount + wrapUint64 order.forSale) % 2 ^ 64) 0

/-- `NewOrderBook(orders, market, logger)`. -/
def NewOrderBook (orders : List LimitOrder) (market : Market) : OrderBook :=
  { sell := FilterByAsset orders market.base.id
    buy := FilterByAsset orders market.quote.id }

/-- `OrderBook.Orders()`: `append(o.Sell, o.Buy...)`. -/
def OrderBook.Orders (o : OrderBook) : List LimitOrder := o.sell ++ o.buy

/-- `OrderBook.BuyAmount()`. -/
def OrderBook.BuyAmount (o : OrderBook) : Nat := OrdersAmount o.buy

/-- `OrderBook.SellAmount()`. -/
def OrderBook.SellAmount (o : OrderBook) : Nat := OrdersAmount o.sell

/-! ## `mm/config.go`, `mm/maker.go`: the market maker -/

/-- `mm.MarketConfig`. -/
structure MarketConfig where
  base : String
  quote : String
  spread : ℚ
  threshold : ℚ
  expiration : Int
  amount : ℚ
  orderCount : Int
  spreadStep : ℚ

/-- `mm.Config` (the update interval only drives the ticker and is omitted). -/
structure Config where
  market : MarketConfig
  account : String
  feeReserve : Decimal

/-- The constant `orderAmountThreshold`: "do not create orders with less than this amount". -/
def orderAmountThreshold : Nat := 10

/-- `mm.MarketMaker`: the fields a tick reads and writes.  `account` is the id of the loaded
account, `lastPrice` and `lastMarketUpdate` are the two mutable fields. -/
structure MarketMaker where
  cfg : Config
  feeAsset : GrapheneID
  market : Market
  account : GrapheneID
  baseBalance : AssetAmount
  quoteBalance : AssetAmount
  orderDuration : Int
  lastPrice : ℚ
  lastMarketUpdate : Int

/-- What the collaborators of the market maker answer during one tick. -/
structure TickEnv where
  /-- Result of `priceProvider.GetPrice()`. -/
  price : Price
  /-- Reading of `time.Now()` in the hysteresis guard of `makeMarket`. -/
  now : Int
  /-- Result of `GetLimitOrders` (`none`: the call, or `DatabaseAPI()`, returned an error). -/
  limitOrders : Option (List LimitOrder)
  /-- Result of `GetAccountBalances` for the base and quote asset: `balances[0]` and
  `balances[1]` (`none`: the call, or `DatabaseAPI()`, returned an error). -/
  balances : Option (AssetAmount × AssetAmount)
  /-- Reading of `time.Now()` in `createOrders`. -/
  orderNow : Int
  /-- Whether `api.SignAndBroadcast` succeeds. -/
  broadcastOk : Bool

/-- The calls to the ledger a tick makes, in order. -/
inductive Event where
  | loadOrderBook
  | updateBalances
  | broadcast (ops : List Operation)
deriving DecidableEq, Repr

namespace MarketMaker

/-- `MarketMaker.loadOrderBook()`: `none` when the ledger call fails. -/
def loadOrderBook (m : MarketMaker) (env : TickEnv) : Option OrderBook :=
  match env.limitOrders with
  | none => none
  | some orders => some (NewOrderBook (FilterBySeller orders m.account) m.market)

/-- `MarketMaker.createCancelOrders(orderBook)`. -/
def createCancelOrders (m : MarketMaker) (orderBook : OrderBook) : List Operation :=
  (FilterBySeller orderBook.Orders m.account).map (fun o => Operation.cancel o.id o.seller)

/-- `MarketMaker.CancelOrders()`: the trace of ledger calls it makes. -/
def CancelOrders (m : MarketMaker) (env : TickEnv) : List Event :=
  match m.loadOrderBook env with
  | none => [Event.loadOrderBook]
  | some orderBook =>
    let cancelOps := m.createCancelOrders orderBook
    if cancelOps.length > 0 then [Event.loadOrderBook, Event.broadcast cancelOps]
    else [Event.loadOrderBook]

/-- `MarketMaker.updateBalances()`: on an error the balances are left as they were. -/
def updateBalances (m : MarketMaker) (env : TickEnv) : MarketMaker :=
  match env.balances with
  | none => m
  | some (b0, b1) =>
    if b0.asset = m.market.base.id then { m with baseBalance := b0, quoteBalance := b1 }
    else { m with baseBalance := b1, quoteBalance := b0 }

/-- The sell order of one ladder step of `createOrders` (lines 228-253) in exact arithmetic:
the operations it appends. `none`: a `big.Float` operation panicked. -/
def sellStep (m : MarketMaker) (rate sellOrderVolume spreadValue : BigFloat)
    (expiration : Int) : Option (List Operation) := do
  let sellAmount := sellOrderVolume.Uint64
  let recvAmountFloat ← sellOrderVolume.Quo rate
  let recvAmountFloat ← recvAmountFloat.Mul spreadValue
  let recvAmount := recvAmountFloat.Uint64
  if sellAmount > orderAmountThreshold ∧ recvAmount > orderAmountThreshold then
    pure [Operation.create m.account
      { asset := m.market.base.id, amount := wrapInt64 sellAmount }
      { asset := m.market.quote.id, amount := wrapInt64 recvAmount }
      false expiration]
  else pure []

/-- The buy order of one ladder step of `createOrders` (lines 255-280) in exact arithmetic. -/
def buyStep (m : MarketMaker) (rate buyOrderVolume spreadValue : BigFloat)
    (expiration : Int) : Option (List Operation) := do
  let sellAmountFloat ← buyOrderVolume.Quo rate
  let sellAmountFloat ← sellAmountFloat.Quo spreadValue
  let sellAmount := sellAmountFloat.Uint64
  let recvAmount := buyOrderVolume.Uint64
  if sellAmount > orderAmountThreshold ∧ recvAmount > orderAmountThreshold then
    pure [Operation.create m.account
      { asset := m.market.quote.id, amount := wrapInt64 sellAmount }
      { asset := m.market.base.id, amount := wrapInt64 recvAmount }
      false expiration]
  else pure []

/-- The loop of `createOrders` (lines 225-283) in exact arithmetic: `n` iterations are left,
`spread` is the current spread and `ops` the operations appended so far. -/
def ladder (m : MarketMaker) (rate sellOrderVolume buyOrderVolume : BigFloat)
    (expiration : Int) : Nat → ℚ → List Operation → Option (List Operation)
  | 0, _, ops => some ops
  | n + 1, spread, ops => do
    let spreadValue := BigFloat.fin (1 + spread / 2)
    let sellOps ← m.sellStep rate sellOrderVolume spreadValue expiration
    let buyOps ← m.buyStep rate buyOrderVolume spreadValue expiration
    ladder m rate sellOrderVolume buyOrderVolume expiration n
      (spread + m.cfg.market.spreadStep) (ops ++ sellOps ++ buyOps)

/-- The base amount available to `createOrders` (lines 187, 190-193). -/
def baseAvailable (m : MarketMaker) (orderBook : OrderBook) : Option BigFloat :=
  let avail := BigFloat.SetUint64 ((wrapUint64 m.baseBalance.amount + orderBook.SellAmount) % 2 ^ 64)
  if !m.cfg.feeReserve.IsZero ∧ m.market.base.id = m.feeAsset then
    reserveFee avail m.cfg.feeReserve m.market.base.precision
  else some avail

/-- The quote amount available to `createOrders` (lines 188, 190, 194-196), before it is
multiplied by the rate. -/
def quoteAvailable (m : MarketMaker) (orderBook : OrderBook) : Option BigFloat :=
  let avail := BigFloat.SetUint64 ((wrapUint64 m.quoteBalance.amount + orderBook.BuyAmount) % 2 ^ 64)
  if !m.cfg.feeReserve.IsZero ∧ m.market.quote.id = m.feeAsset then
    reserveFee avail m.cfg.feeReserve m.market.quote.precision
  else some avail

/-- The ratio `createOrders` derives from the reference price (lines 181-183):
`uint64(price.Base.Amount)` divided by `uint64(price.Quote.Amount)`. -/
def refRate (price : Price) : Option BigFloat :=
  (BigFloat.SetUint64 (wrapUint64 price.base.amount)).Quo
    (BigFloat.SetUint64 (wrapUint64 price.quote.amount))

/-- The configured amount as `createOrders` reads it (line 200).  `createAmount` stands for
`objects.Asset.CreateAmount`, which is not in the sources. -/
def amountLimit (createAmount : Asset → ℚ → AssetAmount) (m : MarketMaker) : BigFloat :=
  BigFloat.SetUint64 (wrapUint64 (createAmount m.market.base m.cfg.market.amount).amount)

/-- The limit of the base side (lines 200, 203-205). -/
def baseLimit (createAmount : Asset → ℚ → AssetAmount) (m : MarketMaker)
    (orderBook : OrderBook) : Option BigFloat := do
  let baseAvailable ← m.baseAvailable orderBook
  let baseLimit := m.amountLimit createAmount
  pure (if baseLimit.Cmp baseAvailable > 0 then baseAvailable else baseLimit)

/-- The limit of the quote side (lines 199, 201, 207-209) in exact arithmetic: the quote
amount available is first multiplied by the rate. -/
def quoteLimit (createAmount : Asset → ℚ → AssetAmount) (m : MarketMaker) (rate : BigFloat)
    (orderBook : OrderBook) : Option BigFloat := do
  let quoteAvailable ← m.quoteAvailable orderBook
  let quoteAvailable ← quoteAvailable.Mul rate
  let quoteLimit := m.amountLimit createAmount
  pure (if quoteLimit.Cmp quoteAvailable > 0 then quoteAvailable else quoteLimit)

/-- The volume of each sell order (line 214). -/
def sellOrderVolume (createAmount : Asset → ℚ → AssetAmount) (m : MarketMaker)
    (orderBook : OrderBook) : Option BigFloat := do
  let baseLimit ← m.baseLimit createAmount orderBook
  baseLimit.Quo (BigFloat.SetInt64 m.cfg.market.orderCount)

/-- The volume of each buy order (line 215). -/
def buyOrderVolume (createAmount : Asset → ℚ → AssetAmount) (m : MarketMaker) (rate : BigFloat)
    (orderBook : OrderBook) : Option BigFloat := do
  let quoteLimit ← m.quoteLimit createAmount rate orderBook
  quoteLimit.Quo (BigFloat.SetInt64 m.cfg.market.orderCount)

/-- `MarketMaker.createOrders(price, orderBook)` in exact arithmetic.  `orderNow` is the
reading of `time.Now()`.  `none`: a `big.Float` operation panicked; otherwise the operations
returned (the error returned is always `nil`). -/
def createOrders (createAmount : Asset → ℚ → AssetAmount) (m : MarketMaker) (price : Price)
    (orderBook : OrderBook) (orderNow : Int) : Option (List Operation) := do
  let rate ← refRate price
  let expiration := orderNow + m.orderDuration
  let sellOrderVolume ← m.sellOrderVolume createAmount orderBook
  let buyOrderVolume ← m.buyOrderVolume createAmount rate orderBook
  m.ladder rate sellOrderVolume buyOrderVolume expiration m.cfg.market.orderCount.toNat
    m.cfg.market.spread []

/-- `MarketMaker.makeMarket(t)`: the maker after the tick and the ledger calls made.
`none`: `createOrders` panicked. -/
def makeMarket (createAmount : Asset → ℚ → AssetAmount) (m : MarketMaker) (t : Int)
    (env : TickEnv) : Option (MarketMaker × List Event) :=
  let price := env.price
  let rate := m.market.GetRate price
  if rate = 0 then some (m, m.CancelOrders env)
  else
    let change := |m.lastPrice - rate| / rate
    if change < m.cfg.market.threshold ∧ env.now < m.lastMarketUpdate + Int.tdiv m.orderDuration 2 then
      some (m, [])
    else
      match m.loadOrderBook env with
      | none => some (m, [Event.loadOrderBook])
      | some orderBook =>
        let m1 := m.updateBalances env
        let cancelOps := m1.createCancelOrders orderBook
        match m1.createOrders createAmount price orderBook env.orderNow with
        | none => none
        | some createOps =>
          let ops := cancelOps ++ createOps
          let calls := [Event.loadOrderBook, Event.updateBalances] ++
            (if ops.length > 0 then [Event.broadcast ops] else [])
          some ({ m1 with lastPrice := rate, lastMarketUpdate := t }, calls)

end MarketMaker

/-! ## `mm/maker.go`: order sizing with the rounding of `math/big` and `float64` -/

/-- The value a `big.Float` of precision 64 holds when set to `x`. -/
def BigFloat.round : BigFloat → BigFloat
  | BigFloat.fin q => BigFloat.fin (round64 q)
  | BigFloat.pinf => BigFloat.pinf
  | BigFloat.ninf => BigFloat.ninf

namespace Machine

/-- `z.Quo(x, y)` for operands of precision at most 64 and a result of precision 64 (that of
`new(big.Float)` once it takes the larger precision of its operands): the quotient rounded to
nearest even. -/
def Quo (x y : BigFloat) : Option BigFloat := (x.Quo y).map BigFloat.round

/-- `z.Mul(x, y)` for a result of precision 64: the product rounded to nearest even. -/
def Mul (x y : BigFloat) : Option BigFloat := (x.Mul y).map BigFloat.round

/-- `z.Sub(x, y)` for a result of precision 64: the difference rounded to nearest even. -/
def Sub (x y : BigFloat) : Option BigFloat := (x.Sub y).map BigFloat.round

/-- `reserveFee(balance, feeAmount, precision)` of `mm/maker.go`. -/
def reserveFee (balance : BigFloat) (feeAmount : Decimal) (precision : Int) : Option BigFloat :=
  let fee := BigFloat.SetInt64 (feeUnits feeAmount precision)
  if balance.Cmp fee > 0 then Sub balance fee else some (BigFloat.fin 0)

/-- The sell order of one ladder step of `createOrders` (lines 228-253): the operations it
appends. `none`: a `big.Float` operation panicked. -/
def sellStep (m : MarketMaker) (rate sellOrderVolume spreadValue : BigFloat)
    (expiration : Int) : Option (List Operation) := do
  let sellAmount := sellOrderVolume.Uint64
  let recvAmountFloat ← Quo sellOrderVolume rate
  let recvAmountFloat ← Mul recvAmountFloat spreadValue
  let recvAmount := recvAmountFloat.Uint64
  if sellAmount > orderAmountThreshold ∧ recvAmount > orderAmountThreshold then
    pure [Operation.create m.account
      { asset := m.market.base.id, amount := wrapInt64 sellAmount }
      { asset := m.market.quote.id, amount := wrapInt64 recvAmount }
      false expiration]
  else pure []

/-- The buy order of one ladder step of `createOrders` (lines 255-280). -/
def buyStep (m : MarketMaker) (rate buyOrderVolume spreadValue : BigFloat)
    (expiration : Int) : Option (List Operation) := do
  let sellAmountFloat ← Quo buyOrderVolume rate
  let sellAmountFloat ← Quo sellAmountFloat spreadValue
  let sellAmount := sellAmountFloat.Uint64
  let recvAmount := buyOrderVolume.Uint64
  if sellAmount > orderAmountThreshold ∧ recvAmount > orderAmountThreshold then
    pure [Operation.create m.account
      { asset := m.market.quote.id, amount := wrapInt64 sellAmount }
      { asset := m.market.base.id, amount := wrapInt64 recvAmount }
      false expiration]
  else pure []

/-- The loop of `createOrders` (lines 225-283): `n` iterations are left, `spread` is the
current spread, a `float64`, and `ops` the operations appended so far.  The spread value is
`big.NewFloat(1.0 + spread/2)` and the spread of the next iteration is
`spread + m.cfg.Market.SpreadStep`, both computed in `float64`. -/
def ladder (m : MarketMaker) (rate sellOrderVolume buyOrderVolume : BigFloat)
    (expiration : Int) : Nat → ℚ → List Operation → Option (List Operation)
  | 0, _, ops => some ops
  | n + 1, spread, ops => do
    let spreadValue := BigFloat.fin (fl64 (1 + fl64 (spread / 2)))
    let sellOps ← sellStep m rate sellOrderVolume spreadValue expiration
    let buyOps ← buyStep m rate buyOrderVolume spreadValue expiration
    ladder m rate sellOrderVolume buyOrderVolume expiration n
      (fl64 (spread + m.cfg.market.spreadStep)) (ops ++ sellOps ++ buyOps)

/-- The base amount available to `createOrders` (lines 187, 190-193). -/
def baseAvailable (m : MarketMaker) (orderBook : OrderBook) : Option BigFloat :=
  let avail := BigFloat.SetUint64 ((wrapUint64 m.baseBalance.amount + orderBook.SellAmount) % 2 ^ 64)
  if !m.cfg.feeReserve.IsZero ∧ m.market.base.id = m.feeAsset then
    reserveFee avail m.cfg.feeReserve m.market.base.precision
  else some avail

/-- The quote amount available to `createOrders` (lines 188, 190, 194-196), before it is
multiplied by the rate. -/
def quoteAvailable (m : MarketMaker) (orderBook : OrderBook) : Option BigFloat :=
  let avail := BigFloat.SetUint64 ((wrapUint64 m.quoteBalance.amount + orderBook.BuyAmount) % 2 ^ 64)
  if !m.cfg.feeReserve.IsZero ∧ m.market.quote.id = m.feeAsset then
    reserveFee avail m.cfg.feeReserve m.market.quote.precision
  else some avail

/-- The ratio `createOrders` derives from the reference price (lines 181-183):
`uint64(price.Base.Amount)` divided by `uint64(price.Quote.Amount)`, at precision 64. -/
def refRate (price : Price) : Option BigFloat :=
  Quo (BigFloat.SetUint64 (wrapUint64 price.base.amount))
    (BigFloat.SetUint64 (wrapUint64 price.quote.amount))

/-- The limit of the base side (lines 200, 203-205). -/
def baseLimit (createAmount : Asset → ℚ → AssetAmount) (m : MarketMaker)
    (orderBook : OrderBook) : Option BigFloat := do
  let baseAvailable ← baseAvailable m orderBook
  let baseLimit := m.amountLimit createAmount
  pure (if baseLimit.Cmp baseAvailable > 0 then baseAvailable else baseLimit)

/-- The limit of the quote side (lines 199, 201, 207-209): the quote amount available is
first multiplied by the rate, in place. -/
def quoteLimit (createAmount : Asset → ℚ → AssetAmount) (m : MarketMaker) (rate : BigFloat)
    (orderBook : OrderBook) : Option BigFloat := do
  let quoteAvailable ← quoteAvailable m orderBook
  let quoteAvailable ← Mul quoteAvailable rate
  let quoteLimit := m.amountLimit createAmount
  pure (if quoteLimit.Cmp quoteAvailable > 0 then quoteAvailable else quoteLimit)

/-- The volume of each sell order (line 214). -/
def sellOrderVolume (createAmount : Asset → ℚ → AssetAmount) (m : MarketMaker)
    (orderBook : OrderBook) : Option BigFloat := do
  let baseLimit ← baseLimit createAmount m orderBook
  Quo baseLimit (BigFloat.SetInt64 m.cfg.market.orderCount)

/-- The volume of each buy order (line 215). -/
def buyOrderVolume (createAmount : Asset → ℚ → AssetAmount) (m : MarketMaker) (rate : BigFloat)
    (orderBook : OrderBook) : Option BigFloat := do
  let quoteLimit ← quoteLimit createAmount m rate orderBook
  Quo quoteLimit (BigFloat.SetInt64 m.cfg.market.orderCount)

/-- `MarketMaker.createOrders(price, orderBook)`.  `orderNow` is the reading of `time.Now()`.
`none`: a `big.Float` operation panicked; otherwise the operations returned (the error
returned is always `nil`). -/
def createOrders (createAmount : Asset → ℚ → AssetAmount) (m : MarketMaker) (price : Price)
    (orderBook : OrderBook) (orderNow : Int) : Option (List Operation) := do
  let rate ← refRate price
  let expiration := orderNow + m.orderDuration
  let sellOrderVolume ← sellOrderVolume createAmount m orderBook
  let buyOrderVolume ← buyOrderVolume createAmount m rate orderBook
  ladder m rate sellOrderVolume buyOrderVolume expiration m.cfg.market.orderCount.toNat
    m.cfg.market.spread []

end Machine

/-! ## `mm/cmc/priceprovider.go`: the external-index price provider -/

namespace cmc

/-- `coinmarketcap.Ticker`, with what the provider reads: the symbol and
`Quotes["BTC"].Price` (tickers are requested with `Convert: "BTC"`). -/
structure Ticker where
  symbol : String
  btcPrice : ℚ
deriving DecidableEq, Repr

/-- `coinmarketcap.Listing`, with the id and the symbol. -/
structure Listing where
  id : Nat
  symbol : String
deriving DecidableEq, Repr

/-- `priceProviderFactory`: the refresh interval and the mutable fields.  The Go maps are
functions from the key; `providers`, a set, is the list of its keys. -/
structure priceProviderFactory where
  interval : Int
  providers : List String
  priceCache : String → Option Ticker
  symbolMap : String → Option Listing
  lastUpdated : Int

/-- What the clock and the index answer during one `getTicker` call. -/
structure FetchEnv where
  /-- Reading of `time.Now()` in the test of `getTicker`. -/
  now : Int
  /-- Reading of `time.Now()` after `update()`. -/
  nowAfter : Int
  /-- Result of `client.Tickers`, already mapped by symbol (`mapTickersBySymbol`);
  `none`: the call returned an error. -/
  bulk : Option (String → Option Ticker)
  /-- Result of `client.Ticker` for a listing id (`none`: an error, no ticker). -/
  single : Nat → Option Ticker

/-- The calls to the index. -/
inductive Fetch where
  | bulk
  | single (symbol : String)
deriving DecidableEq, Repr

/-- The outcome of `GetProvider`: `nil` or the error "Unknown asset". -/
inductive ProviderResult where
  | ok
  | unknownAsset (symbol : String)
deriving DecidableEq, Repr

namespace priceProviderFactory

/-- `f.providers[symbol] = true`. -/
def track (providers : List String) (symbol : String) : List String :=
  if symbol ∈ providers then providers else providers ++ [symbol]

/-- `priceProviderFactory.GetProvider(market)`: the factory after the call and the outcome
(the provider returned on success is the pair of the market and this factory). -/
def GetProvider (f : priceProviderFactory) (market : Market) :
    priceProviderFactory × ProviderResult :=
  match f.symbolMap market.base.symbol with
  | none => (f, ProviderResult.unknownAsset market.base.symbol)
  | some _ =>
    match f.symbolMap market.quote.symbol with
    | none => (f, ProviderResult.unknownAsset market.quote.symbol)
    | some _ =>
      ({ f with
          lastUpdated := zeroTime
          providers := track (track f.providers market.base.symbol) market.quote.symbol },
        ProviderResult.ok)

/-- The body of the loop of `update()` for one tracked symbol (lines 83-99).  `none`: the
symbol is not in `symbolMap` and `f.symbolMap[sym].ID` dereferences `nil`. -/
def updateSymbol (env : FetchEnv) (tickers : String → Option Ticker)
    (f : priceProviderFactory) (sym : String) : Option (priceProviderFactory × List Fetch) :=
  match tickers sym with
  | some t => some ({ f with priceCache := Function.update f.priceCache sym (some t) }, [])
  | none =>
    match f.symbolMap sym with
    | none => none
    | some listing =>
      match env.single listing.id with
      | some t =>
        some ({ f with priceCache := Function.update f.priceCache sym (some t) },
          [Fetch.single sym])
      | none => some (f, [Fetch.single sym])

/-- The loop of `update()` over the tracked symbols (taken in list order; Go leaves the
order of a map unspecified). -/
def updateLoop (env : FetchEnv) (tickers : String → Option Ticker) :
    List String → priceProviderFactory → List Fetch → Option (priceProviderFactory × List Fetch)
  | [], f, fetches => some (f, fetches)
  | sym :: rest, f, fetches => do
    let (f1, fs) ← updateSymbol env tickers f sym
    updateLoop env tickers rest f1 (fetches ++ fs)

/-- `priceProviderFactory.update()`: the factory after the call and the calls made. -/
def update (f : priceProviderFactory) (env : FetchEnv) :
    Option (priceProviderFactory × List Fetch) :=
  match env.bulk with
  | none => some (f, [Fetch.bulk])
  | some tickers => updateLoop env tickers f.providers f [Fetch.bulk]

/-- `priceProviderFactory.getTicker(symbol)`: the factory after the call, the ticker
returned (`none` for `nil`) and the calls made to the index. -/
def getTicker (f : priceProviderFactory) (env : FetchEnv) (symbol : String) :
    Option (priceProviderFactory × Option Ticker × List Fetch) :=
  if f.lastUpdated + f.interval < env.now then do
    let (f1, fetches) ← f.update env
    let f2 := { f1 with lastUpdated := env.nowAfter }
    pure (f2, f2.priceCache symbol, fetches)
  else some (f, f.priceCache symbol, [])

end priceProviderFactory

/-- `math.Pow10(n)`: the product of the table entries `1e<32 * (n / 32)>` and `1e<n % 32>` for
`n ≥ 0`, the quotient of `1e-<32 * (-n / 32)>` by `1e<-n % 32>` for `n < 0`, each entry being the
`float64` nearest to the power of ten; up to `10 ^ 22` the result is the power of ten itself.
Results outside the range of `float64` (`n > 308`, `n < -323`) are not modelled. -/
def Pow10 (n : Int) : ℚ :=
  if 0 ≤ n then fl64 (fl64 ((10 : ℚ) ^ (32 * (n / 32))) * fl64 ((10 : ℚ) ^ (n % 32)))
  else fl64 (fl64 ((10 : ℚ) ^ (-(32 * (-n / 32)))) / fl64 ((10 : ℚ) ^ (-n % 32)))

/-- The price `priceProvider.GetPrice()` builds from the two tickers (lines 111-131), in
`float64`: `baseAmount := math.Pow10(precision)` and
`quoteAmount := baseAmount * baseBtc / quoteBtc`, the product rounded and then the quotient
rounded; both are then converted to `int64`. -/
def tickerPrice (market : Market) : Option Ticker → Option Ticker → Price
  | some baseTicker, some quoteTicker =>
    let baseBtc := baseTicker.btcPrice
    let quoteBtc := quoteTicker.btcPrice
    let baseAmount := Pow10 market.base.precision
    { base := { asset := market.base.id, amount := float64ToInt64 baseAmount }
      quote :=
        { asset := market.quote.id
          amount :=
            if quoteBtc = 0 then -2 ^ 63
            else float64ToInt64 (fl64 (fl64 (baseAmount * baseBtc) / quoteBtc)) } }
  | _, _ => zeroPrice

/-- `priceProvider.GetPrice()` for the provider of `market` on factory `f`: the factory
after the call, the price and the calls made to the index.  `env1` and `env2` are the
answers during the lookup of the base and of the quote ticker. -/
def GetPrice (market : Market) (f : priceProviderFactory) (env1 env2 : FetchEnv) :
    Option (priceProviderFactory × Price × List Fetch) := do
  let (f1, baseTicker, fetches1) ← f.getTicker env1 market.base.symbol
  let (f2, quoteTicker, fetches2) ← f1.getTicker env2 market.quote.symbol
  pure (f2, tickerPrice market baseTicker quoteTicker, fetches1 ++ fetches2)

end cmc

/-! ## `mm/blockchain/priceprovider.go`: the on-chain feed price provider -/

namespace blockchain

/-- The id `coreAsset`, `1.3.0`. -/
def coreAsset : GrapheneID := { space := 1, kind := 3, number := 0 }

/-- `corePrice()`. -/
def corePrice : Price :=
  { base := { asset := coreAsset, amount := 1 }, quote := { asset := coreAsset, amount := 1 } }

/-- `inversePrice(p)`. -/
def inversePrice (p : Price) : Price := { base := p.quote, quote := p.base }

/-- What `rpc.GetObjects(id)` answers: an error, a list whose first element is not a
`BitAssetData` (or an empty list), or bitasset data with its current settlement price. -/
inductive ObjectsAnswer where
  | error
  | malformed
  | bitasset (settlementPrice : Price)
deriving DecidableEq, Repr

/-- `assetPriceProvider.getAssetPrice(asset)`.  `none`: `data[0].(objects.BitAssetData)`
panicked. -/
def getAssetPrice (getObjects : GrapheneID → ObjectsAnswer) (asset : Asset) : Option Price :=
  let finish (price : Price) : Price :=
    if price.quote.asset ≠ coreAsset then inversePrice price else price
  match asset.bitassetDataID with
  | some id =>
    match getObjects id with
    | ObjectsAnswer.error => some zeroPrice
    | ObjectsAnswer.malformed => none
    | ObjectsAnswer.bitasset settlementPrice => some (finish settlementPrice)
  | none => some (finish corePrice)

/-- The price `assetPriceProvider.GetPrice()` builds from the two per-asset prices
(lines 78-89); the products are `int64` products. -/
def crossPrice (market : Market) (basePrice quotePrice : Price) : Price :=
  if !basePrice.Valid || !quotePrice.Valid then zeroPrice
  else
    { base := { asset := market.base.id
                amount := wrapInt64 (basePrice.base.amount * quotePrice.quote.amount) }
      quote := { asset := market.quote.id
                 amount := wrapInt64 (basePrice.quote.amount * quotePrice.base.amount) } }

/-- `assetPriceProvider.GetPrice()`. -/
def GetPrice (getObjects : GrapheneID → ObjectsAnswer) (market : Market) : Option Price := do
  let basePrice ← getAssetPrice getObjects market.base
  let quotePrice ← getAssetPrice getObjects market.quote
  pure (crossPrice market basePrice quotePrice)

end blockchain

/-! ## Price reporter: `pricefilter.go` -/

/-- `PriceFilterConfig`. -/
structure PriceFilterConfig where
  period : Int
  threshold : ℚ

/-- `pricePoint`. -/
structure pricePoint where
  price : ℚ
  timestamp : Int
deriving DecidableEq, Repr

/-- `PriceFilter`. -/
structure PriceFilter where
  period : Int
  threshold : ℚ
  sum : ℚ
  values : List pricePoint
deriving DecidableEq, Repr

/-- `NewPriceFilter(cfg)`: the period is `time.Duration(cfg.Period) * time.Second`. -/
def NewPriceFilter (cfg : PriceFilterConfig) : PriceFilter :=
  { period := cfg.period * 10 ^ 9, threshold := cfg.threshold, sum := 0, values := [] }

namespace PriceFilter

/-- `PriceFilter.Avg()`: `none` stands for `math.NaN()`.  The quotient is rounded to
`float64`; the conversion `float64(len(p.values))` of a length below 2^53 is exact. -/
def Avg (p : PriceFilter) : Option ℚ :=
  if p.values.length = 0 then none else some (fl64 (p.sum / p.values.length))

/-- The loop of `Add` that drops the values at the head of the window while they are before
the cutoff (lines 42-49): the sum and the values left.  `p.sum -= p.values[0].Price` rounds
the difference to `float64`. -/
def evict (cutoff : Int) : ℚ → List pricePoint → ℚ × List pricePoint
  | sum, [] => (sum, [])
  | sum, v :: vs =>
    if v.timestamp < cutoff then evict cutoff (fl64 (sum - v.price)) vs else (sum, v :: vs)

/-- `PriceFilter.Add(price, timestamp)`: the filter after the call and the value returned.
The bounds `avg*(1+p.threshold)` and `avg*(1-p.threshold)` and the new sum `p.sum + price` are
computed in `float64`, each operation rounded. -/
def Add (p : PriceFilter) (price : ℚ) (timestamp : Int) : PriceFilter × Bool :=
  if price = 0 then (p, false)
  else
    let cutoff := timestamp + -p.period
    let kept := evict cutoff p.sum p.values
    let p1 : PriceFilter := { p with sum := kept.1, values := kept.2 }
    let shouldReport : Bool :=
      match p1.Avg with
      | none => true
      | some avg =>
        !(decide (price > fl64 (avg * fl64 (1 + p.threshold))) ||
          decide (price < fl64 (avg * fl64 (1 - p.threshold))))
    ({ p1 with values := p1.values ++ [{ price := price, timestamp := timestamp }]
               sum := fl64 (p1.sum + price) },
      shouldReport)

end PriceFilter

/-! ## Price reporter: `sinusoid.go` -/

/-- `SinusoidConfig`. -/
structure SinusoidConfig where
  asset : String
  min : ℚ
  max : ℚ
  period : Int

/-- `GetSinusoidPrice(cfg, at)` at Unix time `unix`, in `float64`, every operation rounded;
`sin` stands for `math.Sin` of the standard library and `pi64` is `math.Pi` as a `float64`.
`none`: `cfg.Period` is zero and the remainder panics. -/
def GetSinusoidPrice (sin : ℚ → ℚ) (cfg : SinusoidConfig) (unix : Int) : Option ℚ :=
  if cfg.period = 0 then none
  else
    let pos := Int.tmod unix cfg.period
    let radian := fl64 (fl64 (fl64 (fl64 (pos : ℚ) / fl64 (cfg.period : ℚ)) * pi64) * 2)
    let amplitude := fl64 (fl64 (cfg.max - cfg.min) / 2)
    some (fl64 (fl64 (fl64 (sin radian * amplitude) + cfg.min) + amplitude))

/-! ## Closed forms, and definitions that follow the words of the specification -/

/-- Whether an operation is a create operation that offers the given asset. -/
def Operation.sells (asset : GrapheneID) : Operation → Bool
  | Operation.create _ amountToSell _ _ _ => decide (amountToSell.asset = asset)
  | Operation.cancel _ _ => false

/-- The operations one ladder step appends for finite rate `r`, volumes `s` and `b`. -/
def MarketMaker.stepOps (m : MarketMaker) (r s b spread : ℚ) (e : Int) : List Operation :=
  (if 10 < ⌊s⌋ ∧ 10 < ⌊s / r * (1 + spread / 2)⌋ then
    [Operation.create m.account
      { asset := m.market.base.id, amount := wrapInt64 (BigFloat.fin s).Uint64 }
      { asset := m.market.quote.id,
        amount := wrapInt64 (BigFloat.fin (s / r * (1 + spread / 2))).Uint64 }
      false e]
  else []) ++
  (if 10 < ⌊b / r / (1 + spread / 2)⌋ ∧ 10 < ⌊b⌋ then
    [Operation.create m.account
      { asset := m.market.quote.id,
        amount := wrapInt64 (BigFloat.fin (b / r / (1 + spread / 2))).Uint64 }
      { asset := m.market.base.id, amount := wrapInt64 (BigFloat.fin b).Uint64 }
      false e]
  else [])


/-- The spread of ladder step `i`: the configured spread plus `i` spread steps. -/
def MarketMaker.spreadAt (m : MarketMaker) (i : Nat) : ℚ :=
  m.cfg.market.spread + i * m.cfg.market.spreadStep

/-- The sell order of a ladder step with per-order volume `s`, ratio `r` and spread `spread`:
it sells `s` of the base asset for `s / r * (1 + spread/2)` of the quote asset, both truncated,
and is emitted only if both amounts exceed the threshold of 10. -/
def MarketMaker.sellOrderFor (m : MarketMaker) (s r spread : ℚ) (expiration : Int) :
    Option Operation :=
  if 10 < ⌊s⌋ ∧ 10 < ⌊s / r * (1 + spread / 2)⌋ then
    some (Operation.create m.account
      { asset := m.market.base.id, amount := ⌊s⌋ }
      { asset := m.market.quote.id, amount := ⌊s / r * (1 + spread / 2)⌋ }
      false expiration)
  else none

/-- The buy order of a ladder step with per-order volume `b`, ratio `r` and spread `spread`:
it sells `b / r / (1 + spread/2)` of the quote asset for `b` of the base asset, both truncated,
and is emitted only if both amounts exceed the threshold of 10. -/
def MarketMaker.buyOrderFor (m : MarketMaker) (b r spread : ℚ) (expiration : Int) :
    Option Operation :=
  if 10 < ⌊b / r / (1 + spread / 2)⌋ ∧ 10 < ⌊b⌋ then
    some (Operation.create m.account
      { asset := m.market.quote.id, amount := ⌊b / r / (1 + spread / 2)⌋ }
      { asset := m.market.base.id, amount := ⌊b⌋ }
      false expiration)
  else none


/-- The spread after `i` iterations of the loop of `createOrders` that starts at `spread`:
each iteration adds `step` in `float64`. -/
def Machine.spreadFrom (step : ℚ) : ℚ → Nat → ℚ
  | spread, 0 => spread
  | spread, i + 1 => Machine.spreadFrom step (fl64 (spread + step)) i

/-- The spread of ladder step `i` as the loop computes it: the configured spread with `i`
spread steps added one after the other, in `float64`. -/
def Machine.spreadAt (m : MarketMaker) (i : Nat) : ℚ :=
  Machine.spreadFrom m.cfg.market.spreadStep m.cfg.market.spread i

/-- The spread factor `1.0 + spread/2` of a ladder step, in `float64`. -/
def Machine.spreadValue (spread : ℚ) : ℚ := fl64 (1 + fl64 (spread / 2))

/-- The quote amount a sell order of volume `s` asks for at ratio `r` and spread `spread`:
the quotient `s / r` rounded to 64 bits, times the spread factor, rounded to 64 bits. -/
def Machine.receiveAmount (s r spread : ℚ) : ℚ :=
  round64 (round64 (s / r) * Machine.spreadValue spread)

/-- The quote amount a buy order of volume `b` offers at ratio `r` and spread `spread`:
the quotient `b / r` rounded to 64 bits, divided by the spread factor, rounded to 64 bits. -/
def Machine.offerAmount (b r spread : ℚ) : ℚ :=
  round64 (round64 (b / r) / Machine.spreadValue spread)

/-- The sell order of a ladder step with per-order volume `s`, ratio `r` and spread `spread`,
with the rounding of the program: it sells `s` of the base asset for `receiveAmount s r spread`
of the quote asset, both truncated, and is emitted only if both amounts exceed the threshold
of 10. -/
def Machine.sellOrderFor (m : MarketMaker) (s r spread : ℚ) (expiration : Int) :
    Option Operation :=
  if 10 < ⌊s⌋ ∧ 10 < ⌊Machine.receiveAmount s r spread⌋ then
    some (Operation.create m.account
      { asset := m.market.base.id, amount := ⌊s⌋ }
      { asset := m.market.quote.id, amount := ⌊Machine.receiveAmount s r spread⌋ }
      false expiration)
  else none

/-- The operations one ladder step appends, with the rounding of the program, for finite rate
`r`, volumes `s` and `b` and spread `spread`. -/
def Machine.stepOps (m : MarketMaker) (r s b spread : ℚ) (e : Int) : List Operation :=
  (if 10 < ⌊s⌋ ∧ 10 < ⌊Machine.receiveAmount s r spread⌋ then
    [Operation.create m.account
      { asset := m.market.base.id, amount := wrapInt64 (BigFloat.fin s).Uint64 }
      { asset := m.market.quote.id,
        amount := wrapInt64 (BigFloat.fin (Machine.receiveAmount s r spread)).Uint64 }
      false e]
  else []) ++
  (if 10 < ⌊Machine.offerAmount b r spread⌋ ∧ 10 < ⌊b⌋ then
    [Operation.create m.account
      { asset := m.market.quote.id,
        amount := wrapInt64 (BigFloat.fin (Machine.offerAmount b r spread)).Uint64 }
      { asset := m.market.base.id, amount := wrapInt64 (BigFloat.fin b).Uint64 }
      false e]
  else [])

/-- The amount an operation offers: the amount to sell of a create operation. -/
def Operation.offered : Operation → Int
  | Operation.create _ amountToSell _ _ _ => amountToSell.amount
  | Operation.cancel _ _ => 0

/-- The total amount of `asset` offered by the create operations of a list. -/
def soldOf (asset : GrapheneID) (ops : List Operation) : Int :=
  ((ops.filter (Operation.sells asset)).map Operation.offered).sum

/-- The `uint64` sum `uint64(balance) + resting` of a wallet balance and a resting volume. -/
def walletPlusResting (balance : Int) (resting : Nat) : Nat :=
  (wrapUint64 balance + resting) % 2 ^ 64

namespace cmc

/-- Every tracked symbol is in the listing: what `GetProvider` checks before it tracks a
symbol. -/
def priceProviderFactory.Listed (f : priceProviderFactory) : Prop :=
  ∀ sym ∈ f.providers, f.symbolMap sym ≠ none

/-- A factory that differs from `f` in the cache only. -/
def priceProviderFactory.SameButCache (f g : priceProviderFactory) : Prop :=
  g.interval = f.interval ∧ g.providers = f.providers ∧ g.symbolMap = f.symbolMap ∧
    g.lastUpdated = f.lastUpdated

end cmc

/-- The arithmetic mean of a list of numbers. -/
def mean (l : List ℚ) : ℚ := l.sum / l.length

/-- The values of a window that `Add` retains at time `timestamp`: those left after the values
at its head that are before the cutoff `timestamp - period` are dropped. -/
def PriceFilter.retained (p : PriceFilter) (timestamp : Int) : List pricePoint :=
  p.values.dropWhile (fun v => decide (v.timestamp < timestamp - p.period))

/-- The values at the head of a window that `Add` drops at time `timestamp`: the leading ones
before the cutoff `timestamp - period`. -/
def PriceFilter.evicted (p : PriceFilter) (timestamp : Int) : List pricePoint :=
  p.values.takeWhile (fun v => decide (v.timestamp < timestamp - p.period))

/-- The running sum `Add` is left with at time `timestamp` once the values before the cutoff
are dropped: the price of each is subtracted in turn, in `float64`. -/
def PriceFilter.sumAfterEviction (p : PriceFilter) (timestamp : Int) : ℚ :=
  (p.evicted timestamp).foldl (fun sum v => fl64 (sum - v.price)) p.sum

/-- The filter after a sequence of `Add` calls. -/
def PriceFilter.addAll (p : PriceFilter) (calls : List pricePoint) : PriceFilter :=
  calls.foldl (fun q c => (q.Add c.price c.timestamp).1) p

/-- The amplitude `(cfg.Max - cfg.Min) / 2` as `GetSinusoidPrice` computes it, in `float64`. -/
def SinusoidConfig.amplitude (cfg : SinusoidConfig) : ℚ := fl64 (fl64 (cfg.max - cfg.min) / 2)

/-- What the quarter points use of `math.Sin`, which is not part of the sources: `Sin(0) = 0`,
`Sin(math.Pi / 2) = 1` and `Sin(3 * math.Pi / 2) = -1` on the `float64` arguments; zero
elsewhere. -/
def sinAtQuarters (x : ℚ) : ℚ :=
  if x = pi64 / 2 then 1 else if x = 3 * pi64 / 2 then -1 else 0

/-! ## Concrete values (the ids and assets of the tests) -/

/-- The id `1.3.0` of the tests. -/
def idOTN : GrapheneID := { space := 1, kind := 3, number := 0 }

/-- The id `1.3.1` of the tests. -/
def idBTC : GrapheneID := { space := 1, kind := 3, number := 1 }

/-- The account id `1.2.17` of the tests. -/
def idSeller : GrapheneID := { space := 1, kind := 2, number := 17 }

/-- Another account id. -/
def idOther : GrapheneID := { space := 1, kind := 2, number := 18 }

/-- The asset `assetOTN` of the tests. -/
def assetOTN : Asset := { id := idOTN, symbol := "OTN", precision := 8 }

/-- The asset `assetBTC` of the tests. -/
def assetBTC : Asset := { id := idBTC, symbol := "BTC", precision := 8 }

/-- The market `marketOTNBTC` of the tests. -/
def marketOTNBTC : Market := { base := assetOTN, quote := assetBTC }

/-- A price of the OTN/BTC market: `baseAmount` OTN units for `quoteAmount` BTC units. -/
def priceOTNBTC (baseAmount quoteAmount : Int) : Price :=
  { base := { asset := idOTN, amount := baseAmount }
    quote := { asset := idBTC, amount := quoteAmount } }

/-- An order of the OTN/BTC book selling `forSale` units of `asset`. -/
def orderOf (number : Nat) (seller asset : GrapheneID) (forSale : Int) : LimitOrder :=
  { id := { space := 1, kind := 7, number := number }
    seller := seller
    forSale := forSale
    deferredFee := 0
    sellPrice :=
      { base := { asset := asset, amount := forSale }
        quote := { asset := if asset = idOTN then idBTC else idOTN, amount := forSale } } }

/-- A market configuration: one order per side, no spread, threshold 0.02, orders expiring
after 600 seconds. -/
def sampleMarketConfig : MarketConfig where
  base := "OTN"
  quote := "BTC"
  spread := 0
  threshold := 1 / 50
  expiration := 600
  amount := 1000
  orderCount := 1
  spreadStep := 0

/-- A maker of the OTN/BTC market holding 110 OTN units and no BTC, last updated at time 0
with rate 100. -/
def sampleMaker : MarketMaker where
  cfg := { market := sampleMarketConfig, account := "maker", feeReserve := { value := 0, exp := 0 } }
  feeAsset := idOTN
  market := marketOTNBTC
  account := idSeller
  baseBalance := { asset := idOTN, amount := 110 }
  quoteBalance := { asset := idBTC, amount := 0 }
  orderDuration := 600000000000
  lastPrice := 100
  lastMarketUpdate := 0

/-- A stand-in for `objects.Asset.CreateAmount` that yields `units` smallest units. -/
def fixedCreateAmount (units : Int) : Asset → ℚ → AssetAmount :=
  fun asset _ => { asset := asset.id, amount := units }

/-- The answers of the collaborators in a tick at time 10 with the given price and orders. -/
def sampleTick (price : Price) (orders : List LimitOrder) : TickEnv where
  price := price
  now := 10
  limitOrders := some orders
  balances := none
  orderNow := 10
  broadcastOk := true

/-- A maker of the OTN/BTC market holding no OTN and 2^63 - 2^40 BTC units. -/
def quoteRichMaker : MarketMaker :=
  { sampleMaker with
    baseBalance := { asset := idOTN, amount := 0 }
    quoteBalance := { asset := idBTC, amount := 9223370937343148032 } }

/-- The order book of `TestOrderBook`. -/
def testOrderBook : OrderBook :=
  { sell :=
      [ { id := { space := 1, kind := 7, number := 110 }, seller := idSeller,
          forSale := 1000000000000, deferredFee := 2000000000,
          sellPrice := { base := { asset := idOTN, amount := 1000000000000 },
                         quote := { asset := { space := 1, kind := 3, number := 2 }, amount := 297936749 } } },
        { id := { space := 1, kind := 7, number := 112 }, seller := idSeller,
          forSale := 1000000000000, deferredFee := 2000000000,
          sellPrice := { base := { asset := idOTN, amount := 1000000000000 },
                         quote := { asset := { space := 1, kind := 3, number := 2 }, amount := 300843449 } } },
        { id := { space := 1, kind := 7, number := 114 }, seller := idSeller,
          forSale := 1000000000000, deferredFee := 2000000000,
          sellPrice := { base := { asset := idOTN, amount := 1000000000000 },
                         quote := { asset := { space := 1, kind := 3, number := 2 }, amount := 303750149 } } } ]
    buy :=
      [ { id := { space := 1, kind := 7, number := 111 }, seller := idSeller,
          forSale := 283580487, deferredFee := 2000000000,
          sellPrice := { base := { asset := { space := 1, kind := 3, number := 2 }, amount := 283580487 },
                         quote := { asset := idOTN, amount := 1000000000000 } } },
        { id := { space := 1, kind := 7, number := 113 }, seller := idSeller,
          forSale := 280840579, deferredFee := 2000000000,
          sellPrice := { base := { asset := { space := 1, kind := 3, number := 2 }, amount := 280840579 },
                         quote := { asset := idOTN, amount := 1000000000000 } } },
        { id := { space := 1, kind := 7, number := 115 }, seller := idSeller,
          forSale := 278153110, deferredFee := 2000000000,
          sellPrice := { base := { asset := { space := 1, kind := 3, number := 2 }, amount := 278153110 },
                         quote := { asset := idOTN, amount := 1000000000000 } } } ] }

namespace cmc

/-- A factory that lists OTN and BTC, tracks both, was refreshed at time 0 with a refresh
interval of one minute, and caches the given BTC prices of OTN and BTC. -/
def sampleFactory (otnBtc btcBtc : ℚ) : priceProviderFactory where
  interval := 60000000000
  providers := ["OTN", "BTC"]
  priceCache := fun sym =>
    if sym = "OTN" then some { symbol := "OTN", btcPrice := otnBtc }
    else if sym = "BTC" then some { symbol := "BTC", btcPrice := btcBtc }
    else none
  symbolMap := fun sym =>
    if sym = "OTN" then some { id := 2, symbol := "OTN" }
    else if sym = "BTC" then some { id := 1, symbol := "BTC" }
    else none
  lastUpdated := 0

/-- The clock reads `now` and the index answers nothing. -/
def quietEnv (now : Int) : FetchEnv where
  now := now
  nowAfter := now
  bulk := none
  single := fun _ => none

end cmc

/-- The filter of `TestPriceFilterAllWithin` after its first four values: threshold 0.2 and
prices 1, 1, 1 and 1.2, as `float64` values. -/
def filterAfterFour : PriceFilter :=
  (NewPriceFilter { period := 10, threshold := 3602879701896397 / 2 ^ 54 }).addAll
    [{ price := 1, timestamp := 0 }, { price := 1, timestamp := 0 },
     { price := 1, timestamp := 0 }, { price := 5404319552844595 / 2 ^ 52, timestamp := 0 }]

/-- A filter of period ten seconds and threshold 0 after the prices 0.1 at time 0 and 0.2 five
seconds later, as `float64` values. -/
def driftFilter : PriceFilter :=
  (NewPriceFilter { period := 10, threshold := 0 }).addAll
    [{ price := 3602879701896397 / 2 ^ 55, timestamp := 0 },
     { price := 3602879701896397 / 2 ^ 54, timestamp := 5000000000 }]

/-- The configuration of `TestGetSinusoidPrice`. -/
def sampleSinusoid : SinusoidConfig :=
  { asset := "1.3.1", min := 1, max := 2, period := 60 }

/-- A configuration with minimum 0.01 and maximum 0.03, as `float64` values, and period 60. -/
def narrowSinusoid : SinusoidConfig :=
  { asset := "1.3.1", min := 5764607523034235 / 2 ^ 59, max := 1080863910568919 / 2 ^ 55,
    period := 60 }

/-- The sample maker with a spread of 0.01, as a `float64` value, holding 1000 OTN units. -/
def spreadMaker : MarketMaker :=
  { sampleMaker with
    cfg := { sampleMaker.cfg with
      market := { sampleMarketConfig with spread := 5764607523034235 / 2 ^ 59 } }
    baseBalance := { asset := idOTN, amount := 1000 } }

/-- A maker of the OTN/BTC market holding no OTN and 12345 BTC units. -/
def quoteHolder12345 : MarketMaker :=
  { sampleMaker with
    baseBalance := { asset := idOTN, amount := 0 }
    quoteBalance := { asset := idBTC, amount := 12345 } }

/-- A maker of the OTN/BTC market holding no OTN and 1000 BTC units. -/
def quoteHolder : MarketMaker :=
  { sampleMaker with
    baseBalance := { asset := idOTN, amount := 0 }
    quoteBalance := { asset := idBTC, amount := 1000 } }

/-- A maker of the OTN/BTC market configured with no order per side and holding nothing. -/
def emptyLadderMaker : MarketMaker :=
  { sampleMaker with
    cfg := { market := { sampleMarketConfig with orderCount := 0 }, account := "maker",
             feeReserve := { value := 0, exp := 0 } }
    baseBalance := { asset := idOTN, amount := 0 }
    quoteBalance := { asset := idBTC, amount := 0 } }

/-- The market of the base asset OTN (precision 8) against a quote asset of precision 5. -/
def marketMixedPrecision : Market :=
  { base := assetOTN, quote := { id := idBTC, symbol := "BTC", precision := 5 } }

namespace blockchain

/-- A market of two assets that both carry bitasset data. -/
def feedMarket : Market :=
  { base := { id := { space := 1, kind := 3, number := 3 }, symbol := "USD", precision := 4,
              bitassetDataID := some { space := 2, kind := 4, number := 3 } }
    quote := { id := { space := 1, kind := 3, number := 4 }, symbol := "CNY", precision := 4,
               bitassetDataID := some { space := 2, kind := 4, number := 4 } } }

/-- Settlement prices against the core asset: 2^32 units of the first asset for one core unit,
and one unit of the second asset for 2^31 core units. -/
def feedAnswers (id : GrapheneID) : ObjectsAnswer :=
  if id = { space := 2, kind := 4, number := 3 } then
    ObjectsAnswer.bitasset
      { base := { asset := { space := 1, kind := 3, number := 3 }, amount := 4294967296 }
        quote := { asset := coreAsset, amount := 1 } }
  else
    ObjectsAnswer.bitasset
      { base := { asset := { space := 1, kind := 3, number := 4 }, amount := 1 }
        quote := { asset := coreAsset, amount := 2147483648 } }

end blockchain

/-- The sample maker configured with a spread of -2, for which the spread factor is zero. -/
def zeroFactorMaker : MarketMaker :=
  { sampleMaker with
    cfg := { market := { sampleMarketConfig with spread := -2 }, account := "maker",
             feeReserve := { value := 0, exp := 0 } } }

/-! # Theorems -/

/-! ## Binary floating-point rounding -/

theorem roundHalfEven_of_lt (q : ℚ) (n : Int) (h1 : (n : ℚ) - 1 / 2 < q)
    (h2 : q < (n : ℚ) + 1 / 2) : roundHalfEven q = n := by
  unfold roundHalfEven
  by_cases hq : (n : ℚ) ≤ q
  · have hf : ⌊q⌋ = n := by
      rw [Int.floor_eq_iff]; constructor
      · exact hq
      · linarith
    rw [hf, if_pos (by linarith)]
  · have hf : ⌊q⌋ = n - 1 := by
      rw [Int.floor_eq_iff]; push_cast; constructor
      · linarith
      · linarith
    rw [hf]
    push_cast
    rw [if_neg (by linarith), if_pos (by linarith)]
    ring

theorem roundHalfEven_tie (n : Int) :
    roundHalfEven ((n : ℚ) + 1 / 2) = if n % 2 = 0 then n else n + 1 := by
  have hf : ⌊(n : ℚ) + 1 / 2⌋ = n := by
    rw [Int.floor_eq_iff]; constructor <;> linarith
  unfold roundHalfEven
  rw [hf, if_neg (by linarith), if_neg (by linarith)]

theorem roundHalfEven_intCast (n : Int) : roundHalfEven (n : ℚ) = n :=
  roundHalfEven_of_lt _ n (by linarith) (by linarith)

theorem two_zpow_pos (k : Int) : (0 : ℚ) < 2 ^ k := zpow_pos (by norm_num) k

theorem roundAt_of_lt (k : Int) (q : ℚ) (n : Int) (h1 : ((n : ℚ) - 1 / 2) * 2 ^ k < q)
    (h2 : q < ((n : ℚ) + 1 / 2) * 2 ^ k) : roundAt k q = (n : ℚ) * 2 ^ k := by
  unfold roundAt
  rw [roundHalfEven_of_lt _ n]
  · rw [lt_div_iff₀ (two_zpow_pos k)]; exact h1
  · rw [div_lt_iff₀ (two_zpow_pos k)]; exact h2

theorem roundAt_tie (k : Int) (q : ℚ) (n : Int) (h : q = ((n : ℚ) + 1 / 2) * 2 ^ k) :
    roundAt k q = ((if n % 2 = 0 then n else n + 1 : Int) : ℚ) * 2 ^ k := by
  unfold roundAt
  have : q / 2 ^ k = (n : ℚ) + 1 / 2 := by
    rw [h, mul_div_assoc, div_self (two_zpow_pos k).ne', mul_one]
  rw [this, roundHalfEven_tie]

theorem roundAt_exact (k : Int) (n : Int) : roundAt k ((n : ℚ) * 2 ^ k) = (n : ℚ) * 2 ^ k := by
  apply roundAt_of_lt
  · have := two_zpow_pos k; nlinarith
  · have := two_zpow_pos k; nlinarith

/-- The binary exponent of a positive rational between two consecutive powers of two. -/
theorem log2_eq (x : ℚ) (e : Int) (h1 : (2 : ℚ) ^ e ≤ x) (h2 : x < 2 ^ (e + 1)) :
    Int.log 2 x = e := by
  have hx : 0 < x := lt_of_lt_of_le (two_zpow_pos e) h1
  have ha : e ≤ Int.log 2 x := by
    rw [← Int.zpow_le_iff_le_log (by norm_num) hx]
    exact_mod_cast h1
  have hb : Int.log 2 x < e + 1 := by
    rw [← Int.lt_zpow_iff_log_lt (by norm_num) hx]
    exact_mod_cast h2
  omega

/-- Evaluation of `round64`: `q` has binary exponent `u + 63` and lies nearer to `n * 2 ^ u`
than to the neighbouring multiples of `2 ^ u`. -/
theorem round64_eq_of (q : ℚ) (u n : Int) (he1 : (2 : ℚ) ^ (u + 63) ≤ |q|)
    (he2 : |q| < 2 ^ (u + 64)) (h1 : ((n : ℚ) - 1 / 2) * 2 ^ u < q)
    (h2 : q < ((n : ℚ) + 1 / 2) * 2 ^ u) : round64 q = (n : ℚ) * 2 ^ u := by
  have hq : q ≠ 0 := by
    intro h; rw [h, abs_zero] at he1
    exact absurd he1 (not_le.mpr (two_zpow_pos _))
  have hlog : Int.log 2 |q| = u + 63 := log2_eq _ _ he1 (by
    have : u + 63 + 1 = u + 64 := by ring
    rw [this]; exact he2)
  unfold round64
  rw [if_neg hq, hlog]
  have : u + 63 - 63 = u := by ring
  rw [this]
  exact roundAt_of_lt u q n h1 h2

/-- Evaluation of `fl64` in the normal range. -/
theorem fl64_eq_of (q : ℚ) (u n : Int) (hu : -1074 ≤ u) (he1 : (2 : ℚ) ^ (u + 52) ≤ |q|)
    (he2 : |q| < 2 ^ (u + 53)) (h1 : ((n : ℚ) - 1 / 2) * 2 ^ u < q)
    (h2 : q < ((n : ℚ) + 1 / 2) * 2 ^ u) : fl64 q = (n : ℚ) * 2 ^ u := by
  have hq : q ≠ 0 := by
    intro h; rw [h, abs_zero] at he1
    exact absurd he1 (not_le.mpr (two_zpow_pos _))
  have hlog : Int.log 2 |q| = u + 52 := log2_eq _ _ he1 (by
    have : u + 52 + 1 = u + 53 := by ring
    rw [this]; exact he2)
  unfold fl64
  rw [if_neg hq, hlog]
  have : max (u + 52 - 52) (-1074) = u := by
    have : u + 52 - 52 = u := by ring
    rw [this]; exact max_eq_left hu
  rw [this]
  exact roundAt_of_lt u q n h1 h2

/-- Evaluation of `fl64` at a tie: `q` is halfway between two neighbouring `float64` values. -/
theorem fl64_tie_of (q : ℚ) (u n : Int) (hu : -1074 ≤ u) (he1 : (2 : ℚ) ^ (u + 52) ≤ |q|)
    (he2 : |q| < 2 ^ (u + 53)) (h : q = ((n : ℚ) + 1 / 2) * 2 ^ u) :
    fl64 q = ((if n % 2 = 0 then n else n + 1 : Int) : ℚ) * 2 ^ u := by
  have hq : q ≠ 0 := by
    intro h; rw [h, abs_zero] at he1
    exact absurd he1 (not_le.mpr (two_zpow_pos _))
  have hlog : Int.log 2 |q| = u + 52 := log2_eq _ _ he1 (by
    have : u + 52 + 1 = u + 53 := by ring
    rw [this]; exact he2)
  unfold fl64
  rw [if_neg hq, hlog]
  have : max (u + 52 - 52) (-1074) = u := by
    have : u + 52 - 52 = u := by ring
    rw [this]; exact max_eq_left hu
  rw [this]
  exact roundAt_tie u q n h

theorem roundAt_dyadic (u k n : Int) (h : u ≤ k) :
    roundAt u ((n : ℚ) * 2 ^ k) = (n : ℚ) * 2 ^ k := by
  obtain ⟨j, hj⟩ := Int.eq_ofNat_of_zero_le (sub_nonneg.mpr h)
  have hk : k = (j : Int) + u := by omega
  have h2 : (2 : ℚ) ^ k = ((2 ^ j : Int) : ℚ) * 2 ^ u := by
    rw [hk, zpow_add₀ (by norm_num : (2 : ℚ) ≠ 0)]
    push_cast
    rw [zpow_natCast]
  have h3 : (n : ℚ) * 2 ^ k = ((n * 2 ^ j : Int) : ℚ) * 2 ^ u := by
    rw [h2]; push_cast; ring
  rw [h3]
  exact roundAt_exact u _

/-- The binary exponent of `n * 2 ^ k` is below `b + k` when `|n| < 2 ^ b`. -/
theorem log2_dyadic_lt (n k : Int) (b : Nat) (hn0 : n ≠ 0) (hn : |n| < 2 ^ b) :
    Int.log 2 |(n : ℚ) * 2 ^ k| < (b : Int) + k := by
  have hpos : (0 : ℚ) < |(n : ℚ) * 2 ^ k| :=
    abs_pos.mpr (mul_ne_zero (by exact_mod_cast hn0) (two_zpow_pos k).ne')
  rw [← Int.lt_zpow_iff_log_lt (by norm_num) hpos]
  rw [abs_mul, abs_of_pos (two_zpow_pos k), zpow_add₀ (by norm_num), zpow_natCast]
  push_cast
  apply mul_lt_mul_of_pos_right _ (two_zpow_pos k)
  have : ((|n| : Int) : ℚ) < ((2 ^ b : Int) : ℚ) := by exact_mod_cast hn
  push_cast at this
  exact this

/-- A number with a mantissa below `2 ^ 64` is held exactly at precision 64. -/
theorem round64_dyadic (n k : Int) (hn : |n| < 2 ^ 64) :
    round64 ((n : ℚ) * 2 ^ k) = (n : ℚ) * 2 ^ k := by
  by_cases hn0 : n = 0
  · simp [hn0, round64]
  · have hq : (n : ℚ) * 2 ^ k ≠ 0 :=
      mul_ne_zero (by exact_mod_cast hn0) (two_zpow_pos k).ne'
    have hl := log2_dyadic_lt n k 64 hn0 hn
    unfold round64
    rw [if_neg hq]
    exact roundAt_dyadic _ k n (by push_cast at hl; omega)

/-- A number with a mantissa below `2 ^ 53` and last place not below `2 ^ -1074` is a
`float64`. -/
theorem fl64_dyadic (n k : Int) (hn : |n| < 2 ^ 53) (hk : -1074 ≤ k) :
    fl64 ((n : ℚ) * 2 ^ k) = (n : ℚ) * 2 ^ k := by
  by_cases hn0 : n = 0
  · simp [hn0, fl64]
  · have hq : (n : ℚ) * 2 ^ k ≠ 0 :=
      mul_ne_zero (by exact_mod_cast hn0) (two_zpow_pos k).ne'
    have hl := log2_dyadic_lt n k 53 hn0 hn
    unfold fl64
    rw [if_neg hq]
    exact roundAt_dyadic _ k n (by push_cast at hl; exact max_le (by omega) hk)

theorem round64_intCast (n : Int) (hn : |n| < 2 ^ 64) : round64 (n : ℚ) = n := by
  have := round64_dyadic n 0 hn
  simpa using this

theorem fl64_intCast (n : Int) (hn : |n| < 2 ^ 53) : fl64 (n : ℚ) = n := by
  have := fl64_dyadic n 0 hn (by norm_num)
  simpa using this

theorem round64_natCast (n : Nat) (hn : n < 2 ^ 64) : round64 (n : ℚ) = n := by
  have := round64_intCast (n : Int) (by rw [abs_of_nonneg (by positivity)]; exact_mod_cast hn)
  exact_mod_cast this

theorem round64_zero : round64 0 = 0 := by simp [round64]

theorem fl64_zero : fl64 0 = 0 := by simp [fl64]

theorem fl64_one : fl64 1 = 1 := by
  have := fl64_intCast 1 (by norm_num)
  simpa using this

/-- The nearest integer is within one half. -/
theorem roundHalfEven_close (x : ℚ) :
    (roundHalfEven x : ℚ) - 1 / 2 ≤ x ∧ x ≤ (roundHalfEven x : ℚ) + 1 / 2 := by
  have hfl := Int.floor_le x
  have hfl2 := Int.lt_floor_add_one x
  unfold roundHalfEven
  split_ifs with c1 c2 c3
  · constructor <;> linarith
  · push_cast; constructor <;> linarith
  · constructor <;> linarith
  · push_cast; constructor <;> linarith

theorem round64_ne_zero (q : ℚ) (hq : q ≠ 0) : round64 q ≠ 0 := by
  unfold round64
  rw [if_neg hq]
  unfold roundAt
  have hpos : (0 : ℚ) < |q| := abs_pos.mpr hq
  have hle := Int.zpow_log_le_self (by norm_num : 1 < 2) hpos
  push_cast at hle
  apply mul_ne_zero _ (two_zpow_pos _).ne'
  intro h0
  have habs : (2 : ℚ) ^ (63 : Int) ≤ |q / 2 ^ (Int.log 2 |q| - 63)| := by
    rw [abs_div, abs_of_pos (two_zpow_pos _), le_div_iff₀ (two_zpow_pos _),
      ← zpow_add₀ (by norm_num : (2 : ℚ) ≠ 0)]
    have : (63 : Int) + (Int.log 2 |q| - 63) = Int.log 2 |q| := by ring
    rw [this]; exact hle
  have hbig : (1 : ℚ) ≤ |q / 2 ^ (Int.log 2 |q| - 63)| :=
    le_trans (by norm_num) habs
  have hc := roundHalfEven_close (q / 2 ^ (Int.log 2 |q| - 63))
  rw [h0] at hc
  have : |q / 2 ^ (Int.log 2 |q| - 63)| ≤ 1 / 2 := by
    rw [abs_le]; constructor <;> linarith [hc.1, hc.2]
  linarith

theorem roundHalfEven_nonneg (x : ℚ) (h : 0 ≤ x) : 0 ≤ roundHalfEven x := by
  have hf : 0 ≤ ⌊x⌋ := Int.floor_nonneg.mpr h
  unfold roundHalfEven
  split_ifs <;> omega

theorem roundAt_nonneg (k : Int) (q : ℚ) (h : 0 ≤ q) : 0 ≤ roundAt k q := by
  unfold roundAt
  apply mul_nonneg _ (two_zpow_pos k).le
  exact_mod_cast roundHalfEven_nonneg _ (div_nonneg h (two_zpow_pos k).le)

theorem round64_nonneg (q : ℚ) (h : 0 ≤ q) : 0 ≤ round64 q := by
  unfold round64
  split
  · exact le_refl _
  · exact roundAt_nonneg _ _ h

theorem fl64_nonneg (q : ℚ) (h : 0 ≤ q) : 0 ≤ fl64 q := by
  unfold fl64
  split
  · exact le_refl _
  · exact roundAt_nonneg _ _ h

theorem round64_pos (q : ℚ) (h : 0 < q) : 0 < round64 q :=
  lt_of_le_of_ne (round64_nonneg q h.le) (Ne.symm (round64_ne_zero q h.ne'))

theorem fl64_natCast (n : Nat) (hn : n < 2 ^ 53) : fl64 (n : ℚ) = n := by
  have := fl64_intCast (n : Int) (by rw [abs_of_nonneg (by positivity)]; exact_mod_cast hn)
  exact_mod_cast this

/-- The mantissa `fl64` rounds to is at most `2 ^ 53` in absolute value. -/
theorem fl64_mantissa_le (q : ℚ) (hq : q ≠ 0) :
    |roundHalfEven (q / 2 ^ (max (Int.log 2 |q| - 52) (-1074)))| ≤ 2 ^ 53 := by
  have hpos : (0 : ℚ) < |q| := abs_pos.mpr hq
  have hlt := Int.lt_zpow_succ_log_self (by norm_num : 1 < 2) |q|
  push_cast at hlt
  set k := max (Int.log 2 |q| - 52) (-1074) with hk
  have hke : Int.log 2 |q| + 1 ≤ k + 53 := by
    have := le_max_left (Int.log 2 |q| - 52) (-1074)
    omega
  have habs : |q / 2 ^ k| < 2 ^ (53 : Int) := by
    rw [abs_div, abs_of_pos (two_zpow_pos _), div_lt_iff₀ (two_zpow_pos _),
      ← zpow_add₀ (by norm_num : (2 : ℚ) ≠ 0)]
    have h53 : (53 : Int) + k = k + 53 := by ring
    rw [h53]
    exact lt_of_lt_of_le hlt (zpow_le_zpow_right₀ (by norm_num) hke)
  have hc := roundHalfEven_close (q / 2 ^ k)
  rw [abs_lt] at habs
  have h1 : (roundHalfEven (q / 2 ^ k) : ℚ) < 2 ^ (53 : Int) + 1 / 2 := by linarith [hc.1]
  have h2 : -(2 ^ (53 : Int) : ℚ) - 1 / 2 < (roundHalfEven (q / 2 ^ k) : ℚ) := by
    linarith [hc.2]
  have h1' : roundHalfEven (q / 2 ^ k) < 2 ^ 53 + 1 := by
    have : (roundHalfEven (q / 2 ^ k) : ℚ) < ((2 ^ 53 + 1 : Int) : ℚ) := by
      push_cast; norm_num at h1 ⊢; linarith
    exact_mod_cast this
  have h2' : -(2 ^ 53) - 1 < roundHalfEven (q / 2 ^ k) := by
    have : ((-(2 ^ 53) - 1 : Int) : ℚ) < (roundHalfEven (q / 2 ^ k) : ℚ) := by
      push_cast; norm_num at h2 ⊢; linarith
    exact_mod_cast this
  rw [abs_le]
  constructor <;> omega

/-- Rounding to `float64` is idempotent: a `float64` value is its own rounding. -/
theorem fl64_idem (q : ℚ) : fl64 (fl64 q) = fl64 q := by
  by_cases hq : q = 0
  · simp [hq, fl64]
  · have hm := fl64_mantissa_le q hq
    have hk : -1074 ≤ max (Int.log 2 |q| - 52) (-1074) := le_max_right _ _
    have hval : fl64 q = (roundHalfEven (q / 2 ^ (max (Int.log 2 |q| - 52) (-1074))) : ℚ) *
        2 ^ (max (Int.log 2 |q| - 52) (-1074)) := by
      unfold fl64 roundAt; rw [if_neg hq]
    rw [hval]
    generalize roundHalfEven (q / 2 ^ (max (Int.log 2 |q| - 52) (-1074))) = n at hm
    generalize max (Int.log 2 |q| - 52) (-1074) = k at hk
    rcases lt_or_eq_of_le hm with hlt | heq
    · exact fl64_dyadic n k hlt hk
    · have hcase : n = 2 ^ 53 ∨ n = -(2 ^ 53) := by
        rcases abs_cases n with ⟨h1, _⟩ | ⟨h1, _⟩ <;> [left; right] <;> omega
      rcases hcase with rfl | rfl
      · have h2 : (((2 ^ 53 : Int)) : ℚ) * 2 ^ k = ((1 : Int) : ℚ) * 2 ^ (k + 53) := by
          rw [zpow_add₀ (by norm_num : (2 : ℚ) ≠ 0)]; push_cast; norm_num; ring
        rw [h2]
        exact fl64_dyadic 1 (k + 53) (by norm_num) (by omega)
      · have h2 : (((-(2 ^ 53) : Int)) : ℚ) * 2 ^ k = ((-1 : Int) : ℚ) * 2 ^ (k + 53) := by
          rw [zpow_add₀ (by norm_num : (2 : ℚ) ≠ 0)]; push_cast; norm_num; ring
        rw [h2]
        exact fl64_dyadic (-1) (k + 53) (by norm_num) (by omega)

/-- Every `float64` value is a mantissa below `2 ^ 53` times a power of two not below
`2 ^ -1074`. -/
theorem fl64_repr (q : ℚ) :
    ∃ n k : Int, -1074 ≤ k ∧ |n| < 2 ^ 53 ∧ fl64 q = (n : ℚ) * 2 ^ k := by
  by_cases hq : q = 0
  · exact ⟨0, 0, by norm_num, by norm_num, by simp [hq, fl64]⟩
  · have hm := fl64_mantissa_le q hq
    have hk : -1074 ≤ max (Int.log 2 |q| - 52) (-1074) := le_max_right _ _
    have hval : fl64 q = (roundHalfEven (q / 2 ^ (max (Int.log 2 |q| - 52) (-1074))) : ℚ) *
        2 ^ (max (Int.log 2 |q| - 52) (-1074)) := by
      unfold fl64 roundAt; rw [if_neg hq]
    rw [hval]
    generalize roundHalfEven (q / 2 ^ (max (Int.log 2 |q| - 52) (-1074))) = n at hm
    generalize max (Int.log 2 |q| - 52) (-1074) = k at hk
    rcases lt_or_eq_of_le hm with hlt | heq
    · exact ⟨n, k, hk, hlt, rfl⟩
    · have hcase : n = 2 ^ 53 ∨ n = -(2 ^ 53) := by
        rcases abs_cases n with ⟨h1, _⟩ | ⟨h1, _⟩ <;> [left; right] <;> omega
      rcases hcase with rfl | rfl
      · refine ⟨1, k + 53, by omega, by norm_num, ?_⟩
        rw [zpow_add₀ (by norm_num : (2 : ℚ) ≠ 0)]; push_cast; norm_num; ring
      · refine ⟨-1, k + 53, by omega, by norm_num, ?_⟩
        rw [zpow_add₀ (by norm_num : (2 : ℚ) ≠ 0)]; push_cast; norm_num; ring

/-- The negative of a `float64` value is a `float64` value. -/
theorem fl64_neg_of_fixed (x : ℚ) (h : fl64 x = x) : fl64 (-x) = -x := by
  obtain ⟨n, k, hk, hn, hx⟩ := fl64_repr x
  rw [h] at hx
  have : -x = ((-n : Int) : ℚ) * 2 ^ k := by rw [hx]; push_cast; ring
  rw [this]
  exact fl64_dyadic (-n) k (by rw [abs_neg]; exact hn) hk

/-- Evaluation of `fl64` at a number that needs no rounding. -/
theorem fl64_exact_of (q : ℚ) (n k : Int) (h : q = (n : ℚ) * 2 ^ k) (hn : |n| < 2 ^ 53)
    (hk : -1074 ≤ k) : fl64 q = q := by
  rw [h]; exact fl64_dyadic n k hn hk

/-- Evaluation of `round64` at a number that needs no rounding. -/
theorem round64_exact_of (q : ℚ) (n k : Int) (h : q = (n : ℚ) * 2 ^ k) (hn : |n| < 2 ^ 64) :
    round64 q = q := by
  rw [h]; exact round64_dyadic n k hn

/-- Evaluation of `fl64`, with the value given in any form. -/
theorem fl64_val (q v : ℚ) (u n : Int) (hu : -1074 ≤ u) (he1 : (2 : ℚ) ^ (u + 52) ≤ |q|)
    (he2 : |q| < 2 ^ (u + 53)) (h1 : ((n : ℚ) - 1 / 2) * 2 ^ u < q)
    (h2 : q < ((n : ℚ) + 1 / 2) * 2 ^ u) (hv : v = (n : ℚ) * 2 ^ u) : fl64 q = v := by
  rw [hv]; exact fl64_eq_of q u n hu he1 he2 h1 h2

/-- Evaluation of `fl64` at a tie that goes to the even neighbour below. -/
theorem fl64_tie_even (q v : ℚ) (u n : Int) (hu : -1074 ≤ u) (he1 : (2 : ℚ) ^ (u + 52) ≤ |q|)
    (he2 : |q| < 2 ^ (u + 53)) (h : q = ((n : ℚ) + 1 / 2) * 2 ^ u) (hn : n % 2 = 0)
    (hv : v = (n : ℚ) * 2 ^ u) : fl64 q = v := by
  rw [fl64_tie_of q u n hu he1 he2 h, if_pos hn, hv]

/-- Evaluation of `fl64` at a tie that goes to the even neighbour above. -/
theorem fl64_tie_odd (q v : ℚ) (u n : Int) (hu : -1074 ≤ u) (he1 : (2 : ℚ) ^ (u + 52) ≤ |q|)
    (he2 : |q| < 2 ^ (u + 53)) (h : q = ((n : ℚ) + 1 / 2) * 2 ^ u) (hn : n % 2 = 1)
    (hv : v = ((n + 1 : Int) : ℚ) * 2 ^ u) : fl64 q = v := by
  rw [fl64_tie_of q u n hu he1 he2 h, if_neg (by omega), hv]

/-- Evaluation of `round64`, with the value given in any form. -/
theorem round64_val (q v : ℚ) (u n : Int) (he1 : (2 : ℚ) ^ (u + 63) ≤ |q|)
    (he2 : |q| < 2 ^ (u + 64)) (h1 : ((n : ℚ) - 1 / 2) * 2 ^ u < q)
    (h2 : q < ((n : ℚ) + 1 / 2) * 2 ^ u) (hv : v = (n : ℚ) * 2 ^ u) : round64 q = v := by
  rw [hv]; exact round64_eq_of q u n he1 he2 h1 h2

/-- Evaluation of `fl64` at a number that needs no rounding, with the value given in any
form. -/
theorem fl64_exact_val (q v : ℚ) (n k : Int) (h : q = (n : ℚ) * 2 ^ k) (hn : |n| < 2 ^ 53)
    (hk : -1074 ≤ k) (hv : v = q) : fl64 q = v := by
  rw [hv]; exact fl64_exact_of q n k h hn hk

/-- Evaluation of `round64` at a number that needs no rounding, with the value given in any
form. -/
theorem round64_exact_val (q v : ℚ) (n k : Int) (h : q = (n : ℚ) * 2 ^ k) (hn : |n| < 2 ^ 64)
    (hv : v = q) : round64 q = v := by
  rw [hv]; exact round64_exact_of q n k h hn

/-- Rounding to 64 bits moves a number by at most `2 ^ -64` of its magnitude. -/
theorem round64_close (q : ℚ) : |round64 q - q| ≤ |q| / 2 ^ 64 := by
  by_cases hq : q = 0
  · simp [hq, round64]
  · have hpos : (0 : ℚ) < |q| := abs_pos.mpr hq
    have hle := Int.zpow_log_le_self (by norm_num : 1 < 2) hpos
    push_cast at hle
    have hc := roundHalfEven_close (q / 2 ^ (Int.log 2 |q| - 63))
    have h2 := two_zpow_pos (Int.log 2 |q| - 63)
    have hval : round64 q = (roundHalfEven (q / 2 ^ (Int.log 2 |q| - 63)) : ℚ) *
        2 ^ (Int.log 2 |q| - 63) := by
      unfold round64 roundAt; rw [if_neg hq]
    have hq2 : q = q / 2 ^ (Int.log 2 |q| - 63) * 2 ^ (Int.log 2 |q| - 63) := by
      field_simp
    have hdiff : round64 q - q =
        ((roundHalfEven (q / 2 ^ (Int.log 2 |q| - 63)) : ℚ) - q / 2 ^ (Int.log 2 |q| - 63)) *
          2 ^ (Int.log 2 |q| - 63) := by
      rw [hval, sub_mul, ← hq2]
    have habs : |(roundHalfEven (q / 2 ^ (Int.log 2 |q| - 63)) : ℚ) -
        q / 2 ^ (Int.log 2 |q| - 63)| ≤ 1 / 2 := by
      rw [abs_le]; constructor <;> linarith [hc.1, hc.2]
    have hsplit : (2 : ℚ) ^ (Int.log 2 |q|) = 2 ^ (Int.log 2 |q| - 63) * 2 ^ (63 : Int) := by
      rw [← zpow_add₀ (by norm_num : (2 : ℚ) ≠ 0)]
      congr 1; ring
    rw [hdiff, abs_mul, abs_of_pos h2, le_div_iff₀ (by norm_num)]
    have h3 : |(roundHalfEven (q / 2 ^ (Int.log 2 |q| - 63)) : ℚ) -
        q / 2 ^ (Int.log 2 |q| - 63)| * 2 ^ (Int.log 2 |q| - 63) ≤
        1 / 2 * 2 ^ (Int.log 2 |q| - 63) :=
      mul_le_mul_of_nonneg_right habs h2.le
    rw [hsplit] at hle
    norm_num at hle ⊢
    nlinarith

/-- The integer part of the quotient of a `uint64` value by a positive integer is not changed
by rounding the quotient to 64 bits. -/
theorem floor_round64_div (I : Nat) (N : Int) (hI : I < 2 ^ 64) (hN : 1 ≤ N) :
    ⌊round64 ((I : ℚ) / N)⌋ = ⌊(I : ℚ) / N⌋ := by
  have hNq : (0 : ℚ) < (N : ℚ) := by exact_mod_cast (by omega : 0 < N)
  have hx0 : (0 : ℚ) ≤ (I : ℚ) / N := div_nonneg (Nat.cast_nonneg _) hNq.le
  have hk1 := Int.floor_le ((I : ℚ) / N)
  have hk2 := Int.lt_floor_add_one ((I : ℚ) / N)
  have hk0 : 0 ≤ ⌊(I : ℚ) / N⌋ := Int.floor_nonneg.mpr hx0
  have hIq : (I : ℚ) < 2 ^ 64 := by exact_mod_cast hI
  -- the two integer gaps
  have hlow : ((⌊(I : ℚ) / N⌋ * N : Int) : ℚ) ≤ (I : ℚ) := by
    push_cast; rw [← le_div_iff₀ hNq]; exact hk1
  have hhigh : (I : ℚ) < (((⌊(I : ℚ) / N⌋ + 1) * N : Int) : ℚ) := by
    push_cast; rw [← div_lt_iff₀ hNq]; exact hk2
  have hlowZ : ⌊(I : ℚ) / N⌋ * N ≤ (I : Int) := by exact_mod_cast hlow
  have hhighZ : (I : Int) < (⌊(I : ℚ) / N⌋ + 1) * N := by exact_mod_cast hhigh
  rcases eq_or_lt_of_le hlowZ with heq | hlt
  · -- the quotient is an integer
    have hx : (I : ℚ) / N = ((⌊(I : ℚ) / N⌋ : Int) : ℚ) := by
      rw [div_eq_iff hNq.ne']
      have : ((⌊(I : ℚ) / N⌋ * N : Int) : ℚ) = ((I : Int) : ℚ) := by rw [heq]
      push_cast at this
      rw [this]
    have hkI : ⌊(I : ℚ) / N⌋ ≤ (I : Int) := by nlinarith
    rw [hx, round64_intCast _ (by rw [abs_of_nonneg hk0]; omega)]
  · have hclose := round64_close ((I : ℚ) / N)
    rw [abs_of_nonneg hx0, abs_le] at hclose
    have herr : (I : ℚ) / N / 2 ^ 64 < 1 / N := by
      rw [div_div, div_lt_div_iff₀ (by positivity) hNq]
      nlinarith
    have hgap1 : (⌊(I : ℚ) / N⌋ : ℚ) + 1 / N ≤ (I : ℚ) / N := by
      have h1 : ⌊(I : ℚ) / N⌋ * N + 1 ≤ (I : Int) := by omega
      have h2 : ((⌊(I : ℚ) / N⌋ * N + 1 : Int) : ℚ) ≤ ((I : Int) : ℚ) := by exact_mod_cast h1
      push_cast at h2
      rw [le_div_iff₀ hNq, add_mul, one_div, inv_mul_cancel₀ hNq.ne']
      exact h2
    have hgap2 : (I : ℚ) / N + 1 / N ≤ (⌊(I : ℚ) / N⌋ : ℚ) + 1 := by
      have h1 : (I : Int) + 1 ≤ (⌊(I : ℚ) / N⌋ + 1) * N := by omega
      have h2 : (((I : Int) + 1 : Int) : ℚ) ≤ (((⌊(I : ℚ) / N⌋ + 1) * N : Int) : ℚ) := by
        exact_mod_cast h1
      push_cast at h2
      rw [← add_div, div_le_iff₀ hNq]
      exact h2
    rw [Int.floor_eq_iff]
    constructor
    · linarith [hclose.1]
    · linarith [hclose.2]

/-- An integer rounded to 64 bits is an integer. -/
theorem round64_intCast_int (n : Int) : ∃ m : Int, round64 (n : ℚ) = m := by
  by_cases hn : |n| < 2 ^ 64
  · exact ⟨n, round64_intCast n hn⟩
  · have hn0 : (n : ℚ) ≠ 0 := by
      intro h
      have : n = 0 := by exact_mod_cast h
      rw [this] at hn; norm_num at hn
    have hpos : (0 : ℚ) < |(n : ℚ)| := abs_pos.mpr hn0
    have hbig : (2 : ℚ) ^ (64 : Int) ≤ |(n : ℚ)| := by
      have : ((2 ^ 64 : Int) : ℚ) ≤ ((|n| : Int) : ℚ) := by exact_mod_cast not_lt.mp hn
      push_cast at this
      norm_num at this ⊢
      exact this
    have hlog : (64 : Int) ≤ Int.log 2 |(n : ℚ)| :=
      (Int.zpow_le_iff_le_log (by norm_num) hpos).mp (by exact_mod_cast hbig)
    obtain ⟨j, hj⟩ := Int.eq_ofNat_of_zero_le (by omega : 0 ≤ Int.log 2 |(n : ℚ)| - 63)
    refine ⟨roundHalfEven ((n : ℚ) / 2 ^ (Int.log 2 |(n : ℚ)| - 63)) * 2 ^ j, ?_⟩
    unfold round64 roundAt
    rw [if_neg hn0, hj]
    push_cast
    rw [zpow_natCast]

/-! ## Machine integers and decimals -/

theorem wrapInt64_of_range {x : Int} (h1 : -2 ^ 63 ≤ x) (h2 : x < 2 ^ 63) : wrapInt64 x = x := by
  unfold wrapInt64; omega

theorem wrapUint64_of_range {x : Int} (h1 : 0 ≤ x) (h2 : x < 2 ^ 64) :
    (wrapUint64 x : Int) = x := by
  unfold wrapUint64; omega

/-- On a finite balance `reserveFee` returns the balance less the fee in smallest units when
the balance exceeds it, and zero otherwise. -/
theorem reserveFee_fin (balance : ℚ) (fee : Decimal) (precision : Int) :
    reserveFee (BigFloat.fin balance) fee precision =
      some (BigFloat.fin (if (feeUnits fee precision : ℚ) < balance
        then balance - feeUnits fee precision else 0)) := by
  unfold reserveFee BigFloat.SetInt64 BigFloat.Cmp
  by_cases h : (feeUnits fee precision : ℚ) < balance
  · have h2 : ¬ balance < (feeUnits fee precision : ℚ) := not_lt.mpr h.le
    simp [h, h2, BigFloat.Sub]
  · by_cases h3 : balance < (feeUnits fee precision : ℚ)
    · simp [h, h3]
    · simp [h, h3]

/-- The result of `reserveFee` on a finite balance is never negative. -/
theorem reserveFee_nonneg (balance : ℚ) (fee : Decimal) (precision : Int) :
    ∃ r : ℚ, reserveFee (BigFloat.fin balance) fee precision = some (BigFloat.fin r) ∧ 0 ≤ r := by
  refine ⟨_, reserveFee_fin balance fee precision, ?_⟩
  split
  · rename_i h; linarith
  · exact le_refl 0

/-- When the fee in smallest units did not wrap to a negative `int64`, the result of
`reserveFee` on a non-negative balance is at most the balance. -/
theorem reserveFee_le_balance (balance : ℚ) (fee : Decimal) (precision : Int)
    (hb : 0 ≤ balance) (hfee : 0 ≤ feeUnits fee precision) :
    ∃ r : ℚ, reserveFee (BigFloat.fin balance) fee precision = some (BigFloat.fin r) ∧
      0 ≤ r ∧ r ≤ balance := by
  have hq : (0 : ℚ) ≤ (feeUnits fee precision : ℚ) := by exact_mod_cast hfee
  refine ⟨_, reserveFee_fin balance fee precision, ?_, ?_⟩
  · split
    · rename_i h; linarith
    · exact le_refl 0
  · split
    · linarith
    · exact hb

/-- C2 (failing input): with balance 280, fee 10 and precision 18 the fee in smallest units,
10^19, wraps to the negative `int64` 10^19 - 2^64, and `reserveFee` returns
8446744073709551896, which is above the balance. -/
theorem reserveFee_fee_overflow :
    feeUnits { value := 10, exp := 0 } 18 = -8446744073709551616 ∧
    reserveFee (BigFloat.fin 280) { value := 10, exp := 0 } 18 =
      some (BigFloat.fin 8446744073709551896) ∧
    ¬ ((8446744073709551896 : ℚ) ≤ 280) := by
  have hfee : feeUnits { value := 10, exp := 0 } 18 = -8446744073709551616 := by decide
  refine ⟨hfee, ?_, by norm_num⟩
  rw [reserveFee_fin, hfee]
  norm_num

/-! ## `Market.GetRate` and the order book -/

theorem GetRate_of_not_valid (m : Market) (p : Price) (h : p.Valid = false) : m.GetRate p = 0 := by
  unfold Market.GetRate; simp [h]

theorem GetRate_of_no_match (m : Market) (p : Price)
    (h1 : ¬ (p.base.asset = m.base.id ∧ p.quote.asset = m.quote.id))
    (h2 : ¬ (p.base.asset = m.quote.id ∧ p.quote.asset = m.base.id)) : m.GetRate p = 0 := by
  unfold Market.GetRate; simp [h1, h2]

theorem mem_FilterBySeller {orders : List LimitOrder} {seller : GrapheneID} {o : LimitOrder} :
    o ∈ FilterBySeller orders seller ↔ o ∈ orders ∧ o.seller = seller := by
  simp [FilterBySeller]

theorem mem_FilterByAsset {orders : List LimitOrder} {asset : GrapheneID} {o : LimitOrder} :
    o ∈ FilterByAsset orders asset ↔ o ∈ orders ∧ o.sellPrice.base.asset = asset := by
  simp [FilterByAsset]

theorem mem_NewOrderBook_Orders {orders : List LimitOrder} {market : Market} {o : LimitOrder} :
    o ∈ (NewOrderBook orders market).Orders ↔
      o ∈ orders ∧ (o.sellPrice.base.asset = market.base.id ∨ o.sellPrice.base.asset = market.quote.id) := by
  simp [NewOrderBook, OrderBook.Orders, mem_FilterByAsset]
  tauto

theorem mem_createCancelOrders {m : MarketMaker} {ob : OrderBook} {op : Operation} :
    op ∈ m.createCancelOrders ob ↔
      ∃ o, o ∈ ob.Orders ∧ o.seller = m.account ∧ op = Operation.cancel o.id o.seller := by
  simp only [MarketMaker.createCancelOrders, List.mem_map, mem_FilterBySeller]
  constructor
  · rintro ⟨o, ⟨ho, hs⟩, rfl⟩; exact ⟨o, ho, hs, rfl⟩
  · rintro ⟨o, ho, hs, rfl⟩; exact ⟨o, ⟨ho, hs⟩, rfl⟩

/-- C3: when the reference price is invalid or its asset pair is not the market's (the rate
is then 0), a tick returns with the maker unchanged (so the last-observed rate and the
last-update time are unchanged), every operation it broadcasts is the cancel operation of an
order of the account among the orders the ledger returned (no create operation), it
broadcasts nothing when the account has no order on either side of the market, and when the
book loads every order of the account on either side is cancelled. -/
theorem makeMarket_invalid_price_cancels_only (createAmount : Asset → ℚ → AssetAmount)
    (m : MarketMaker) (t : Int) (env : TickEnv)
    (h : env.price.Valid = false ∨
      (¬ (env.price.base.asset = m.market.base.id ∧ env.price.quote.asset = m.market.quote.id) ∧
       ¬ (env.price.base.asset = m.market.quote.id ∧ env.price.quote.asset = m.market.base.id))) :
    m.market.GetRate env.price = 0 ∧
    ∃ calls, m.makeMarket createAmount t env = some (m, calls) ∧
      (∀ ops, Event.broadcast ops ∈ calls → ∀ op ∈ ops,
        ∃ o, (∃ orders, env.limitOrders = some orders ∧ o ∈ orders) ∧
          o.seller = m.account ∧ op = Operation.cancel o.id o.seller) ∧
      ((∀ orders, env.limitOrders = some orders → ∀ o ∈ orders, o.seller = m.account →
          o.sellPrice.base.asset ≠ m.market.base.id ∧ o.sellPrice.base.asset ≠ m.market.quote.id) →
        ∀ ops, Event.broadcast ops ∉ calls) ∧
      (∀ orders, env.limitOrders = some orders → ∀ o ∈ orders, o.seller = m.account →
        (o.sellPrice.base.asset = m.market.base.id ∨ o.sellPrice.base.asset = m.market.quote.id) →
        ∃ ops, Event.broadcast ops ∈ calls ∧ Operation.cancel o.id o.seller ∈ ops) := by
  have hrate : m.market.GetRate env.price = 0 := by
    rcases h with h | ⟨h1, h2⟩
    · exact GetRate_of_not_valid _ _ h
    · exact GetRate_of_no_match _ _ h1 h2
  refine ⟨hrate, m.CancelOrders env, ?_, ?_, ?_, ?_⟩
  · unfold MarketMaker.makeMarket; simp [hrate]
  · intro ops hops op hop
    unfold MarketMaker.CancelOrders MarketMaker.loadOrderBook at hops
    cases hlo : env.limitOrders with
    | none => simp [hlo] at hops
    | some orders =>
      simp only [hlo] at hops
      split at hops
      · simp only [List.mem_cons, reduceCtorEq, Event.broadcast.injEq, List.mem_singleton,
          false_or, List.not_mem_nil, or_false] at hops
        subst hops
        obtain ⟨o, ho, hs, rfl⟩ := mem_createCancelOrders.mp hop
        rw [mem_NewOrderBook_Orders, mem_FilterBySeller] at ho
        exact ⟨o, ⟨orders, rfl, ho.1.1⟩, hs, rfl⟩
      · simp at hops
  · intro hnone ops hops
    unfold MarketMaker.CancelOrders MarketMaker.loadOrderBook at hops
    cases hlo : env.limitOrders with
    | none => simp [hlo] at hops
    | some orders =>
      simp only [hlo] at hops
      split at hops
      · rename_i hlen
        have hne : m.createCancelOrders (NewOrderBook (FilterBySeller orders m.account) m.market) ≠ [] := by
          intro h0; rw [h0] at hlen; simp at hlen
        obtain ⟨op, hop⟩ := List.exists_mem_of_ne_nil _ hne
        obtain ⟨o, ho, hs, -⟩ := mem_createCancelOrders.mp hop
        rw [mem_NewOrderBook_Orders, mem_FilterBySeller] at ho
        have := hnone orders hlo o ho.1.1 hs
        rcases ho.2 with h1 | h2
        · exact this.1 h1
        · exact this.2 h2
      · simp at hops
  · intro orders hlo o ho hs hside
    have hop : Operation.cancel o.id o.seller ∈
        m.createCancelOrders (NewOrderBook (FilterBySeller orders m.account) m.market) :=
      mem_createCancelOrders.mpr ⟨o, by
        rw [mem_NewOrderBook_Orders, mem_FilterBySeller]
        exact ⟨⟨ho, hs⟩, hside⟩, hs, rfl⟩
    refine ⟨_, ?_, hop⟩
    unfold MarketMaker.CancelOrders MarketMaker.loadOrderBook
    simp only [hlo]
    rw [if_pos (List.length_pos_of_mem hop)]
    simp

theorem GetRate_of_match (m : Market) (p : Price) (hv : p.Valid = true)
    (hm : p.base.asset = m.base.id ∧ p.quote.asset = m.quote.id) :
    m.GetRate p = p.Rate m.base.precision m.quote.precision := by
  unfold Market.GetRate; simp [hv, hm]

theorem GetRate_of_reverse_match (m : Market) (p : Price) (hne : m.base.id ≠ m.quote.id)
    (hv : p.Valid = true) (hm : p.base.asset = m.quote.id ∧ p.quote.asset = m.base.id) :
    m.GetRate p = p.Rate m.quote.precision m.base.precision := by
  have hnot : ¬ (p.base.asset = m.base.id ∧ p.quote.asset = m.quote.id) := by
    rintro ⟨h1, -⟩
    exact hne (h1.symm.trans hm.1)
  unfold Market.GetRate; rw [if_pos hv, if_neg hnot, if_pos hm]

theorem Price.Rate_ne_zero (p : Price) (h : p.Valid = true) (a b : Int) : p.Rate a b ≠ 0 := by
  unfold Price.Valid at h
  simp only [Bool.and_eq_true, decide_eq_true_eq] at h
  unfold Price.Rate
  have h1 : (p.quote.amount : ℚ) ≠ 0 := by exact_mod_cast h.2.ne'
  have h2 : (p.base.amount : ℚ) ≠ 0 := by exact_mod_cast h.1.ne'
  have h3 : (10 : ℚ) ^ a ≠ 0 := zpow_ne_zero _ (by norm_num)
  have h4 : (10 : ℚ) ^ b ≠ 0 := zpow_ne_zero _ (by norm_num)
  exact div_ne_zero (div_ne_zero h1 h4) (div_ne_zero h2 h3)

/-- C5: for a market with distinct base and quote ids and a valid price, `GetRate` is non-zero
iff the price's asset pair is the market's pair in either orientation; in the market's
orientation it is the rate at (base, quote) precision, in the reversed orientation the rate
at the swapped precisions (quote, base); for an invalid price or a non-matching pair it is
zero. -/
theorem GetRate_match_iff (m : Market) (p : Price) (hne : m.base.id ≠ m.quote.id) :
    (p.Valid = true →
      (m.GetRate p ≠ 0 ↔
        (p.base.asset = m.base.id ∧ p.quote.asset = m.quote.id) ∨
        (p.base.asset = m.quote.id ∧ p.quote.asset = m.base.id))) ∧
    (p.Valid = true → p.base.asset = m.base.id ∧ p.quote.asset = m.quote.id →
      m.GetRate p = p.Rate m.base.precision m.quote.precision) ∧
    (p.Valid = true → p.base.asset = m.quote.id ∧ p.quote.asset = m.base.id →
      m.GetRate p = p.Rate m.quote.precision m.base.precision) ∧
    (p.Valid = false → m.GetRate p = 0) ∧
    (¬ (p.base.asset = m.base.id ∧ p.quote.asset = m.quote.id) →
      ¬ (p.base.asset = m.quote.id ∧ p.quote.asset = m.base.id) → m.GetRate p = 0) := by
  have hdirect := GetRate_of_match m p
  have hrev := GetRate_of_reverse_match m p hne
  refine ⟨?_, hdirect, hrev, GetRate_of_not_valid m p, GetRate_of_no_match m p⟩
  intro hv
  constructor
  · intro hrate
    by_contra hno
    rw [not_or] at hno
    exact hrate (GetRate_of_no_match m p hno.1 hno.2)
  · rintro (hm | hm)
    · rw [hdirect hv hm]; exact Price.Rate_ne_zero p hv _ _
    · rw [hrev hv hm]; exact Price.Rate_ne_zero p hv _ _

/-- C10: for a market whose base id differs from its quote id, every order of the Sell side
of `NewOrderBook` has the market's base asset as its sell-price base asset, and no order of
the Buy side has. -/
theorem NewOrderBook_sides (orders : List LimitOrder) (market : Market)
    (hne : market.base.id ≠ market.quote.id) :
    (∀ o ∈ (NewOrderBook orders market).sell, o.sellPrice.base.asset = market.base.id) ∧
    (∀ o ∈ (NewOrderBook orders market).buy, o.sellPrice.base.asset ≠ market.base.id) := by
  constructor
  · intro o ho
    exact (mem_FilterByAsset.mp ho).2
  · intro o ho h
    have := (mem_FilterByAsset.mp ho).2
    exact hne (h.symm.trans this)

/-! ## Witnesses of the theorems above at concrete inputs -/

/-- C3 at the zero price `objects.Price{}` with one order of the account in the book. -/
theorem makeMarket_invalid_price_cancels_only_witness :
    zeroPrice.Valid = false ∧
    ∃ calls, sampleMaker.makeMarket (fixedCreateAmount 1000) 10
        (sampleTick zeroPrice [orderOf 110 idSeller idOTN 50, orderOf 111 idOther idBTC 70]) =
      some (sampleMaker, calls) :=
  ⟨by decide,
    (makeMarket_invalid_price_cancels_only (fixedCreateAmount 1000) sampleMaker 10
      (sampleTick zeroPrice [orderOf 110 idSeller idOTN 50, orderOf 111 idOther idBTC 70])
      (Or.inl (by decide))).2.imp (fun _ h => h.1)⟩

/-- The rate of the sample market for the price `1 : q`. -/
theorem sampleMaker_rate (q : Int) (hq : 0 < q) :
    sampleMaker.market.GetRate (priceOTNBTC 1 q) = q := by
  have hv : (priceOTNBTC 1 q).Valid = true := by
    simp [Price.Valid, priceOTNBTC, hq]
  have := GetRate_of_match sampleMaker.market (priceOTNBTC 1 q) hv ⟨rfl, rfl⟩
  rw [this]
  simp only [Price.Rate, priceOTNBTC, sampleMaker, marketOTNBTC, assetOTN, assetBTC]
  norm_num
  field_simp

/-- C10 on a book of two orders of the OTN/BTC market. -/
theorem NewOrderBook_sides_witness :
    marketOTNBTC.base.id ≠ marketOTNBTC.quote.id ∧
    (∀ o ∈ (NewOrderBook [orderOf 110 idSeller idOTN 50, orderOf 111 idOther idBTC 70]
        marketOTNBTC).sell, o.sellPrice.base.asset = marketOTNBTC.base.id) ∧
    (∀ o ∈ (NewOrderBook [orderOf 110 idSeller idOTN 50, orderOf 111 idOther idBTC 70]
        marketOTNBTC).buy, o.sellPrice.base.asset ≠ marketOTNBTC.base.id) :=
  ⟨by decide, NewOrderBook_sides _ marketOTNBTC (by decide)⟩

/-- C5 on the OTN/BTC market at a price quoted in the reversed orientation. -/
theorem GetRate_match_iff_witness :
    marketOTNBTC.base.id ≠ marketOTNBTC.quote.id ∧
    marketOTNBTC.GetRate
        { base := { asset := idBTC, amount := 3 }, quote := { asset := idOTN, amount := 6 } } =
      Price.Rate { base := { asset := idBTC, amount := 3 }, quote := { asset := idOTN, amount := 6 } }
        marketOTNBTC.quote.precision marketOTNBTC.base.precision :=
  ⟨by decide,
    (GetRate_match_iff marketOTNBTC
      { base := { asset := idBTC, amount := 3 }, quote := { asset := idOTN, amount := 6 } }
      (by decide)).2.2.1 (by decide) ⟨rfl, rfl⟩⟩

/-! ## `createOrders` -/

open MarketMaker

theorem BigFloat.Quo_fin {x y : ℚ} (hy : y ≠ 0) :
    (BigFloat.fin x).Quo (BigFloat.fin y) = some (BigFloat.fin (x / y)) := by
  simp [BigFloat.Quo, hy]

theorem BigFloat.Mul_fin (x y : ℚ) :
    (BigFloat.fin x).Mul (BigFloat.fin y) = some (BigFloat.fin (x * y)) := rfl

theorem BigFloat.Cmp_fin_pos {x y : ℚ} : 0 < (BigFloat.fin x).Cmp (BigFloat.fin y) ↔ y < x := by
  unfold BigFloat.Cmp
  by_cases h1 : x < y
  · simp [h1, not_lt.mpr h1.le]
  · by_cases h2 : y < x
    · simp [h1, h2]
    · simp [h1, h2]

theorem BigFloat.Uint64_le (x : BigFloat) : x.Uint64 ≤ maxUint64 := by
  cases x with
  | fin q => exact min_le_right _ _
  | pinf => exact le_refl _
  | ninf => exact Nat.zero_le _

theorem BigFloat.threshold_lt_Uint64_fin (x : ℚ) :
    orderAmountThreshold < (BigFloat.fin x).Uint64 ↔ 10 < ⌊x⌋ := by
  unfold BigFloat.Uint64 orderAmountThreshold maxUint64
  rw [lt_min_iff]
  constructor
  · rintro ⟨h, -⟩; omega
  · intro h; constructor
    · omega
    · norm_num

theorem BigFloat.wrapInt64_Uint64_fin (x : ℚ) (h0 : 0 ≤ ⌊x⌋) (h1 : ⌊x⌋ < 2 ^ 63) :
    wrapInt64 ((BigFloat.fin x).Uint64 : Int) = ⌊x⌋ := by
  have : (BigFloat.fin x).Uint64 = Int.toNat ⌊x⌋ := by
    show min (Int.toNat ⌊x⌋) maxUint64 = Int.toNat ⌊x⌋
    apply min_eq_left; unfold maxUint64; omega
  rw [this, Int.toNat_of_nonneg h0]
  exact wrapInt64_of_range (by omega) h1

theorem refRate_of_valid (price : Price) (hv : price.Valid = true)
    (hB : price.base.amount < 2 ^ 64) (hQ : price.quote.amount < 2 ^ 64) :
    refRate price = some (BigFloat.fin ((price.base.amount : ℚ) / price.quote.amount)) ∧
    (0 : ℚ) < (price.base.amount : ℚ) / price.quote.amount := by
  unfold Price.Valid at hv
  simp only [Bool.and_eq_true, decide_eq_true_eq] at hv
  have hb : ((wrapUint64 price.base.amount : ℕ) : ℚ) = (price.base.amount : ℚ) := by
    have := wrapUint64_of_range hv.1.le hB
    exact_mod_cast congrArg (fun z : Int => (z : ℚ)) this
  have hq : ((wrapUint64 price.quote.amount : ℕ) : ℚ) = (price.quote.amount : ℚ) := by
    have := wrapUint64_of_range hv.2.le hQ
    exact_mod_cast congrArg (fun z : Int => (z : ℚ)) this
  have hq0 : (0 : ℚ) < (price.quote.amount : ℚ) := by exact_mod_cast hv.2
  have hb0 : (0 : ℚ) < (price.base.amount : ℚ) := by exact_mod_cast hv.1
  constructor
  · unfold refRate BigFloat.SetUint64
    rw [hb, hq, BigFloat.Quo_fin hq0.ne']
  · exact div_pos hb0 hq0

theorem sellStep_fin (m : MarketMaker) (r s f : ℚ) (e : Int) (hr : r ≠ 0) :
    m.sellStep (BigFloat.fin r) (BigFloat.fin s) (BigFloat.fin f) e =
      some (if 10 < ⌊s⌋ ∧ 10 < ⌊s / r * f⌋ then
        [Operation.create m.account
          { asset := m.market.base.id, amount := wrapInt64 (BigFloat.fin s).Uint64 }
          { asset := m.market.quote.id, amount := wrapInt64 (BigFloat.fin (s / r * f)).Uint64 }
          false e]
      else []) := by
  unfold MarketMaker.sellStep
  simp only [BigFloat.Quo_fin hr, BigFloat.Mul_fin, Option.bind_eq_bind, Option.some_bind,
    BigFloat.threshold_lt_Uint64_fin, gt_iff_lt]
  split <;> rfl

theorem buyStep_fin (m : MarketMaker) (r b f : ℚ) (e : Int) (hr : r ≠ 0) (hf : f ≠ 0) :
    m.buyStep (BigFloat.fin r) (BigFloat.fin b) (BigFloat.fin f) e =
      some (if 10 < ⌊b / r / f⌋ ∧ 10 < ⌊b⌋ then
        [Operation.create m.account
          { asset := m.market.quote.id, amount := wrapInt64 (BigFloat.fin (b / r / f)).Uint64 }
          { asset := m.market.base.id, amount := wrapInt64 (BigFloat.fin b).Uint64 }
          false e]
      else []) := by
  unfold MarketMaker.buyStep
  simp only [BigFloat.Quo_fin hr, BigFloat.Quo_fin hf, Option.bind_eq_bind, Option.some_bind,
    BigFloat.threshold_lt_Uint64_fin, gt_iff_lt]
  split <;> rfl

/-- Whatever its arguments, a sell step that returns appends nothing or one create operation
that offers the base asset for the quote asset, both amounts being `uint64` values above the
threshold converted to `int64`. -/
theorem sellStep_some (m : MarketMaker) (rate sv f : BigFloat) (e : Int) (l : List Operation)
    (h : m.sellStep rate sv f e = some l) :
    l = [] ∨ ∃ sa ra : Nat, orderAmountThreshold < sa ∧ orderAmountThreshold < ra ∧
      sa ≤ maxUint64 ∧ ra ≤ maxUint64 ∧
      l = [Operation.create m.account { asset := m.market.base.id, amount := wrapInt64 sa }
        { asset := m.market.quote.id, amount := wrapInt64 ra } false e] := by
  unfold MarketMaker.sellStep at h
  simp only [Option.bind_eq_bind, Option.bind_eq_some] at h
  obtain ⟨x, -, y, -, h⟩ := h
  split at h
  · rename_i hg
    right
    refine ⟨sv.Uint64, y.Uint64, hg.1, hg.2, BigFloat.Uint64_le _, BigFloat.Uint64_le _, ?_⟩
    simpa using h.symm
  · left; simpa using h.symm

theorem buyStep_some (m : MarketMaker) (rate bv f : BigFloat) (e : Int) (l : List Operation)
    (h : m.buyStep rate bv f e = some l) :
    l = [] ∨ ∃ sa ra : Nat, orderAmountThreshold < sa ∧ orderAmountThreshold < ra ∧
      sa ≤ maxUint64 ∧ ra ≤ maxUint64 ∧
      l = [Operation.create m.account { asset := m.market.quote.id, amount := wrapInt64 sa }
        { asset := m.market.base.id, amount := wrapInt64 ra } false e] := by
  unfold MarketMaker.buyStep at h
  simp only [Option.bind_eq_bind, Option.bind_eq_some] at h
  obtain ⟨x, -, y, -, h⟩ := h
  split at h
  · rename_i hg
    right
    refine ⟨y.Uint64, bv.Uint64, hg.1, hg.2, BigFloat.Uint64_le _, BigFloat.Uint64_le _, ?_⟩
    simpa using h.symm
  · left; simpa using h.symm

/-- Unfolding of one iteration of the loop. -/
theorem ladder_succ (m : MarketMaker) (rate sv bv : BigFloat) (e : Int) (n : Nat) (spread : ℚ)
    (ops0 ops : List Operation) :
    m.ladder rate sv bv e (n + 1) spread ops0 = some ops ↔
      ∃ sellOps buyOps,
        m.sellStep rate sv (BigFloat.fin (1 + spread / 2)) e = some sellOps ∧
        m.buyStep rate bv (BigFloat.fin (1 + spread / 2)) e = some buyOps ∧
        m.ladder rate sv bv e n (spread + m.cfg.market.spreadStep) (ops0 ++ sellOps ++ buyOps)
          = some ops := by
  rw [MarketMaker.ladder]
  simp only [Option.bind_eq_bind, Option.bind_eq_some]
  constructor
  · rintro ⟨a, h1, b, h2, h3⟩; exact ⟨a, b, h1, h2, h3⟩
  · rintro ⟨a, b, h1, h2, h3⟩; exact ⟨a, h1, b, h2, h3⟩

/-- Every operation the loop appends is a create operation of the account whose two amounts
are `uint64` values above the threshold, converted to `int64`. -/
theorem ladder_guard (m : MarketMaker) (rate sv bv : BigFloat) (e : Int) :
    ∀ (n : Nat) (spread : ℚ) (ops0 ops : List Operation),
      m.ladder rate sv bv e n spread ops0 = some ops →
      ∀ op ∈ ops, op ∈ ops0 ∨
        ∃ (sa ra : Nat) (a1 a2 : GrapheneID),
          orderAmountThreshold < sa ∧ orderAmountThreshold < ra ∧
          sa ≤ maxUint64 ∧ ra ≤ maxUint64 ∧
          op = Operation.create m.account { asset := a1, amount := wrapInt64 sa }
            { asset := a2, amount := wrapInt64 ra } false e := by
  intro n
  induction n with
  | zero =>
    intro spread ops0 ops h op hop
    simp only [MarketMaker.ladder, Option.some.injEq] at h
    subst h; exact Or.inl hop
  | succ n ih =>
    intro spread ops0 ops h op hop
    obtain ⟨sellOps, buyOps, hs, hb, hrest⟩ := (ladder_succ m rate sv bv e n spread ops0 ops).mp h
    rcases ih _ _ _ hrest op hop with hmem | hnew
    · rw [List.append_assoc, List.mem_append] at hmem
      rcases hmem with h0 | h1
      · exact Or.inl h0
      · right
        rw [List.mem_append] at h1
        rcases h1 with h1 | h1
        · rcases sellStep_some m rate sv _ e sellOps hs with hnil | ⟨sa, ra, h1a, h2a, h3a, h4a, hl⟩
          · rw [hnil] at h1; simp at h1
          · rw [hl, List.mem_singleton] at h1
            exact ⟨sa, ra, _, _, h1a, h2a, h3a, h4a, h1⟩
        · rcases buyStep_some m rate bv _ e buyOps hb with hnil | ⟨sa, ra, h1a, h2a, h3a, h4a, hl⟩
          · rw [hnil] at h1; simp at h1
          · rw [hl, List.mem_singleton] at h1
            exact ⟨sa, ra, _, _, h1a, h2a, h3a, h4a, h1⟩
    · exact Or.inr hnew

theorem createOrders_unfold (createAmount : Asset → ℚ → AssetAmount) (m : MarketMaker)
    (price : Price) (ob : OrderBook) (now : Int) (ops : List Operation) :
    m.createOrders createAmount price ob now = some ops ↔
      ∃ rate sv bv, refRate price = some rate ∧
        m.sellOrderVolume createAmount ob = some sv ∧
        m.buyOrderVolume createAmount rate ob = some bv ∧
        m.ladder rate sv bv (now + m.orderDuration) m.cfg.market.orderCount.toNat
          m.cfg.market.spread [] = some ops := by
  unfold MarketMaker.createOrders
  simp only [Option.bind_eq_bind, Option.bind_eq_some]
  constructor
  · rintro ⟨a, h1, b, h2, c, h3, h4⟩; exact ⟨a, b, c, h1, h2, h3, h4⟩
  · rintro ⟨a, b, c, h1, h2, h3, h4⟩; exact ⟨a, h1, b, h2, c, h3, h4⟩

/-- Every operation `createOrders` returns is a create operation of the account whose two
amounts are `uint64` values above the threshold, converted to `int64`. -/
theorem createOrders_guard (createAmount : Asset → ℚ → AssetAmount) (m : MarketMaker)
    (price : Price) (ob : OrderBook) (now : Int) (ops : List Operation)
    (h : m.createOrders createAmount price ob now = some ops) :
    ∀ op ∈ ops, ∃ (sa ra : Nat) (a1 a2 : GrapheneID),
      orderAmountThreshold < sa ∧ orderAmountThreshold < ra ∧
      sa ≤ maxUint64 ∧ ra ≤ maxUint64 ∧
      op = Operation.create m.account { asset := a1, amount := wrapInt64 sa }
        { asset := a2, amount := wrapInt64 ra } false (now + m.orderDuration) := by
  obtain ⟨rate, sv, bv, -, -, -, hl⟩ := (createOrders_unfold _ _ _ _ _ _).mp h
  intro op hop
  rcases ladder_guard m rate sv bv _ _ _ _ _ hl op hop with h0 | h1
  · simp at h0
  · exact h1

theorem filter_sells_sellStep (m : MarketMaker) (r s f : ℚ) (e : Int)
    (h1 : ⌊s⌋ < 2 ^ 63) (h2 : ⌊s / r * (1 + f / 2)⌋ < 2 ^ 63) :
    (if 10 < ⌊s⌋ ∧ 10 < ⌊s / r * (1 + f / 2)⌋ then
        [Operation.create m.account
          { asset := m.market.base.id, amount := wrapInt64 (BigFloat.fin s).Uint64 }
          { asset := m.market.quote.id,
            amount := wrapInt64 (BigFloat.fin (s / r * (1 + f / 2))).Uint64 }
          false e]
      else []).filter (Operation.sells m.market.base.id) =
    (m.sellOrderFor s r f e).toList := by
  unfold MarketMaker.sellOrderFor
  split
  · rename_i hg
    rw [BigFloat.wrapInt64_Uint64_fin _ (by omega) h1,
      BigFloat.wrapInt64_Uint64_fin _ (by omega) h2]
    simp [Operation.sells]
  · simp

theorem filter_sells_buyStep (m : MarketMaker) (hne : m.market.base.id ≠ m.market.quote.id)
    (rate bv f : BigFloat) (e : Int) (l : List Operation)
    (h : m.buyStep rate bv f e = some l) :
    l.filter (Operation.sells m.market.base.id) = [] := by
  rcases buyStep_some m rate bv f e l h with hnil | ⟨sa, ra, -, -, -, -, hl⟩
  · rw [hnil]; rfl
  · rw [hl]; simp [Operation.sells, Ne.symm hne]

theorem ladder_sells (m : MarketMaker) (hne : m.market.base.id ≠ m.market.quote.id)
    (r s : ℚ) (bv : BigFloat) (e : Int) (hr : r ≠ 0) (hs : ⌊s⌋ < 2 ^ 63) :
    ∀ (n : Nat) (spread : ℚ) (ops0 ops : List Operation),
      (∀ i : ℕ, i < n → ⌊s / r * (1 + (spread + (i : ℚ) * m.cfg.market.spreadStep) / 2)⌋ < 2 ^ 63) →
      m.ladder (BigFloat.fin r) (BigFloat.fin s) bv e n spread ops0 = some ops →
      ops.filter (Operation.sells m.market.base.id) =
        ops0.filter (Operation.sells m.market.base.id) ++
          (List.range n).filterMap
            (fun i : ℕ => m.sellOrderFor s r (spread + (i : ℚ) * m.cfg.market.spreadStep) e) := by
  intro n
  induction n with
  | zero =>
    intro spread ops0 ops _ h
    simp only [MarketMaker.ladder, Option.some.injEq] at h
    subst h; simp
  | succ n ih =>
    intro spread ops0 ops hfit h
    obtain ⟨sellOps, buyOps, hsell, hbuy, hrest⟩ :=
      (ladder_succ m _ _ bv e n spread ops0 ops).mp h
    rw [sellStep_fin m r s _ e hr] at hsell
    have hfit0 := hfit 0 (Nat.succ_pos n)
    simp only [Nat.cast_zero, zero_mul, add_zero] at hfit0
    have hrec := ih (spread + m.cfg.market.spreadStep) _ ops (by
      intro i hi
      have := hfit (i + 1) (Nat.succ_lt_succ hi)
      have heq : spread + ((i + 1 : ℕ) : ℚ) * m.cfg.market.spreadStep =
          spread + m.cfg.market.spreadStep + (i : ℚ) * m.cfg.market.spreadStep := by
        push_cast; ring
      rwa [heq] at this) hrest
    rw [hrec, List.filter_append, List.filter_append, filter_sells_buyStep m hne _ _ _ _ _ hbuy,
      ← Option.some.inj hsell, filter_sells_sellStep m r s spread e hs hfit0,
      List.range_succ_eq_map, List.filterMap_cons, List.filterMap_map]
    have hfun : (fun i : ℕ => m.sellOrderFor s r
          (spread + m.cfg.market.spreadStep + (i : ℚ) * m.cfg.market.spreadStep) e) =
        ((fun i : ℕ => m.sellOrderFor s r (spread + (i : ℚ) * m.cfg.market.spreadStep) e) ∘
          Nat.succ) := by
      funext i
      simp only [Function.comp, Nat.succ_eq_add_one]
      congr 1
      push_cast; ring
    rw [hfun]
    simp only [Nat.cast_zero, zero_mul, add_zero, List.append_nil, List.append_assoc]
    cases m.sellOrderFor s r spread e <;> simp

theorem quoteAvailable_fin (m : MarketMaker) (ob : OrderBook) :
    ∃ a : ℚ, m.quoteAvailable ob = some (BigFloat.fin a) ∧ 0 ≤ a := by
  unfold MarketMaker.quoteAvailable BigFloat.SetUint64
  simp only []
  split
  · exact reserveFee_nonneg _ _ _
  · exact ⟨_, rfl, Nat.cast_nonneg _⟩

theorem baseAvailable_of_no_reserve (m : MarketMaker) (ob : OrderBook)
    (h : m.cfg.feeReserve.IsZero = true) :
    m.baseAvailable ob = some (BigFloat.fin
      (((wrapUint64 m.baseBalance.amount + ob.SellAmount) % 2 ^ 64 : ℕ) : ℚ)) := by
  unfold MarketMaker.baseAvailable BigFloat.SetUint64
  simp [h]

theorem quoteAvailable_of_no_reserve (m : MarketMaker) (ob : OrderBook)
    (h : m.cfg.feeReserve.IsZero = true) :
    m.quoteAvailable ob = some (BigFloat.fin
      (((wrapUint64 m.quoteBalance.amount + ob.BuyAmount) % 2 ^ 64 : ℕ) : ℚ)) := by
  unfold MarketMaker.quoteAvailable BigFloat.SetUint64
  simp [h]

/-- The configured amount as a rational. -/
theorem amountLimit_eq (createAmount : Asset → ℚ → AssetAmount) (m : MarketMaker) :
    m.amountLimit createAmount = BigFloat.fin
      ((wrapUint64 (createAmount m.market.base m.cfg.market.amount).amount : ℕ) : ℚ) := rfl

theorem limit_select (l a : ℚ) :
    (if (BigFloat.fin l).Cmp (BigFloat.fin a) > 0 then BigFloat.fin a else BigFloat.fin l) =
      BigFloat.fin (min l a) := by
  simp only [gt_iff_lt, BigFloat.Cmp_fin_pos]
  by_cases h : a < l
  · rw [if_pos h, min_eq_right h.le]
  · rw [if_neg h, min_eq_left (not_lt.mp h)]

theorem sellOrderVolume_fin (createAmount : Asset → ℚ → AssetAmount) (m : MarketMaker)
    (ob : OrderBook) (a : ℚ) (ha : m.baseAvailable ob = some (BigFloat.fin a))
    (hN : m.cfg.market.orderCount ≠ 0) :
    m.sellOrderVolume createAmount ob = some (BigFloat.fin
      (min ((wrapUint64 (createAmount m.market.base m.cfg.market.amount).amount : ℕ) : ℚ) a /
        m.cfg.market.orderCount)) := by
  have hN' : (m.cfg.market.orderCount : ℚ) ≠ 0 := by exact_mod_cast hN
  unfold MarketMaker.sellOrderVolume MarketMaker.baseLimit
  simp only [ha, amountLimit_eq, Option.bind_eq_bind, Option.some_bind, Option.pure_def,
    limit_select, BigFloat.SetInt64, BigFloat.Quo_fin hN']

theorem buyOrderVolume_fin (createAmount : Asset → ℚ → AssetAmount) (m : MarketMaker)
    (ob : OrderBook) (q r : ℚ) (hq : m.quoteAvailable ob = some (BigFloat.fin q))
    (hN : m.cfg.market.orderCount ≠ 0) :
    m.buyOrderVolume createAmount (BigFloat.fin r) ob = some (BigFloat.fin
      (min ((wrapUint64 (createAmount m.market.base m.cfg.market.amount).amount : ℕ) : ℚ) (q * r) /
        m.cfg.market.orderCount)) := by
  have hN' : (m.cfg.market.orderCount : ℚ) ≠ 0 := by exact_mod_cast hN
  unfold MarketMaker.buyOrderVolume MarketMaker.quoteLimit
  simp only [hq, amountLimit_eq, Option.bind_eq_bind, Option.some_bind, Option.pure_def,
    BigFloat.Mul_fin, limit_select, BigFloat.SetInt64, BigFloat.Quo_fin hN']

/-- With a finite non-zero rate, finite volumes and non-zero spread factors, the loop
returns, and appends the operations of its steps in order. -/
theorem ladder_fin (m : MarketMaker) (r s b : ℚ) (e : Int) (hr : r ≠ 0) :
    ∀ (n : Nat) (spread : ℚ) (ops0 : List Operation),
      (∀ i : ℕ, i < n → 1 + (spread + (i : ℚ) * m.cfg.market.spreadStep) / 2 ≠ 0) →
      m.ladder (BigFloat.fin r) (BigFloat.fin s) (BigFloat.fin b) e n spread ops0 =
        some (ops0 ++ (List.range n).flatMap
          (fun i : ℕ => m.stepOps r s b (spread + (i : ℚ) * m.cfg.market.spreadStep) e)) := by
  intro n
  induction n with
  | zero => intro spread ops0 _; simp [MarketMaker.ladder]
  | succ n ih =>
    intro spread ops0 hf
    have hf0 := hf 0 (Nat.succ_pos n)
    simp only [Nat.cast_zero, zero_mul, add_zero] at hf0
    rw [MarketMaker.ladder]
    simp only [sellStep_fin m r s _ e hr, buyStep_fin m r b _ e hr hf0, Option.bind_eq_bind,
      Option.some_bind]
    rw [ih (spread + m.cfg.market.spreadStep) _ (by
      intro i hi
      have := hf (i + 1) (Nat.succ_lt_succ hi)
      have heq : spread + ((i + 1 : ℕ) : ℚ) * m.cfg.market.spreadStep =
          spread + m.cfg.market.spreadStep + (i : ℚ) * m.cfg.market.spreadStep := by
        push_cast; ring
      rwa [heq] at this)]
    rw [List.range_succ_eq_map, List.flatMap_cons, List.flatMap_map]
    have hfun : (fun i : ℕ => m.stepOps r s b
          (spread + m.cfg.market.spreadStep + (i : ℚ) * m.cfg.market.spreadStep) e) =
        (fun i : ℕ => m.stepOps r s b
          (spread + ((Nat.succ i : ℕ) : ℚ) * m.cfg.market.spreadStep) e) := by
      funext i
      congr 1
      push_cast; ring
    rw [hfun]
    simp only [Nat.cast_zero, zero_mul, add_zero, List.append_assoc, MarketMaker.stepOps,
      Function.comp_def]

/-- On a valid reference price, with at least one order per side and no spread factor equal
to zero, `createOrders` returns the operations of its ladder steps in order. -/
theorem createOrders_fin (createAmount : Asset → ℚ → AssetAmount) (m : MarketMaker)
    (price : Price) (ob : OrderBook) (now : Int) (a q : ℚ)
    (hv : price.Valid = true)
    (hB : price.base.amount < 2 ^ 64) (hQ : price.quote.amount < 2 ^ 64)
    (hN : 1 ≤ m.cfg.market.orderCount)
    (ha : m.baseAvailable ob = some (BigFloat.fin a))
    (hq : m.quoteAvailable ob = some (BigFloat.fin q))
    (hf : ∀ i : ℕ, i < m.cfg.market.orderCount.toNat → 1 + m.spreadAt i / 2 ≠ 0) :
    m.createOrders createAmount price ob now =
      some ((List.range m.cfg.market.orderCount.toNat).flatMap (fun i : ℕ =>
        m.stepOps ((price.base.amount : ℚ) / price.quote.amount)
          (min ((wrapUint64 (createAmount m.market.base m.cfg.market.amount).amount : ℕ) : ℚ) a /
            m.cfg.market.orderCount)
          (min ((wrapUint64 (createAmount m.market.base m.cfg.market.amount).amount : ℕ) : ℚ)
              (q * ((price.base.amount : ℚ) / price.quote.amount)) /
            m.cfg.market.orderCount)
          (m.spreadAt i) (now + m.orderDuration))) := by
  obtain ⟨hrate, hpos⟩ := refRate_of_valid price hv hB hQ
  have hN0 : m.cfg.market.orderCount ≠ 0 := by omega
  unfold MarketMaker.createOrders
  simp only [hrate, sellOrderVolume_fin createAmount m ob a ha hN0,
    buyOrderVolume_fin createAmount m ob q _ hq hN0, Option.bind_eq_bind, Option.some_bind]
  rw [ladder_fin m _ _ _ _ hpos.ne' _ _ _ hf]
  simp only [List.nil_append, MarketMaker.spreadAt]

theorem sampleMaker_baseAvailable :
    sampleMaker.baseAvailable { sell := [], buy := [] } = some (BigFloat.fin 110) := by
  rw [baseAvailable_of_no_reserve _ _ (by decide)]
  have : (wrapUint64 sampleMaker.baseBalance.amount +
      OrderBook.SellAmount { sell := [], buy := [] }) % 2 ^ 64 = 110 := by decide
  rw [this]; norm_num

theorem sampleMaker_quoteAvailable :
    sampleMaker.quoteAvailable { sell := [], buy := [] } = some (BigFloat.fin 0) := by
  rw [quoteAvailable_of_no_reserve _ _ (by decide)]
  have : (wrapUint64 sampleMaker.quoteBalance.amount +
      OrderBook.BuyAmount { sell := [], buy := [] }) % 2 ^ 64 = 0 := by decide
  rw [this]; norm_num

theorem sampleMaker_createOrders :
    sampleMaker.createOrders (fixedCreateAmount 1000) (priceOTNBTC 1 2) { sell := [], buy := [] } 10 =
      some [Operation.create idSeller { asset := idOTN, amount := 110 }
        { asset := idBTC, amount := 220 } false 600000000010] := by
  rw [createOrders_fin (fixedCreateAmount 1000) sampleMaker (priceOTNBTC 1 2) _ 10 110 0
    (by decide) (by decide) (by decide) (by decide) sampleMaker_baseAvailable
    sampleMaker_quoteAvailable (by
      intro i _
      simp [MarketMaker.spreadAt, sampleMaker, sampleMarketConfig])]
  have hN : sampleMaker.cfg.market.orderCount.toNat = 1 := by decide
  have hL : wrapUint64 (fixedCreateAmount 1000 sampleMaker.market.base
      sampleMaker.cfg.market.amount).amount = 1000 := by decide
  rw [hN, hL]
  simp only [List.range_succ, List.range_zero, List.nil_append, List.flatMap_cons,
    List.flatMap_nil, List.append_nil, MarketMaker.stepOps, MarketMaker.spreadAt]
  norm_num [sampleMaker, sampleMarketConfig, priceOTNBTC, marketOTNBTC, assetOTN, assetBTC,
    BigFloat.Uint64, maxUint64, wrapInt64]

theorem filter_buys_buyStep (m : MarketMaker) (r b f : ℚ) (e : Int)
    (h1 : ⌊b⌋ < 2 ^ 63) (h2 : ⌊b / r / (1 + f / 2)⌋ < 2 ^ 63) :
    (if 10 < ⌊b / r / (1 + f / 2)⌋ ∧ 10 < ⌊b⌋ then
        [Operation.create m.account
          { asset := m.market.quote.id,
            amount := wrapInt64 (BigFloat.fin (b / r / (1 + f / 2))).Uint64 }
          { asset := m.market.base.id, amount := wrapInt64 (BigFloat.fin b).Uint64 }
          false e]
      else []).filter (Operation.sells m.market.quote.id) =
    (m.buyOrderFor b r f e).toList := by
  unfold MarketMaker.buyOrderFor
  split
  · rename_i hg
    rw [BigFloat.wrapInt64_Uint64_fin _ (by omega) h1,
      BigFloat.wrapInt64_Uint64_fin _ (by omega) h2]
    simp [Operation.sells]
  · simp

theorem filter_buys_sellStep (m : MarketMaker) (hne : m.market.base.id ≠ m.market.quote.id)
    (rate sv f : BigFloat) (e : Int) (l : List Operation)
    (h : m.sellStep rate sv f e = some l) :
    l.filter (Operation.sells m.market.quote.id) = [] := by
  rcases sellStep_some m rate sv f e l h with hnil | ⟨sa, ra, -, -, -, -, hl⟩
  · rw [hnil]; rfl
  · rw [hl]; simp [Operation.sells, hne]

theorem ladder_buys (m : MarketMaker) (hne : m.market.base.id ≠ m.market.quote.id)
    (r b : ℚ) (sv : BigFloat) (e : Int) (hr : r ≠ 0) (hb : ⌊b⌋ < 2 ^ 63) :
    ∀ (n : Nat) (spread : ℚ) (ops0 ops : List Operation),
      (∀ i : ℕ, i < n → 1 + (spread + (i : ℚ) * m.cfg.market.spreadStep) / 2 ≠ 0 ∧
        ⌊b / r / (1 + (spread + (i : ℚ) * m.cfg.market.spreadStep) / 2)⌋ < 2 ^ 63) →
      m.ladder (BigFloat.fin r) sv (BigFloat.fin b) e n spread ops0 = some ops →
      ops.filter (Operation.sells m.market.quote.id) =
        ops0.filter (Operation.sells m.market.quote.id) ++
          (List.range n).filterMap
            (fun i : ℕ => m.buyOrderFor b r (spread + (i : ℚ) * m.cfg.market.spreadStep) e) := by
  intro n
  induction n with
  | zero =>
    intro spread ops0 ops _ h
    simp only [MarketMaker.ladder, Option.some.injEq] at h
    subst h; simp
  | succ n ih =>
    intro spread ops0 ops hfit h
    obtain ⟨sellOps, buyOps, hsell, hbuy, hrest⟩ :=
      (ladder_succ m _ sv _ e n spread ops0 ops).mp h
    have hfit0 := hfit 0 (Nat.succ_pos n)
    simp only [Nat.cast_zero, zero_mul, add_zero] at hfit0
    rw [buyStep_fin m r b _ e hr hfit0.1] at hbuy
    have hrec := ih (spread + m.cfg.market.spreadStep) _ ops (by
      intro i hi
      have := hfit (i + 1) (Nat.succ_lt_succ hi)
      have heq : spread + ((i + 1 : ℕ) : ℚ) * m.cfg.market.spreadStep =
          spread + m.cfg.market.spreadStep + (i : ℚ) * m.cfg.market.spreadStep := by
        push_cast; ring
      rwa [heq] at this) hrest
    rw [hrec, List.filter_append, List.filter_append, filter_buys_sellStep m hne _ _ _ _ _ hsell,
      ← Option.some.inj hbuy, filter_buys_buyStep m r b spread e hb hfit0.2,
      List.range_succ_eq_map, List.filterMap_cons, List.filterMap_map]
    have hfun : (fun i : ℕ => m.buyOrderFor b r
          (spread + m.cfg.market.spreadStep + (i : ℚ) * m.cfg.market.spreadStep) e) =
        ((fun i : ℕ => m.buyOrderFor b r (spread + (i : ℚ) * m.cfg.market.spreadStep) e) ∘
          Nat.succ) := by
      funext i
      simp only [Function.comp, Nat.succ_eq_add_one]
      congr 1
      push_cast; ring
    rw [hfun]
    simp only [Nat.cast_zero, zero_mul, add_zero, List.append_nil, List.append_assoc]
    cases m.buyOrderFor b r spread e <;> simp

/-- On a valid reference price, when no spread factor is zero and the amounts fit in `int64`,
the buy orders `createOrders` returns are, in ladder order, one for each step `i < orderCount`
whose two amounts exceed the threshold; the order of step `i` sells
`floor(buyVolume / r / (1 + spread_i/2))` of the quote asset and asks for `floor(buyVolume)`
of the base asset, where `r = price.Base.Amount / price.Quote.Amount`. -/
theorem createOrders_buy_orders (createAmount : Asset → ℚ → AssetAmount) (m : MarketMaker)
    (price : Price) (ob : OrderBook) (now : Int) (b : ℚ) (ops : List Operation)
    (hne : m.market.base.id ≠ m.market.quote.id)
    (hv : price.Valid = true)
    (hB : price.base.amount < 2 ^ 63) (hQ : price.quote.amount < 2 ^ 63)
    (hb : m.buyOrderVolume createAmount
      (BigFloat.fin ((price.base.amount : ℚ) / price.quote.amount)) ob = some (BigFloat.fin b))
    (hret : m.createOrders createAmount price ob now = some ops)
    (hfit : ⌊b⌋ < 2 ^ 63 ∧ ∀ i : ℕ, i < m.cfg.market.orderCount.toNat →
      1 + m.spreadAt i / 2 ≠ 0 ∧
      ⌊b / ((price.base.amount : ℚ) / price.quote.amount) / (1 + m.spreadAt i / 2)⌋ < 2 ^ 63) :
    ops.filter (Operation.sells m.market.quote.id) =
      (List.range m.cfg.market.orderCount.toNat).filterMap (fun i : ℕ =>
        m.buyOrderFor b ((price.base.amount : ℚ) / price.quote.amount) (m.spreadAt i)
          (now + m.orderDuration)) := by
  obtain ⟨rate, sv, bv, hrate, -, hbv, hl⟩ := (createOrders_unfold _ _ _ _ _ _).mp hret
  obtain ⟨hrate', hpos⟩ := refRate_of_valid price hv (by omega) (by omega)
  rw [hrate'] at hrate
  obtain rfl := Option.some.inj hrate
  rw [hb] at hbv
  obtain rfl := Option.some.inj hbv
  have := ladder_buys m hne _ b sv (now + m.orderDuration) hpos.ne' hfit.1
    m.cfg.market.orderCount.toNat m.cfg.market.spread [] ops hfit.2 hl
  simpa [MarketMaker.spreadAt] using this

theorem sampleMaker_sellOrderVolume :
    sampleMaker.sellOrderVolume (fixedCreateAmount 1000) { sell := [], buy := [] } =
      some (BigFloat.fin 110) := by
  rw [sellOrderVolume_fin _ _ _ 110 sampleMaker_baseAvailable (by decide)]
  have hL : wrapUint64 (fixedCreateAmount 1000 sampleMaker.market.base
      sampleMaker.cfg.market.amount).amount = 1000 := by decide
  rw [hL]
  norm_num [sampleMaker, sampleMarketConfig]

/-- C7 (as stated, refuted): for the reference price of 1 base unit for 2 quote units
(quote-per-base rate 2) and a sell volume of 110, the code asks for 220 quote units, while
`sellVolume / rate * (1 + spread/2)` with the quote-per-base rate gives 55. -/
theorem createOrders_sell_not_quote_per_base :
    sampleMaker.sellOrderVolume (fixedCreateAmount 1000) { sell := [], buy := [] } =
      some (BigFloat.fin 110) ∧
    sampleMaker.createOrders (fixedCreateAmount 1000) (priceOTNBTC 1 2)
        { sell := [], buy := [] } 10 =
      some [Operation.create idSeller { asset := idOTN, amount := 110 }
        { asset := idBTC, amount := 220 } false 600000000010] ∧
    sampleMaker.sellOrderFor 110
        (((priceOTNBTC 1 2).quote.amount : ℚ) / (priceOTNBTC 1 2).base.amount)
        (sampleMaker.spreadAt 0) 600000000010 =
      some (Operation.create idSeller { asset := idOTN, amount := 110 }
        { asset := idBTC, amount := 55 } false 600000000010) := by
  refine ⟨sampleMaker_sellOrderVolume, sampleMaker_createOrders, ?_⟩
  norm_num [MarketMaker.sellOrderFor, MarketMaker.spreadAt, sampleMaker, sampleMarketConfig,
    priceOTNBTC, marketOTNBTC, assetOTN, assetBTC]

theorem createOrders_amounts (createAmount : Asset → ℚ → AssetAmount) (m : MarketMaker)
    (price : Price) (ob : OrderBook) (now : Int) (ops : List Operation)
    (h : m.createOrders createAmount price ob now = some ops) :
    ∀ op ∈ ops, ∃ (amountToSell minToReceive : AssetAmount),
      op = Operation.create m.account amountToSell minToReceive false (now + m.orderDuration) ∧
      (0 ≤ amountToSell.amount → 10 < amountToSell.amount) ∧
      (0 ≤ minToReceive.amount → 10 < minToReceive.amount) := by
  intro op hop
  obtain ⟨sa, ra, a1, a2, hsa, hra, hsm, hrm, rfl⟩ := createOrders_guard _ _ _ _ _ _ h op hop
  refine ⟨_, _, rfl, ?_, ?_⟩
  · simp only [wrapInt64, orderAmountThreshold, maxUint64] at *
    omega
  · simp only [wrapInt64, orderAmountThreshold, maxUint64] at *
    omega

/-- On a valid reference price, with at least one order per side and no spread factor equal
to zero, per-order volumes below 11 on both sides produce no create operation. -/
theorem createOrders_tiny (createAmount : Asset → ℚ → AssetAmount) (m : MarketMaker)
    (price : Price) (ob : OrderBook) (now : Int) (a q : ℚ)
    (hv : price.Valid = true)
    (hB : price.base.amount < 2 ^ 64) (hQ : price.quote.amount < 2 ^ 64)
    (hN : 1 ≤ m.cfg.market.orderCount)
    (ha : m.baseAvailable ob = some (BigFloat.fin a))
    (hq : m.quoteAvailable ob = some (BigFloat.fin q))
    (hf : ∀ i : ℕ, i < m.cfg.market.orderCount.toNat → 1 + m.spreadAt i / 2 ≠ 0)
    (hs : min ((wrapUint64 (createAmount m.market.base m.cfg.market.amount).amount : ℕ) : ℚ) a /
      m.cfg.market.orderCount < 11)
    (hb : min ((wrapUint64 (createAmount m.market.base m.cfg.market.amount).amount : ℕ) : ℚ)
        (q * ((price.base.amount : ℚ) / price.quote.amount)) / m.cfg.market.orderCount < 11) :
    m.createOrders createAmount price ob now = some [] := by
  rw [createOrders_fin createAmount m price ob now a q hv hB hQ hN ha hq hf]
  have hs' : ¬ (10 < ⌊min ((wrapUint64 (createAmount m.market.base
      m.cfg.market.amount).amount : ℕ) : ℚ) a / m.cfg.market.orderCount⌋) := by
    rw [not_lt]
    have : ⌊min ((wrapUint64 (createAmount m.market.base
        m.cfg.market.amount).amount : ℕ) : ℚ) a / m.cfg.market.orderCount⌋ < 11 :=
      Int.floor_lt.mpr (by exact_mod_cast hs)
    omega
  have hb' : ¬ (10 < ⌊min ((wrapUint64 (createAmount m.market.base
      m.cfg.market.amount).amount : ℕ) : ℚ)
      (q * ((price.base.amount : ℚ) / price.quote.amount)) / m.cfg.market.orderCount⌋) := by
    rw [not_lt]
    have : ⌊min ((wrapUint64 (createAmount m.market.base
        m.cfg.market.amount).amount : ℕ) : ℚ)
        (q * ((price.base.amount : ℚ) / price.quote.amount)) / m.cfg.market.orderCount⌋ < 11 :=
      Int.floor_lt.mpr (by exact_mod_cast hb)
    omega
  congr 1
  rw [List.flatMap_eq_nil_iff]
  intro i _
  simp only [MarketMaker.stepOps, hs', hb', false_and, and_false, if_false, List.append_nil]

/-- C6 (failing input): at the reference price of 1 base unit for 2^62 quote units, with 110
base units available, the amount to receive, 110 * 2^62, saturates at `math.MaxUint64`,
passes the threshold test and is stored as the `int64` value -1. -/
theorem createOrders_receive_overflow :
    sampleMaker.createOrders (fixedCreateAmount 1000) (priceOTNBTC 1 4611686018427387904)
        { sell := [], buy := [] } 10 =
      some [Operation.create idSeller { asset := idOTN, amount := 110 }
        { asset := idBTC, amount := -1 } false 600000000010] := by
  rw [createOrders_fin (fixedCreateAmount 1000) sampleMaker (priceOTNBTC 1 4611686018427387904)
    _ 10 110 0 (by decide) (by decide) (by decide) (by decide) sampleMaker_baseAvailable
    sampleMaker_quoteAvailable (by
      intro i _
      simp [MarketMaker.spreadAt, sampleMaker, sampleMarketConfig])]
  have hN : sampleMaker.cfg.market.orderCount.toNat = 1 := by decide
  have hL : wrapUint64 (fixedCreateAmount 1000 sampleMaker.market.base
      sampleMaker.cfg.market.amount).amount = 1000 := by decide
  rw [hN, hL]
  simp only [List.range_succ, List.range_zero, List.nil_append, List.flatMap_cons,
    List.flatMap_nil, List.append_nil, MarketMaker.stepOps, MarketMaker.spreadAt]
  norm_num [sampleMaker, sampleMarketConfig, priceOTNBTC, marketOTNBTC, assetOTN, assetBTC,
    BigFloat.Uint64, maxUint64, wrapInt64]

theorem quoteRichMaker_baseAvailable :
    quoteRichMaker.baseAvailable
        { sell := [], buy := [orderOf 111 idSeller idBTC 4611686018427387904] } =
      some (BigFloat.fin 0) := by
  rw [baseAvailable_of_no_reserve _ _ (by decide)]
  have : (wrapUint64 quoteRichMaker.baseBalance.amount + OrderBook.SellAmount
      { sell := [], buy := [orderOf 111 idSeller idBTC 4611686018427387904] }) % 2 ^ 64 = 0 := by
    decide
  rw [this]; norm_num

theorem quoteRichMaker_quoteAvailable :
    quoteRichMaker.quoteAvailable
        { sell := [], buy := [orderOf 111 idSeller idBTC 4611686018427387904] } =
      some (BigFloat.fin 13835056955770535936) := by
  rw [quoteAvailable_of_no_reserve _ _ (by decide)]
  have : (wrapUint64 quoteRichMaker.quoteBalance.amount + OrderBook.BuyAmount
      { sell := [], buy := [orderOf 111 idSeller idBTC 4611686018427387904] }) % 2 ^ 64 =
      13835056955770535936 := by
    decide
  rw [this]; norm_num

/-- C8 (failing input): with 2^63 - 2^40 quote units in the wallet and 2^62 in an own
resting buy order, at the reference price of 1 base unit for 2^40 quote units and a
configured amount of 2^30, the buy volume is 12582911 and the amount to sell,
`floor(buyVolume / r)` = 13835056955770535936, is stored as the negative `int64` value
-4611687117939015680. -/
theorem createOrders_sell_amount_overflow :
    quoteRichMaker.createOrders (fixedCreateAmount 1073741824) (priceOTNBTC 1 1099511627776)
        { sell := [], buy := [orderOf 111 idSeller idBTC 4611686018427387904] } 10 =
      some [Operation.create idSeller { asset := idBTC, amount := -4611687117939015680 }
        { asset := idOTN, amount := 12582911 } false 600000000010] ∧
    quoteRichMaker.buyOrderFor 12582911
        (((priceOTNBTC 1 1099511627776).base.amount : ℚ) /
          (priceOTNBTC 1 1099511627776).quote.amount)
        (quoteRichMaker.spreadAt 0) 600000000010 =
      some (Operation.create idSeller { asset := idBTC, amount := 13835056955770535936 }
        { asset := idOTN, amount := 12582911 } false 600000000010) := by
  constructor
  · rw [createOrders_fin (fixedCreateAmount 1073741824) quoteRichMaker
      (priceOTNBTC 1 1099511627776) _ 10 0 13835056955770535936
      (by decide) (by decide) (by decide) (by decide) quoteRichMaker_baseAvailable
      quoteRichMaker_quoteAvailable (by
        intro i _
        simp [MarketMaker.spreadAt, quoteRichMaker, sampleMaker, sampleMarketConfig])]
    have hN : quoteRichMaker.cfg.market.orderCount.toNat = 1 := by decide
    have hL : wrapUint64 (fixedCreateAmount 1073741824 quoteRichMaker.market.base
        quoteRichMaker.cfg.market.amount).amount = 1073741824 := by decide
    rw [hN, hL]
    simp only [List.range_succ, List.range_zero, List.nil_append, List.flatMap_cons,
      List.flatMap_nil, List.append_nil, MarketMaker.stepOps, MarketMaker.spreadAt]
    norm_num [quoteRichMaker, sampleMaker, sampleMarketConfig, priceOTNBTC, marketOTNBTC,
      assetOTN, assetBTC, BigFloat.Uint64, maxUint64, wrapInt64]
  · norm_num [MarketMaker.buyOrderFor, MarketMaker.spreadAt, quoteRichMaker, sampleMaker,
      sampleMarketConfig, priceOTNBTC, marketOTNBTC, assetOTN, assetBTC]

/-- C11: when every order of the list sells the base or the quote asset of the market and the
two ids differ, `NewOrderBook` partitions the list: Sell is the orders that sell the base
asset, Buy is the others, every order is on exactly one side, the two sides together are a
rearrangement of the input, and each side keeps the relative order of the input. -/
theorem NewOrderBook_partition (orders : List LimitOrder) (market : Market)
    (hne : market.base.id ≠ market.quote.id)
    (hall : ∀ o ∈ orders, o.sellPrice.base.asset = market.base.id ∨
      o.sellPrice.base.asset = market.quote.id) :
    (NewOrderBook orders market).sell =
      orders.filter (fun o => decide (o.sellPrice.base.asset = market.base.id)) ∧
    (NewOrderBook orders market).buy =
      orders.filter (fun o => !decide (o.sellPrice.base.asset = market.base.id)) ∧
    (∀ o ∈ orders,
      (o ∈ (NewOrderBook orders market).sell ∧ o ∉ (NewOrderBook orders market).buy) ∨
      (o ∉ (NewOrderBook orders market).sell ∧ o ∈ (NewOrderBook orders market).buy)) ∧
    List.Perm ((NewOrderBook orders market).sell ++ (NewOrderBook orders market).buy) orders ∧
    List.Sublist (NewOrderBook orders market).sell orders ∧
    List.Sublist (NewOrderBook orders market).buy orders := by
  have hsell : (NewOrderBook orders market).sell =
      orders.filter (fun o => decide (o.sellPrice.base.asset = market.base.id)) := rfl
  have hbuy : (NewOrderBook orders market).buy =
      orders.filter (fun o => !decide (o.sellPrice.base.asset = market.base.id)) := by
    show FilterByAsset orders market.quote.id = _
    unfold FilterByAsset
    apply List.filter_congr
    intro o ho
    rcases hall o ho with h | h
    · have : ¬ o.sellPrice.base.asset = market.quote.id := fun hq => hne (h.symm.trans hq)
      simp [h, hne]
    · have : ¬ o.sellPrice.base.asset = market.base.id := fun hb => hne (hb.symm.trans h)
      simp [h, hne.symm]
  refine ⟨hsell, hbuy, ?_, ?_, ?_, ?_⟩
  · intro o ho
    rw [hsell, hbuy]
    by_cases h : o.sellPrice.base.asset = market.base.id
    · left; simp [List.mem_filter, ho, h]
    · right; simp [List.mem_filter, ho, h]
  · rw [hsell, hbuy]
    exact List.filter_append_perm _ orders
  · rw [hsell]; exact List.filter_sublist orders
  · rw [hbuy]; exact List.filter_sublist orders

/-- The unsigned 64-bit conversion as a remainder. -/
theorem wrapUint64_cast (x : Int) : ((wrapUint64 x : ℕ) : Int) = x % 2 ^ 64 := by
  unfold wrapUint64
  exact Int.toNat_of_nonneg (Int.emod_nonneg _ (by norm_num))

/-- The loop of `OrdersAmount` from any accumulator. -/
theorem OrdersAmount_foldl (orders : List LimitOrder) :
    ∀ acc : Nat, acc < 2 ^ 64 →
      ((orders.foldl (fun amount order => (amount + wrapUint64 order.forSale) % 2 ^ 64) acc : ℕ)
        : Int) = ((acc : Int) + (orders.map LimitOrder.forSale).sum) % 2 ^ 64 := by
  induction orders with
  | nil =>
    intro acc hacc
    simp only [List.foldl_nil, List.map_nil, List.sum_nil, add_zero]
    omega
  | cons o rest ih =>
    intro acc hacc
    rw [List.foldl_cons, ih _ (Nat.mod_lt _ (by norm_num))]
    simp only [List.map_cons, List.sum_cons]
    push_cast
    rw [wrapUint64_cast]
    omega

/-- `OrdersAmount` is the sum of the for-sale amounts modulo 2^64. -/
theorem OrdersAmount_eq (orders : List LimitOrder) :
    ((OrdersAmount orders : ℕ) : Int) = (orders.map LimitOrder.forSale).sum % 2 ^ 64 := by
  unfold OrdersAmount
  rw [OrdersAmount_foldl orders 0 (by norm_num)]
  simp

/-- C12: `SellAmount()` and `BuyAmount()` are the sums of the for-sale amounts of the orders of
their side as unsigned 64-bit sums, that is modulo 2^64: zero for an empty side, and the plain
sum when it lies in the unsigned 64-bit range. -/
theorem OrderBook_amounts (o : OrderBook) :
    ((o.SellAmount : ℕ) : Int) = (o.sell.map LimitOrder.forSale).sum % 2 ^ 64 ∧
    ((o.BuyAmount : ℕ) : Int) = (o.buy.map LimitOrder.forSale).sum % 2 ^ 64 ∧
    (o.sell = [] → o.SellAmount = 0) ∧
    (o.buy = [] → o.BuyAmount = 0) ∧
    (0 ≤ (o.sell.map LimitOrder.forSale).sum → (o.sell.map LimitOrder.forSale).sum < 2 ^ 64 →
      ((o.SellAmount : ℕ) : Int) = (o.sell.map LimitOrder.forSale).sum) ∧
    (0 ≤ (o.buy.map LimitOrder.forSale).sum → (o.buy.map LimitOrder.forSale).sum < 2 ^ 64 →
      ((o.BuyAmount : ℕ) : Int) = (o.buy.map LimitOrder.forSale).sum) := by
  refine ⟨OrdersAmount_eq o.sell, OrdersAmount_eq o.buy, ?_, ?_, ?_, ?_⟩
  · intro h; unfold OrderBook.SellAmount; rw [h]; rfl
  · intro h; unfold OrderBook.BuyAmount; rw [h]; rfl
  · intro h0 h1
    have := OrdersAmount_eq o.sell
    unfold OrderBook.SellAmount
    omega
  · intro h0 h1
    have := OrdersAmount_eq o.buy
    unfold OrderBook.BuyAmount
    omega

/-- C12 on the six-order book of `TestOrderBook`: the amounts are 3000000000000 and
842574176. -/
theorem OrderBook_amounts_witness :
    ((testOrderBook.SellAmount : ℕ) : Int) = 3000000000000 ∧
    ((testOrderBook.BuyAmount : ℕ) : Int) = 842574176 :=
  ⟨(OrderBook_amounts testOrderBook).2.2.2.2.1 (by decide) (by decide),
   (OrderBook_amounts testOrderBook).2.2.2.2.2 (by decide) (by decide)⟩

/-- C11 on the six orders of `TestOrderBook`: the two sides together are a rearrangement of
the input. -/
theorem NewOrderBook_partition_witness :
    List.Perm
      ((NewOrderBook (testOrderBook.sell ++ testOrderBook.buy)
          { base := assetOTN, quote := { id := { space := 1, kind := 3, number := 2 },
                                         symbol := "BTC", precision := 8 } }).sell ++
        (NewOrderBook (testOrderBook.sell ++ testOrderBook.buy)
          { base := assetOTN, quote := { id := { space := 1, kind := 3, number := 2 },
                                         symbol := "BTC", precision := 8 } }).buy)
      (testOrderBook.sell ++ testOrderBook.buy) :=
  (NewOrderBook_partition (testOrderBook.sell ++ testOrderBook.buy)
    { base := assetOTN, quote := { id := { space := 1, kind := 3, number := 2 },
                                   symbol := "BTC", precision := 8 } }
    (by decide) (by decide)).2.2.2.1

/-! ## The external-index price provider -/

namespace cmc
open priceProviderFactory

theorem SameButCache.refl (f : priceProviderFactory) : f.SameButCache f := ⟨rfl, rfl, rfl, rfl⟩

theorem updateSymbol_some (env : FetchEnv) (tickers : String → Option Ticker)
    (f : priceProviderFactory) (sym : String) (h : f.symbolMap sym ≠ none) :
    ∃ g fs, updateSymbol env tickers f sym = some (g, fs) ∧ f.SameButCache g ∧
      fs.count Fetch.bulk = 0 := by
  unfold updateSymbol
  cases ht : tickers sym with
  | some t => exact ⟨_, _, rfl, ⟨rfl, rfl, rfl, rfl⟩, rfl⟩
  | none =>
    cases hs : f.symbolMap sym with
    | none => exact absurd hs h
    | some listing =>
      cases he : env.single listing.id with
      | some t =>
        simp only [he]
        exact ⟨_, _, rfl, ⟨rfl, rfl, rfl, rfl⟩, by simp⟩
      | none =>
        simp only [he]
        exact ⟨_, _, rfl, ⟨rfl, rfl, rfl, rfl⟩, by simp⟩

theorem updateLoop_some (env : FetchEnv) (tickers : String → Option Ticker) :
    ∀ (syms : List String) (f : priceProviderFactory) (fetches : List Fetch),
      (∀ sym ∈ syms, f.symbolMap sym ≠ none) →
      ∃ g fs, updateLoop env tickers syms f fetches = some (g, fs) ∧ f.SameButCache g ∧
        fs.count Fetch.bulk = fetches.count Fetch.bulk := by
  intro syms
  induction syms with
  | nil => intro f fetches _; exact ⟨f, fetches, rfl, SameButCache.refl f, rfl⟩
  | cons sym rest ih =>
    intro f fetches hl
    obtain ⟨g, fs, hg, hsame, hcount⟩ :=
      updateSymbol_some env tickers f sym (hl sym (List.mem_cons_self _ _))
    obtain ⟨g2, fs2, hg2, hsame2, hcount2⟩ := ih g (fetches ++ fs) (by
      intro s hs
      rw [hsame.2.2.1]
      exact hl s (List.mem_cons_of_mem _ hs))
    refine ⟨g2, fs2, ?_, ?_, ?_⟩
    · rw [updateLoop]
      simp only [hg, Option.bind_eq_bind, Option.some_bind, hg2]
    · exact ⟨hsame2.1.trans hsame.1, hsame2.2.1.trans hsame.2.1,
        hsame2.2.2.1.trans hsame.2.2.1, hsame2.2.2.2.trans hsame.2.2.2⟩
    · rw [hcount2, List.count_append, hcount, add_zero]

/-- On a factory whose tracked symbols are all listed, `update()` returns, makes exactly one
bulk fetch and changes the cache only. -/
theorem update_some (f : priceProviderFactory) (env : FetchEnv) (hf : f.Listed) :
    ∃ g fs, f.update env = some (g, fs) ∧ f.SameButCache g ∧ fs.count Fetch.bulk = 1 := by
  unfold priceProviderFactory.update
  cases hb : env.bulk with
  | none => exact ⟨f, _, rfl, SameButCache.refl f, by simp⟩
  | some tickers =>
    obtain ⟨g, fs, hg, hsame, hcount⟩ := updateLoop_some env tickers f.providers f [Fetch.bulk] hf
    exact ⟨g, fs, hg, hsame, by rw [hcount]; simp⟩

theorem getTicker_fresh (f : priceProviderFactory) (env : FetchEnv) (sym : String)
    (h : env.now ≤ f.lastUpdated + f.interval) :
    f.getTicker env sym = some (f, f.priceCache sym, []) := by
  unfold priceProviderFactory.getTicker
  rw [if_neg (not_lt.mpr h)]

theorem getTicker_stale (f : priceProviderFactory) (env : FetchEnv) (sym : String)
    (hf : f.Listed) (h : f.lastUpdated + f.interval < env.now) :
    ∃ g fs, f.getTicker env sym = some (g, g.priceCache sym, fs) ∧
      fs.count Fetch.bulk = 1 ∧ g.lastUpdated = env.nowAfter ∧ g.interval = f.interval ∧
      g.providers = f.providers ∧ g.symbolMap = f.symbolMap := by
  obtain ⟨g, fs, hg, hsame, hcount⟩ := update_some f env hf
  refine ⟨{ g with lastUpdated := env.nowAfter }, fs, ?_, hcount, rfl, hsame.1, hsame.2.1,
    hsame.2.2.1⟩
  unfold priceProviderFactory.getTicker
  rw [if_pos h]
  simp only [hg, Option.bind_eq_bind, Option.some_bind, Option.pure_def]

theorem GetPrice_fresh (market : Market) (f : priceProviderFactory) (env1 env2 : FetchEnv)
    (h1 : env1.now ≤ f.lastUpdated + f.interval) (h2 : env2.now ≤ f.lastUpdated + f.interval) :
    GetPrice market f env1 env2 =
      some (f, tickerPrice market (f.priceCache market.base.symbol)
        (f.priceCache market.quote.symbol), []) := by
  unfold GetPrice
  simp only [getTicker_fresh f env1 _ h1, getTicker_fresh f env2 _ h2, Option.bind_eq_bind,
    Option.some_bind, Option.pure_def, List.append_nil]

/-- C13: the ticker cache of a factory whose tracked symbols are all listed, with the clock
given by the environment.  A `getTicker` call made while `now ≤ lastUpdated + interval` makes
no fetch, leaves the factory unchanged and returns the cached entry; a call made later makes
exactly one bulk fetch and sets `lastUpdated` to the time read after it.  Hence two `GetPrice`
calls within the interval fetch nothing and return the same price, and a `GetPrice` whose first
lookup refreshes does not fetch again in its second lookup made within the interval. -/
theorem getTicker_cache (f : priceProviderFactory) (hf : f.Listed) :
    (∀ env sym, env.now ≤ f.lastUpdated + f.interval →
      f.getTicker env sym = some (f, f.priceCache sym, [])) ∧
    (∀ env sym, f.lastUpdated + f.interval < env.now →
      ∃ g fs, f.getTicker env sym = some (g, g.priceCache sym, fs) ∧
        fs.count Fetch.bulk = 1 ∧ g.lastUpdated = env.nowAfter) ∧
    (∀ market env1 env2 env3 env4,
      env1.now ≤ f.lastUpdated + f.interval → env2.now ≤ f.lastUpdated + f.interval →
      env3.now ≤ f.lastUpdated + f.interval → env4.now ≤ f.lastUpdated + f.interval →
      ∃ price, GetPrice market f env1 env2 = some (f, price, []) ∧
        GetPrice market f env3 env4 = some (f, price, [])) ∧
    (∀ market env1 env2,
      f.lastUpdated + f.interval < env1.now → env2.now ≤ env1.nowAfter + f.interval →
      ∃ g price fs, GetPrice market f env1 env2 = some (g, price, fs) ∧
        fs.count Fetch.bulk = 1 ∧ g.lastUpdated = env1.nowAfter) := by
  refine ⟨fun env sym h => getTicker_fresh f env sym h, ?_, ?_, ?_⟩
  · intro env sym h
    obtain ⟨g, fs, hg, hc, hl, -⟩ := getTicker_stale f env sym hf h
    exact ⟨g, fs, hg, hc, hl⟩
  · intro market env1 env2 env3 env4 h1 h2 h3 h4
    exact ⟨_, GetPrice_fresh market f env1 env2 h1 h2, GetPrice_fresh market f env3 env4 h3 h4⟩
  · intro market env1 env2 h1 h2
    obtain ⟨g, fs, hg, hc, hl, hi, -⟩ := getTicker_stale f env1 market.base.symbol hf h1
    have hfresh := getTicker_fresh g env2 market.quote.symbol (by rw [hl, hi]; exact h2)
    refine ⟨g, tickerPrice market (g.priceCache market.base.symbol)
      (g.priceCache market.quote.symbol), fs ++ [], ?_, by simpa using hc, hl⟩
    unfold GetPrice
    simp only [hg, hfresh, Option.bind_eq_bind, Option.some_bind, Option.pure_def]

theorem mem_track (providers : List String) (a b : String) :
    b ∈ track providers a ↔ b ∈ providers ∨ b = a := by
  unfold track
  split
  · rename_i h
    constructor
    · exact Or.inl
    · rintro (h1 | rfl)
      · exact h1
      · exact h
  · simp

theorem GetProvider_ok_iff (f : priceProviderFactory) (market : Market) :
    (f.GetProvider market).2 = ProviderResult.ok ↔
      f.symbolMap market.base.symbol ≠ none ∧ f.symbolMap market.quote.symbol ≠ none := by
  unfold priceProviderFactory.GetProvider
  cases hb : f.symbolMap market.base.symbol with
  | none => simp
  | some lb =>
    cases hq : f.symbolMap market.quote.symbol with
    | none => simp
    | some lq => simp

theorem GetProvider_ok_state (f : priceProviderFactory) (market : Market)
    (h : (f.GetProvider market).2 = ProviderResult.ok) :
    (f.GetProvider market).1 =
      { f with
        lastUpdated := zeroTime
        providers := track (track f.providers market.base.symbol) market.quote.symbol } := by
  have h2 := (GetProvider_ok_iff f market).mp h
  unfold priceProviderFactory.GetProvider
  cases hb : f.symbolMap market.base.symbol with
  | none => exact absurd hb h2.1
  | some lb =>
    cases hq : f.symbolMap market.quote.symbol with
    | none => exact absurd hq h2.2
    | some lq => rfl

theorem GetProvider_error_state (f : priceProviderFactory) (market : Market)
    (h : (f.GetProvider market).2 ≠ ProviderResult.ok) : (f.GetProvider market).1 = f := by
  unfold priceProviderFactory.GetProvider at h ⊢
  cases hb : f.symbolMap market.base.symbol with
  | none => rfl
  | some lb =>
    cases hq : f.symbolMap market.quote.symbol with
    | none => rfl
    | some lq => simp [hb, hq] at h

theorem GetProvider_Listed (f : priceProviderFactory) (market : Market) (hf : f.Listed) :
    (f.GetProvider market).1.Listed := by
  by_cases h : (f.GetProvider market).2 = ProviderResult.ok
  · rw [GetProvider_ok_state f market h]
    have h2 := (GetProvider_ok_iff f market).mp h
    intro sym hsym
    simp only [mem_track] at hsym
    rcases hsym with (h1 | rfl) | rfl
    · exact hf sym h1
    · exact h2.1
    · exact h2.2
  · rw [GetProvider_error_state f market h]; exact hf

/-- C14: `GetProvider(market)` fails exactly when the base symbol or the quote symbol is not
in the listing, and then leaves the factory unchanged; when it succeeds both symbols are
tracked and the refresh time is the zero time, so that the next ticker read of a factory with
listed symbols and an interval below 2^63 nanoseconds refreshes with one bulk fetch. -/
theorem GetProvider_registers (f : priceProviderFactory) (market : Market) :
    ((f.GetProvider market).2 ≠ ProviderResult.ok ↔
      (f.symbolMap market.base.symbol = none ∨ f.symbolMap market.quote.symbol = none)) ∧
    ((f.GetProvider market).2 ≠ ProviderResult.ok → (f.GetProvider market).1 = f) ∧
    ((f.GetProvider market).2 = ProviderResult.ok →
      market.base.symbol ∈ (f.GetProvider market).1.providers ∧
      market.quote.symbol ∈ (f.GetProvider market).1.providers ∧
      (f.GetProvider market).1.lastUpdated = zeroTime ∧
      (f.Listed → f.interval < 2 ^ 63 → ∀ env sym, 0 ≤ env.now →
        ∃ g fs, (f.GetProvider market).1.getTicker env sym = some (g, g.priceCache sym, fs) ∧
          fs.count Fetch.bulk = 1 ∧ g.lastUpdated = env.nowAfter)) := by
  refine ⟨?_, GetProvider_error_state f market, ?_⟩
  · rw [not_iff_comm, GetProvider_ok_iff]
    tauto
  · intro h
    have hstate := GetProvider_ok_state f market h
    refine ⟨?_, ?_, ?_, ?_⟩
    · rw [hstate]; simp [mem_track]
    · rw [hstate]; simp [mem_track]
    · rw [hstate]
    · intro hf hi env sym hnow
      have hl := GetProvider_Listed f market hf
      obtain ⟨g, fs, hg, hc, hlu, -⟩ := getTicker_stale (f.GetProvider market).1 env sym hl (by
        rw [hstate]
        show zeroTime + f.interval < env.now
        unfold zeroTime
        omega)
      exact ⟨g, fs, hg, hc, hlu⟩

/-- C14 on the OTN/BTC market with both symbols listed: the refresh time is reset. -/
theorem GetProvider_registers_witness :
    ((sampleFactory 1 1).GetProvider marketOTNBTC).1.lastUpdated = zeroTime :=
  ((GetProvider_registers (sampleFactory 1 1) marketOTNBTC).2.2
    ((GetProvider_ok_iff _ _).mpr ⟨by simp [sampleFactory, marketOTNBTC, assetOTN],
      by simp [sampleFactory, marketOTNBTC, assetBTC]⟩)).2.2.1

theorem sampleFactory_Listed (a b : ℚ) : (sampleFactory a b).Listed := by
  intro sym hsym
  simp only [sampleFactory, List.mem_cons, List.mem_singleton, List.not_mem_nil, or_false] at hsym
  rcases hsym with rfl | rfl <;> simp [sampleFactory]

/-- C13 on the sample factory, refreshed at time 0 with an interval of one minute and read at
time 10: no fetch, the cached entry. -/
theorem getTicker_cache_witness :
    (sampleFactory 1 1).getTicker (quietEnv 10) "OTN" =
      some (sampleFactory 1 1, (sampleFactory 1 1).priceCache "OTN", []) :=
  (getTicker_cache (sampleFactory 1 1) (sampleFactory_Listed 1 1)).1 (quietEnv 10) "OTN"
    (by decide)

end cmc

/-! ## The prices of the two providers -/

/-- The conversion of a non-negative number below 2^63 is its integer part. -/
theorem float64ToInt64_of_nonneg (x : ℚ) (h0 : 0 ≤ x) (h1 : x < 2 ^ 63) :
    float64ToInt64 x = ⌊x⌋ := by
  have ht : truncToInt x = ⌊x⌋ := by unfold truncToInt; rw [if_pos h0]
  have hf0 : 0 ≤ ⌊x⌋ := Int.floor_nonneg.mpr h0
  have hf1 : ⌊x⌋ < 2 ^ 63 := Int.floor_lt.mpr (by exact_mod_cast h1)
  unfold float64ToInt64
  rw [ht, if_pos ⟨by omega, hf1⟩]

/-- The empty price is not valid. -/
theorem zeroPrice_not_valid : zeroPrice.Valid = false := by decide

namespace cmc
open priceProviderFactory

theorem GetPrice_of_lookups (market : Market) (f f1 f2 : priceProviderFactory)
    (env1 env2 : FetchEnv) (bt qt : Option Ticker) (fs1 fs2 : List Fetch)
    (hb : f.getTicker env1 market.base.symbol = some (f1, bt, fs1))
    (hq : f1.getTicker env2 market.quote.symbol = some (f2, qt, fs2)) :
    GetPrice market f env1 env2 = some (f2, tickerPrice market bt qt, fs1 ++ fs2) := by
  unfold GetPrice
  simp only [hb, hq, Option.bind_eq_bind, Option.some_bind, Option.pure_def]

/-- C16: when the lookup of the base symbol or of the quote symbol finds no ticker, `GetPrice`
returns the empty price: both amounts are zero, it is not valid, and `Market.GetRate` of any
market maps it to the zero rate. -/
theorem GetPrice_missing_ticker (market : Market) (f f1 f2 : priceProviderFactory)
    (env1 env2 : FetchEnv) (bt qt : Option Ticker) (fs1 fs2 : List Fetch)
    (hb : f.getTicker env1 market.base.symbol = some (f1, bt, fs1))
    (hq : f1.getTicker env2 market.quote.symbol = some (f2, qt, fs2))
    (hmiss : bt = none ∨ qt = none) :
    GetPrice market f env1 env2 = some (f2, zeroPrice, fs1 ++ fs2) ∧
    zeroPrice.base.amount = 0 ∧ zeroPrice.quote.amount = 0 ∧
    zeroPrice.Valid = false ∧ ∀ m : Market, m.GetRate zeroPrice = 0 := by
  refine ⟨?_, rfl, rfl, zeroPrice_not_valid, fun m => GetRate_of_not_valid m _ zeroPrice_not_valid⟩
  rw [GetPrice_of_lookups market f f1 f2 env1 env2 bt qt fs1 fs2 hb hq]
  rcases hmiss with rfl | rfl
  · rfl
  · cases bt <;> rfl

theorem sampleFactory_lookup_base (a b : ℚ) :
    (sampleFactory a b).getTicker (quietEnv 10) marketOTNBTC.base.symbol =
      some (sampleFactory a b, some { symbol := "OTN", btcPrice := a }, []) := by
  rw [getTicker_fresh _ _ _ (by show (10 : Int) ≤ 0 + 60000000000; norm_num)]
  simp [sampleFactory, marketOTNBTC, assetOTN]

theorem sampleFactory_lookup_quote (a b : ℚ) :
    (sampleFactory a b).getTicker (quietEnv 10) marketOTNBTC.quote.symbol =
      some (sampleFactory a b, some { symbol := "BTC", btcPrice := b }, []) := by
  rw [getTicker_fresh _ _ _ (by show (10 : Int) ≤ 0 + 60000000000; norm_num)]
  simp [sampleFactory, marketOTNBTC, assetBTC]

/-- Up to `10 ^ 22` the power of ten is a `float64` and `math.Pow10` returns it. -/
theorem Pow10_of_small (n : Int) (h0 : 0 ≤ n) (h1 : n ≤ 22) : Pow10 n = (10 : ℚ) ^ n := by
  obtain ⟨m, rfl⟩ := Int.eq_ofNat_of_zero_le h0
  have hm : m ≤ 22 := by omega
  have hdiv : (m : Int) / 32 = 0 := by omega
  have hmod : (m : Int) % 32 = m := by omega
  have h5 : (5 : Int) ^ m < 2 ^ 53 :=
    lt_of_le_of_lt (pow_le_pow_right₀ (by norm_num) hm) (by norm_num)
  have hten : (10 : ℚ) ^ (m : Int) = ((5 ^ m : Int) : ℚ) * 2 ^ (m : Int) := by
    rw [zpow_natCast, zpow_natCast]
    push_cast
    rw [← mul_pow]
    norm_num
  have hfl : fl64 ((10 : ℚ) ^ (m : Int)) = (10 : ℚ) ^ (m : Int) := by
    rw [hten]
    exact fl64_dyadic _ _ (by rw [abs_of_nonneg (by positivity)]; exact h5) (by omega)
  unfold Pow10
  rw [if_pos h0, hdiv, hmod, mul_zero, zpow_zero, fl64_one, one_mul, hfl, hfl]

theorem tickerPrice_some (market : Market) (b q : Ticker)
    (hbp : 0 < b.btcPrice) (hqp : 0 < q.btcPrice)
    (hprec : 0 ≤ market.base.precision ∧ market.base.precision ≤ 18)
    (hfit : fl64 (fl64 ((10 : ℚ) ^ market.base.precision * b.btcPrice) / q.btcPrice) < 2 ^ 63) :
    tickerPrice market (some b) (some q) =
      { base := { asset := market.base.id, amount := 10 ^ market.base.precision.toNat }
        quote := { asset := market.quote.id
                   amount := ⌊fl64 (fl64 ((10 : ℚ) ^ market.base.precision * b.btcPrice) /
                     q.btcPrice)⌋ } } := by
  have hpow : (10 : ℚ) ^ market.base.precision = ((10 ^ market.base.precision.toNat : Int) : ℚ) := by
    conv_lhs => rw [← Int.toNat_of_nonneg hprec.1]
    push_cast; rw [zpow_natCast]
  have hpos : (0 : ℚ) < (10 : ℚ) ^ market.base.precision := zpow_pos (by norm_num) _
  have h18 : (10 : ℚ) ^ market.base.precision < 2 ^ 63 := by
    have : (10 : ℚ) ^ market.base.precision ≤ 10 ^ (18 : Int) :=
      zpow_le_zpow_right₀ (by norm_num) hprec.2
    exact lt_of_le_of_lt this (by norm_num)
  have hP : Pow10 market.base.precision = (10 : ℚ) ^ market.base.precision :=
    Pow10_of_small _ hprec.1 (by omega)
  have hbase : float64ToInt64 ((10 : ℚ) ^ market.base.precision) =
      10 ^ market.base.precision.toNat := by
    rw [float64ToInt64_of_nonneg _ hpos.le h18, hpow, Int.floor_intCast]
  have hnn : 0 ≤ fl64 (fl64 ((10 : ℚ) ^ market.base.precision * b.btcPrice) / q.btcPrice) :=
    fl64_nonneg _ (div_nonneg (fl64_nonneg _ (mul_nonneg hpos.le hbp.le)) hqp.le)
  have hquote :
      float64ToInt64 (fl64 (fl64 ((10 : ℚ) ^ market.base.precision * b.btcPrice) / q.btcPrice)) =
      ⌊fl64 (fl64 ((10 : ℚ) ^ market.base.precision * b.btcPrice) / q.btcPrice)⌋ :=
    float64ToInt64_of_nonneg _ hnn hfit
  unfold tickerPrice
  simp only [hP, hbase, hquote, if_neg hqp.ne']

/-- C15 (amended): when both symbols have a cached ticker with a positive BTC price, the base
precision is between 0 and 18 and the quote amount is below 2^63, `GetPrice` returns the price
whose base is `10 ^ precision` units of the market base id and whose quote is the integer part
of `quoteAmount` units of the market quote id, where `quoteAmount` is
`10 ^ precision * baseBtc / quoteBtc` as `float64` arithmetic gives it, the product rounded and
then the quotient rounded; that price is valid exactly when `quoteAmount` is at least 1.  The
product is taken below 2^1023, within the range of `float64`: the embedding does not model an
overflow to an infinity. -/
theorem GetPrice_tickers (market : Market) (f f1 f2 : priceProviderFactory)
    (env1 env2 : FetchEnv) (b q : Ticker) (fs1 fs2 : List Fetch)
    (hb : f.getTicker env1 market.base.symbol = some (f1, some b, fs1))
    (hq : f1.getTicker env2 market.quote.symbol = some (f2, some q, fs2))
    (hbp : 0 < b.btcPrice) (hqp : 0 < q.btcPrice)
    (hprec : 0 ≤ market.base.precision ∧ market.base.precision ≤ 18)
    (_hrange : (10 : ℚ) ^ market.base.precision * b.btcPrice < 2 ^ 1023)
    (hfit : fl64 (fl64 ((10 : ℚ) ^ market.base.precision * b.btcPrice) / q.btcPrice) < 2 ^ 63) :
    ∃ price, GetPrice market f env1 env2 = some (f2, price, fs1 ++ fs2) ∧
      price.base.asset = market.base.id ∧ price.quote.asset = market.quote.id ∧
      price.base.amount = 10 ^ market.base.precision.toNat ∧
      price.quote.amount =
        ⌊fl64 (fl64 ((10 : ℚ) ^ market.base.precision * b.btcPrice) / q.btcPrice)⌋ ∧
      (price.Valid = true ↔
        1 ≤ fl64 (fl64 ((10 : ℚ) ^ market.base.precision * b.btcPrice) / q.btcPrice)) := by
  refine ⟨_, GetPrice_of_lookups market f f1 f2 env1 env2 _ _ fs1 fs2 hb hq, ?_⟩
  rw [tickerPrice_some market b q hbp hqp hprec hfit]
  refine ⟨rfl, rfl, rfl, rfl, ?_⟩
  have hpow : (0 : Int) < 10 ^ market.base.precision.toNat := by positivity
  simp only [Price.Valid, Bool.and_eq_true, decide_eq_true_eq, hpow, true_and]
  rw [Int.lt_iff_add_one_le, zero_add, Int.le_floor]
  norm_num

/-- The `float64` nearest to one tenth. -/
theorem fl64_tenth : fl64 (1 / 10) = 3602879701896397 / 2 ^ 55 := by
  have := fl64_eq_of (1 / 10) (-56) 7205759403792794 (by norm_num) (by norm_num [abs_of_pos])
    (by norm_num [abs_of_pos]) (by norm_num) (by norm_num)
  rw [this]; norm_num

/-- C15 (as stated, refuted): with cached BTC prices 0.000000001 for OTN and 1 for BTC, both
positive, `GetPrice` of the OTN/BTC market (base precision 8) returns the quote amount
`int64(10^8 * 0.000000001 / 1) = 0`, so the price is not valid. -/
theorem GetPrice_truncated_to_invalid :
    GetPrice marketOTNBTC (sampleFactory (1 / 1000000000) 1) (quietEnv 10) (quietEnv 10) =
      some (sampleFactory (1 / 1000000000) 1,
        { base := { asset := idOTN, amount := 100000000 }
          quote := { asset := idBTC, amount := 0 } }, []) ∧
    Price.Valid { base := { asset := idOTN, amount := 100000000 }
                  quote := { asset := idBTC, amount := 0 } } = false := by
  refine ⟨?_, by decide⟩
  have hq : fl64 (fl64 ((10 : ℚ) ^ marketOTNBTC.base.precision * (1 / 1000000000)) / 1) =
      3602879701896397 / 2 ^ 55 := by
    have h1 : (10 : ℚ) ^ marketOTNBTC.base.precision * (1 / 1000000000) = 1 / 10 := by
      norm_num [marketOTNBTC, assetOTN]
    rw [h1, div_one, fl64_idem, fl64_tenth]
  rw [GetPrice_of_lookups marketOTNBTC _ _ _ _ _ _ _ [] []
    (sampleFactory_lookup_base _ _) (sampleFactory_lookup_quote _ _),
    tickerPrice_some marketOTNBTC _ _ (by norm_num) (by norm_num) (by decide)
      (by rw [hq]; norm_num)]
  have hfloor : ⌊fl64 (fl64 ((10 : ℚ) ^ marketOTNBTC.base.precision * (1 / 1000000000)) / 1)⌋
      = 0 := by
    rw [hq, Int.floor_eq_iff]
    norm_num
  simp only [hfloor]
  rfl

/-- C15 (amended) on the OTN/BTC market with cached BTC prices 0.011 (as a `float64`) for OTN
and 1 for BTC: the product `10^8 * 0.011` rounds to 1100000, so the price is 10^8 OTN units
for 1100000 BTC units, and it is valid. -/
theorem GetPrice_tickers_witness :
    ∃ price, GetPrice marketOTNBTC (sampleFactory (3170534137668829 / 2 ^ 58) 1) (quietEnv 10)
          (quietEnv 10) =
        some (sampleFactory (3170534137668829 / 2 ^ 58) 1, price, []) ∧
      price.base.amount = 100000000 ∧ price.quote.amount = 1100000 ∧ price.Valid = true := by
  have hprod : fl64 ((10 : ℚ) ^ marketOTNBTC.base.precision * (3170534137668829 / 2 ^ 58)) =
      1100000 := by
    have h1 : (10 : ℚ) ^ marketOTNBTC.base.precision = 100000000 := by
      norm_num [marketOTNBTC, assetOTN]
    rw [h1, fl64_eq_of _ (-32) 4724464025600000 (by norm_num) (by norm_num [abs_of_pos])
      (by norm_num [abs_of_pos]) (by norm_num) (by norm_num)]
    norm_num
  have hquot : fl64 (fl64 ((10 : ℚ) ^ marketOTNBTC.base.precision *
      (Ticker.btcPrice { symbol := "OTN", btcPrice := 3170534137668829 / 2 ^ 58 })) /
      (Ticker.btcPrice { symbol := "BTC", btcPrice := 1 })) = ((1100000 : Int) : ℚ) := by
    show fl64 (fl64 ((10 : ℚ) ^ marketOTNBTC.base.precision * (3170534137668829 / 2 ^ 58)) / 1)
      = _
    rw [hprod, div_one]
    have := fl64_intCast 1100000 (by norm_num)
    push_cast at this ⊢
    exact this
  obtain ⟨price, h1, -, -, h4, h5, h6⟩ := GetPrice_tickers marketOTNBTC _ _ _ _ _ _ _ [] []
    (sampleFactory_lookup_base (3170534137668829 / 2 ^ 58) 1)
    (sampleFactory_lookup_quote (3170534137668829 / 2 ^ 58) 1)
    (by norm_num) (by norm_num) (by decide) (by norm_num [marketOTNBTC, assetOTN])
    (by rw [hquot]; norm_num)
  refine ⟨price, h1, ?_, ?_, ?_⟩
  · rw [h4]; decide
  · rw [h5, hquot, Int.floor_intCast]
  · rw [h6, hquot]; norm_num

/-- C16 on a factory whose cache is empty. -/
theorem GetPrice_missing_ticker_witness :
    GetPrice marketOTNBTC { sampleFactory 1 1 with priceCache := fun _ => none }
        (quietEnv 10) (quietEnv 10) =
      some ({ sampleFactory 1 1 with priceCache := fun _ => none }, zeroPrice, [] ++ []) :=
  (GetPrice_missing_ticker marketOTNBTC _ _ _ (quietEnv 10) (quietEnv 10) none none [] []
    (getTicker_fresh _ _ _ (by decide)) (getTicker_fresh _ _ _ (by decide)) (Or.inl rfl)).1

end cmc

namespace blockchain

theorem getAssetPrice_core (getObjects : GrapheneID → ObjectsAnswer) (asset : Asset)
    (h : asset.bitassetDataID = none) : getAssetPrice getObjects asset = some corePrice := by
  unfold getAssetPrice
  rw [h]
  rfl

theorem GetPrice_of_prices (getObjects : GrapheneID → ObjectsAnswer) (market : Market)
    (bp qp : Price) (hb : getAssetPrice getObjects market.base = some bp)
    (hq : getAssetPrice getObjects market.quote = some qp) :
    GetPrice getObjects market = some (crossPrice market bp qp) := by
  unfold GetPrice
  simp only [hb, hq, Option.bind_eq_bind, Option.some_bind, Option.pure_def]

/-- C17: given the per-asset prices `bp` and `qp`, the on-chain feed `GetPrice` returns the
zero price if either is invalid; otherwise it returns the price with the market base id and
the 64-bit product `bp.Base.Amount * qp.Quote.Amount` as base, and the market quote id and
the 64-bit product `bp.Quote.Amount * qp.Base.Amount` as quote, which are the plain products
when these are below 2^63; for two assets without bitasset data both per-asset prices are the
1:1 core parity and the result is 1:1. -/
theorem GetPrice_cross (getObjects : GrapheneID → ObjectsAnswer) (market : Market)
    (bp qp : Price) (hb : getAssetPrice getObjects market.base = some bp)
    (hq : getAssetPrice getObjects market.quote = some qp) :
    (bp.Valid = false ∨ qp.Valid = false → GetPrice getObjects market = some zeroPrice) ∧
    (bp.Valid = true → qp.Valid = true →
      GetPrice getObjects market =
        some { base := { asset := market.base.id
                         amount := wrapInt64 (bp.base.amount * qp.quote.amount) }
               quote := { asset := market.quote.id
                          amount := wrapInt64 (bp.quote.amount * qp.base.amount) } }) ∧
    (bp.Valid = true → qp.Valid = true →
      bp.base.amount * qp.quote.amount < 2 ^ 63 → bp.quote.amount * qp.base.amount < 2 ^ 63 →
      GetPrice getObjects market =
        some { base := { asset := market.base.id, amount := bp.base.amount * qp.quote.amount }
               quote := { asset := market.quote.id
                          amount := bp.quote.amount * qp.base.amount } }) ∧
    (market.base.bitassetDataID = none → market.quote.bitassetDataID = none →
      bp = corePrice ∧ qp = corePrice ∧
      GetPrice getObjects market =
        some { base := { asset := market.base.id, amount := 1 }
               quote := { asset := market.quote.id, amount := 1 } }) := by
  have hgp := GetPrice_of_prices getObjects market bp qp hb hq
  have hvalid : bp.Valid = true → qp.Valid = true →
      GetPrice getObjects market =
        some { base := { asset := market.base.id
                         amount := wrapInt64 (bp.base.amount * qp.quote.amount) }
               quote := { asset := market.quote.id
                          amount := wrapInt64 (bp.quote.amount * qp.base.amount) } } := by
    intro h1 h2
    rw [hgp]; unfold crossPrice; simp [h1, h2]
  refine ⟨?_, hvalid, ?_, ?_⟩
  · intro h
    rw [hgp]; unfold crossPrice
    rcases h with h | h <;> simp [h]
  · intro h1 h2 h3 h4
    rw [hvalid h1 h2]
    have hb1 := h1; have hq1 := h2
    simp only [Price.Valid, Bool.and_eq_true, decide_eq_true_eq] at hb1 hq1
    rw [wrapInt64_of_range (by nlinarith [hb1.1, hq1.2]) h3,
      wrapInt64_of_range (by nlinarith [hb1.2, hq1.1]) h4]
  · intro h1 h2
    have hb' := getAssetPrice_core getObjects market.base h1
    have hq' := getAssetPrice_core getObjects market.quote h2
    rw [hb] at hb'; rw [hq] at hq'
    obtain rfl := Option.some.inj hb'
    obtain rfl := Option.some.inj hq'
    refine ⟨rfl, rfl, ?_⟩
    rw [hvalid (by decide) (by decide)]
    rfl

/-- C17 on the OTN/BTC market of the tests, whose assets carry no bitasset data. -/
theorem GetPrice_cross_witness :
    GetPrice (fun _ => ObjectsAnswer.error) marketOTNBTC =
      some { base := { asset := marketOTNBTC.base.id, amount := 1 }
             quote := { asset := marketOTNBTC.quote.id, amount := 1 } } :=
  ((GetPrice_cross (fun _ => ObjectsAnswer.error) marketOTNBTC corePrice corePrice
    (getAssetPrice_core _ _ rfl) (getAssetPrice_core _ _ rfl)).2.2.2 rfl rfl).2.2

end blockchain

/-! ## The price reporter: the price filter and the sinusoid -/

namespace PriceFilter

/-- The eviction loop drops the head values before the cutoff and subtracts their prices in
turn. -/
theorem evict_eq (cutoff : Int) : ∀ (sum : ℚ) (vs : List pricePoint),
    (evict cutoff sum vs).2 = vs.dropWhile (fun v => decide (v.timestamp < cutoff)) ∧
    (evict cutoff sum vs).1 =
      (vs.takeWhile (fun v => decide (v.timestamp < cutoff))).foldl
        (fun sum v => fl64 (sum - v.price)) sum := by
  intro sum vs
  induction vs generalizing sum with
  | nil => simp [evict]
  | cons v rest ih =>
    unfold evict
    by_cases h : v.timestamp < cutoff
    · simp only [h, if_true, List.dropWhile_cons, List.takeWhile_cons, decide_True,
        List.foldl_cons]
      exact ih _
    · simp [h, List.dropWhile_cons, List.takeWhile_cons]

/-- `Avg()` of an empty filter is NaN. -/
theorem Avg_nil (p : PriceFilter) (h : p.values = []) : p.Avg = none := by
  unfold Avg; rw [if_pos (by simp [h])]

/-- `Avg()` of a non-empty filter is the running sum over the number of values, rounded. -/
theorem Avg_eq (p : PriceFilter) (hne : p.values ≠ []) :
    p.Avg = some (fl64 (p.sum / p.values.length)) := by
  unfold Avg
  rw [if_neg (by simpa using hne)]

/-- The filter `Add` leaves for a non-zero price. -/
theorem Add_eq (p : PriceFilter) (price : ℚ) (t : Int) (hprice : price ≠ 0) :
    (p.Add price t).1 =
      { period := p.period, threshold := p.threshold
        sum := fl64 (p.sumAfterEviction t + price)
        values := p.retained t ++ [{ price := price, timestamp := t }] } := by
  have hev := evict_eq (t + -p.period) p.sum p.values
  have hkept : (evict (t + -p.period) p.sum p.values).2 = p.retained t := by
    rw [hev.1]; unfold retained; rw [sub_eq_add_neg]
  have hsum : (evict (t + -p.period) p.sum p.values).1 = p.sumAfterEviction t := by
    rw [hev.2]; unfold sumAfterEviction evicted; rw [sub_eq_add_neg]
  unfold Add
  simp only [if_neg hprice, hkept, hsum]

/-- The value `Add` returns for a non-zero price when it retains nothing. -/
theorem Add_result_nil (p : PriceFilter) (price : ℚ) (t : Int) (hprice : price ≠ 0)
    (h : p.retained t = []) : (p.Add price t).2 = true := by
  have hev := evict_eq (t + -p.period) p.sum p.values
  have hkept : (evict (t + -p.period) p.sum p.values).2 = p.retained t := by
    rw [hev.1]; unfold retained; rw [sub_eq_add_neg]
  unfold Add
  simp only [if_neg hprice, hkept]
  rw [Avg_nil _ h]

/-- The value `Add` returns for a non-zero price when it retains some values. -/
theorem Add_result_cons (p : PriceFilter) (price : ℚ) (t : Int) (hprice : price ≠ 0)
    (h : p.retained t ≠ []) :
    (p.Add price t).2 =
      !(decide (price > fl64 (fl64 (p.sumAfterEviction t / (p.retained t).length) *
            fl64 (1 + p.threshold))) ||
        decide (price < fl64 (fl64 (p.sumAfterEviction t / (p.retained t).length) *
            fl64 (1 - p.threshold)))) := by
  have hev := evict_eq (t + -p.period) p.sum p.values
  have hkept : (evict (t + -p.period) p.sum p.values).2 = p.retained t := by
    rw [hev.1]; unfold retained; rw [sub_eq_add_neg]
  have hsum : (evict (t + -p.period) p.sum p.values).1 = p.sumAfterEviction t := by
    rw [hev.2]; unfold sumAfterEviction evicted; rw [sub_eq_add_neg]
  unfold Add
  simp only [if_neg hprice, hkept, hsum]
  rw [Avg_eq _ h]

/-- C18 (amended): `Add(price, t)` in `float64` arithmetic.  With `price ≠ 0` the new value is
appended to the values retained in the window and the running sum becomes the rounded sum of
the running sum left by the eviction and the price; the call returns true when nothing is
retained, and otherwise returns false exactly when the price is above the rounded
`avg * (1 + threshold)` or below the rounded `avg * (1 - threshold)`, where `avg` is the
running sum left by the eviction divided by the number of retained values, rounded; `Avg()`
afterwards is the new running sum divided by the new number of values, rounded.  When the
running sum left by the eviction is the sum of the retained prices, `avg` is their arithmetic
mean, rounded.  `Add(0, t)` returns false and leaves the filter unchanged.  The magnitudes are
taken far below the largest `float64` (the running sum, the held prices and the new price
together below 2^1020, a threshold of at most 1 in absolute value, fewer than 2^53 values), so
that no operation overflows to an infinity, which the embedding does not model. -/
theorem Add_decision (p : PriceFilter) (price : ℚ) (t : Int)
    (_hrange : |p.sum| + (p.values.map (fun v => |v.price|)).sum + |price| < 2 ^ 1020 ∧
      |p.threshold| ≤ 1 ∧ p.values.length < 2 ^ 53) :
    (price ≠ 0 →
      (p.Add price t).1.values = p.retained t ++ [pricePoint.mk price t] ∧
      (p.Add price t).1.sum = fl64 (p.sumAfterEviction t + price) ∧
      (p.retained t = [] → (p.Add price t).2 = true) ∧
      (p.retained t ≠ [] →
        ((p.Add price t).2 = false ↔
          price > fl64 (fl64 (p.sumAfterEviction t / (p.retained t).length) *
            fl64 (1 + p.threshold)) ∨
          price < fl64 (fl64 (p.sumAfterEviction t / (p.retained t).length) *
            fl64 (1 - p.threshold)))) ∧
      (p.Add price t).1.Avg =
        some (fl64 (fl64 (p.sumAfterEviction t + price) /
          (((p.retained t).length + 1 : ℕ) : ℚ))) ∧
      (p.sumAfterEviction t = ((p.retained t).map pricePoint.price).sum →
        fl64 (p.sumAfterEviction t / (p.retained t).length) =
          fl64 (mean ((p.retained t).map pricePoint.price)))) ∧
    p.Add 0 t = (p, false) := by
  refine ⟨?_, by unfold Add; rw [if_pos rfl]⟩
  intro hprice
  have h1 := Add_eq p price t hprice
  refine ⟨by rw [h1], by rw [h1], Add_result_nil p price t hprice, ?_, ?_, ?_⟩
  · intro hne
    rw [Add_result_cons p price t hprice hne]
    simp only [Bool.not_eq_false', Bool.or_eq_true, decide_eq_true_eq, Bool.not_eq_eq_eq_not,
      Bool.not_false]
  · rw [Avg_eq _ (by rw [h1]; simp), h1]
    simp only [List.length_append, List.length_singleton]
  · intro hs
    rw [hs, mean, List.length_map]

theorem filterAfterFour_eq :
    filterAfterFour =
      { period := 10000000000, threshold := 3602879701896397 / 18014398509481984
        sum := 4728779608739021 / 1125899906842624
        values := [{ price := 1, timestamp := 0 }, { price := 1, timestamp := 0 },
          { price := 1, timestamp := 0 },
          { price := 5404319552844595 / 4503599627370496, timestamp := 0 }] } := by
  have s1 : fl64 (1) = 1 :=
    fl64_exact_val _ _ 1 0 (by norm_num) (by norm_num) (by norm_num) (by norm_num)
  have s2 : fl64 (2) = 2 :=
    fl64_exact_val _ _ 1 1 (by norm_num) (by norm_num) (by norm_num) (by norm_num)
  have s3 : fl64 (3) = 3 :=
    fl64_exact_val _ _ 3 0 (by norm_num) (by norm_num) (by norm_num) (by norm_num)
  have s4 : fl64 (18915118434956083 / 4503599627370496) = 4728779608739021 / 1125899906842624 :=
    fl64_val _ _ (-50) 4728779608739021 (by norm_num) (by norm_num [abs_of_pos, abs_of_neg])
      (by norm_num [abs_of_pos, abs_of_neg]) (by norm_num) (by norm_num) (by norm_num)
  norm_num [filterAfterFour, addAll, Add, evict, NewPriceFilter, s1, s2, s3, s4]

/-- C18 (amended), on the values of `TestPriceFilterAllWithin` as `float64` values: after 1,
1, 1 and 1.2 the average is 1.05; the price 1.27 is above the rounded `1.05 * 1.2` and is
rejected, and the average afterwards is 1.094. -/
theorem Add_decision_witness :
    filterAfterFour.Avg = some (4728779608739021 / 2 ^ 52) ∧
    (filterAfterFour.Add (2859785763380265 / 2 ^ 51) 0).2 = false ∧
    (filterAfterFour.Add (2859785763380265 / 2 ^ 51) 0).1.Avg = some (4926937992343323 / 2 ^ 52) ∧
    filterAfterFour.Add 0 0 = (filterAfterFour, false) := by
  have a4 : fl64 (4728779608739021 / 4503599627370496) = 4728779608739021 / 4503599627370496 :=
    fl64_exact_val _ _ 4728779608739021 (-52) (by norm_num) (by norm_num) (by norm_num)
      (by norm_num)
  have up : fl64 (21617278211378381 / 18014398509481984) = 5404319552844595 / 4503599627370496 :=
    fl64_val _ _ (-52) 5404319552844595 (by norm_num) (by norm_num [abs_of_pos, abs_of_neg])
      (by norm_num [abs_of_pos, abs_of_neg]) (by norm_num) (by norm_num) (by norm_num)
  have bu : fl64 (25555836100601104869281525441495 / 20282409603651670423947251286016) =
    5674535530486825 / 4503599627370496 :=
    fl64_val _ _ (-52) 5674535530486825 (by norm_num) (by norm_num [abs_of_pos, abs_of_neg])
      (by norm_num [abs_of_pos, abs_of_neg]) (by norm_num) (by norm_num) (by norm_num)
  have s5 : fl64 (12317344980858307 / 2251799813685248) = 3079336245214577 / 562949953421312 :=
    fl64_tie_odd _ _ (-50) 6158672490429153 (by norm_num) (by norm_num [abs_of_pos, abs_of_neg])
      (by norm_num [abs_of_pos, abs_of_neg]) (by norm_num) (by norm_num) (by norm_num)
  have a5 : fl64 (3079336245214577 / 2814749767106560) = 4926937992343323 / 4503599627370496 :=
    fl64_val _ _ (-52) 4926937992343323 (by norm_num) (by norm_num [abs_of_pos, abs_of_neg])
      (by norm_num [abs_of_pos, abs_of_neg]) (by norm_num) (by norm_num) (by norm_num)
  have hret : filterAfterFour.retained 0 = filterAfterFour.values := by
    rw [filterAfterFour_eq]; norm_num [retained]
  have hsum : filterAfterFour.sumAfterEviction 0 = filterAfterFour.sum := by
    rw [filterAfterFour_eq]; norm_num [sumAfterEviction, evicted]
  obtain ⟨h1, h0⟩ := Add_decision filterAfterFour (2859785763380265 / 2 ^ 51) 0 (by
    rw [filterAfterFour_eq]
    refine ⟨?_, ?_, ?_⟩
    · norm_num [abs_of_pos]
    · norm_num [abs_of_pos]
    · norm_num)
  obtain ⟨-, -, -, hdec, havg, -⟩ := h1 (by norm_num)
  rw [hret, hsum] at hdec havg
  refine ⟨?_, ?_, ?_, h0⟩
  · rw [Avg_eq _ (by rw [filterAfterFour_eq]; simp), filterAfterFour_eq]
    norm_num [a4]
  · rw [hdec (by rw [filterAfterFour_eq]; simp), filterAfterFour_eq]
    left
    norm_num [a4, up, bu]
  · rw [havg, filterAfterFour_eq]
    norm_num [s5, a5]

theorem driftFilter_eq :
    driftFilter =
      { period := 10000000000, threshold := 0
        sum := 1351079888211149 / 4503599627370496
        values := [{ price := 3602879701896397 / 36028797018963968, timestamp := 0 },
          { price := 3602879701896397 / 18014398509481984, timestamp := 5000000000 }] } := by
  have d1 : fl64 (3602879701896397 / 36028797018963968) = 3602879701896397 / 36028797018963968 :=
    fl64_exact_val _ _ 3602879701896397 (-55) (by norm_num) (by norm_num) (by norm_num)
      (by norm_num)
  have d2 : fl64 (10808639105689191 / 36028797018963968) = 1351079888211149 / 4503599627370496 :=
    fl64_tie_odd _ _ (-54) 5404319552844595 (by norm_num) (by norm_num [abs_of_pos, abs_of_neg])
      (by norm_num [abs_of_pos, abs_of_neg]) (by norm_num) (by norm_num) (by norm_num)
  norm_num [driftFilter, addAll, Add, evict, NewPriceFilter, d1, d2]

/-- C18 (as stated, refuted): feed a filter of period ten seconds and threshold 0 the `float64`
prices 0.1 at time 0 and 0.2 five seconds later, and then 0.2 at eleven seconds.  The last call
retains the one value 0.2, whose mean is 0.2, so the price 0.2 is neither above
`avg * (1 + 0)` nor below `avg * (1 - 0)` for the mean of the retained values; but the running
sum, 0.30000000000000004 less 0.1, is 0.20000000000000004, and `Add` returns false. -/
theorem Add_decision_drift :
    driftFilter.retained 11000000000 =
      [{ price := 3602879701896397 / 2 ^ 54, timestamp := 5000000000 }] ∧
    ¬ ((3602879701896397 / 2 ^ 54 : ℚ) > mean [3602879701896397 / 2 ^ 54] * (1 + driftFilter.threshold) ∨
       (3602879701896397 / 2 ^ 54 : ℚ) < mean [3602879701896397 / 2 ^ 54] * (1 - driftFilter.threshold)) ∧
    driftFilter.sumAfterEviction 11000000000 = 7205759403792795 / 2 ^ 55 ∧
    (driftFilter.Add (3602879701896397 / 2 ^ 54) 11000000000).2 = false := by
  have d3 : fl64 (7205759403792795 / 36028797018963968) = 7205759403792795 / 36028797018963968 :=
    fl64_exact_val _ _ 7205759403792795 (-55) (by norm_num) (by norm_num) (by norm_num)
      (by norm_num)
  have d4 : fl64 (7205759403792795 / 36028797018963968) = 7205759403792795 / 36028797018963968 :=
    fl64_exact_val _ _ 7205759403792795 (-55) (by norm_num) (by norm_num) (by norm_num)
      (by norm_num)
  have o1 : fl64 (1) = 1 :=
    fl64_exact_val _ _ 1 0 (by norm_num) (by norm_num) (by norm_num) (by norm_num)
  have hret : driftFilter.retained 11000000000 =
      [{ price := 3602879701896397 / 2 ^ 54, timestamp := 5000000000 }] := by
    rw [driftFilter_eq]; norm_num [retained]
  have hsum : driftFilter.sumAfterEviction 11000000000 = 7205759403792795 / 2 ^ 55 := by
    rw [driftFilter_eq]; norm_num [sumAfterEviction, evicted, d3]
  refine ⟨hret, ?_, hsum, ?_⟩
  · rw [driftFilter_eq]; norm_num [mean]
  · rw [Add_result_cons _ _ _ (by norm_num) (by rw [hret]; simp), hret, hsum, driftFilter_eq]
    norm_num [d4, o1]

end PriceFilter

namespace PriceFilter

end PriceFilter

namespace PriceFilter

end PriceFilter

/-- `GetSinusoidPrice` at a non-negative time, for a positive period. -/
theorem GetSinusoidPrice_of_nonneg (sin : ℚ → ℚ) (cfg : SinusoidConfig) (hpos : 0 < cfg.period)
    (t : Int) (ht : 0 ≤ t) :
    GetSinusoidPrice sin cfg t =
      some (fl64 (fl64 (fl64 (sin (fl64 (fl64 (fl64 (fl64 ((t % cfg.period : Int) : ℚ) /
        fl64 (cfg.period : ℚ)) * pi64) * 2)) * cfg.amplitude) + cfg.min) + cfg.amplitude)) := by
  unfold GetSinusoidPrice SinusoidConfig.amplitude
  rw [if_neg (ne_of_gt hpos), Int.tmod_eq_emod ht (le_of_lt hpos)]

/-- The angle `GetSinusoidPrice` computes a quarter of a period past a multiple of the period
is `math.Pi / 2`, and three quarters past it is `3 * math.Pi / 2`, each without rounding. -/
theorem radian_quarters (k : Int) (hk : 0 < k) (hlt : 4 * k < 2 ^ 53) :
    fl64 (fl64 (fl64 (fl64 ((k : Int) : ℚ) / fl64 ((4 * k : Int) : ℚ)) * pi64) * 2) = pi64 / 2 ∧
    fl64 (fl64 (fl64 (fl64 ((3 * k : Int) : ℚ) / fl64 ((4 * k : Int) : ℚ)) * pi64) * 2) =
      3 * pi64 / 2 := by
  have hkq : (k : ℚ) ≠ 0 := by exact_mod_cast hk.ne'
  have e1 : fl64 ((k : Int) : ℚ) = k := fl64_intCast k (by rw [abs_of_pos hk]; omega)
  have e3 : fl64 ((3 * k : Int) : ℚ) = ((3 * k : Int) : ℚ) :=
    fl64_intCast _ (by rw [abs_of_pos (by omega)]; omega)
  have e4 : fl64 ((4 * k : Int) : ℚ) = ((4 * k : Int) : ℚ) :=
    fl64_intCast _ (by rw [abs_of_pos (by omega)]; omega)
  have q1 : ((k : Int) : ℚ) / ((4 * k : Int) : ℚ) = ((1 : Int) : ℚ) * 2 ^ (-2 : Int) := by
    push_cast; field_simp; norm_num; ring
  have q3 : ((3 * k : Int) : ℚ) / ((4 * k : Int) : ℚ) = ((3 : Int) : ℚ) * 2 ^ (-2 : Int) := by
    push_cast; field_simp; norm_num; ring
  have p1 : ((1 : Int) : ℚ) * 2 ^ (-2 : Int) * pi64 =
      ((884279719003555 : Int) : ℚ) * 2 ^ (-50 : Int) := by
    norm_num [pi64]
  have p3 : ((3 : Int) : ℚ) * 2 ^ (-2 : Int) * pi64 =
      ((2652839157010665 : Int) : ℚ) * 2 ^ (-50 : Int) := by
    norm_num [pi64]
  have d1 : ((884279719003555 : Int) : ℚ) * 2 ^ (-50 : Int) * 2 =
      ((884279719003555 : Int) : ℚ) * 2 ^ (-49 : Int) := by norm_num
  have d3 : ((2652839157010665 : Int) : ℚ) * 2 ^ (-50 : Int) * 2 =
      ((2652839157010665 : Int) : ℚ) * 2 ^ (-49 : Int) := by norm_num
  constructor
  · rw [e1, e4, q1, fl64_dyadic _ _ (by norm_num) (by norm_num), p1,
      fl64_dyadic _ _ (by norm_num) (by norm_num), d1,
      fl64_dyadic _ _ (by norm_num) (by norm_num)]
    norm_num [pi64]
  · rw [e3, e4, q3, fl64_dyadic _ _ (by norm_num) (by norm_num), p3,
      fl64_dyadic _ _ (by norm_num) (by norm_num), d3,
      fl64_dyadic _ _ (by norm_num) (by norm_num)]
    norm_num [pi64]

/-- C20 (amended): in `float64` arithmetic, for a sine with `Sin(0) = 0`,
`Sin(math.Pi/2) = 1` and `Sin(3*math.Pi/2) = -1`, a configuration whose `Min` and `Max` are
`float64` values and whose period is positive, divisible by 4 and below 2^53, and a
non-negative Unix time: with `amplitude` the rounded `(Max - Min) / 2`, `GetSinusoidPrice`
is the rounded `Min + amplitude` at every multiple of the period, the rounded sum of the
rounded `amplitude + Min` and `amplitude` a quarter period later, and the rounded sum of the
rounded `-amplitude + Min` and `amplitude` three quarters of a period later.  The second is
`Max` when `amplitude + Min` is exact and twice the amplitude is `Max - Min`; the third is
`Min` when `-amplitude + Min` is exact.  Two times with the same remainder modulo the period
give the same value, so the value repeats with the period.  `Min` and `Max` are taken below
2^1022 in absolute value, so that no operation overflows to an infinity, which the embedding
does not model. -/
theorem GetSinusoidPrice_quarters (sin : ℚ → ℚ) (h0 : sin 0 = 0) (h1 : sin (pi64 / 2) = 1)
    (h3 : sin (3 * pi64 / 2) = -1) (cfg : SinusoidConfig)
    (hmin : fl64 cfg.min = cfg.min) (hmax : fl64 cfg.max = cfg.max)
    (_hrange : |cfg.min| < 2 ^ 1022 ∧ |cfg.max| < 2 ^ 1022)
    (hpos : 0 < cfg.period) (h4 : 4 ∣ cfg.period) (hlt : cfg.period < 2 ^ 53)
    (m : Int) (hm : 0 ≤ m) :
    GetSinusoidPrice sin cfg (m * cfg.period) = some (fl64 (cfg.min + cfg.amplitude)) ∧
    GetSinusoidPrice sin cfg (m * cfg.period + cfg.period / 4) =
      some (fl64 (fl64 (cfg.amplitude + cfg.min) + cfg.amplitude)) ∧
    GetSinusoidPrice sin cfg (m * cfg.period + 3 * (cfg.period / 4)) =
      some (fl64 (fl64 (-cfg.amplitude + cfg.min) + cfg.amplitude)) ∧
    (fl64 (cfg.amplitude + cfg.min) = cfg.amplitude + cfg.min →
      2 * cfg.amplitude = cfg.max - cfg.min →
      GetSinusoidPrice sin cfg (m * cfg.period + cfg.period / 4) = some cfg.max) ∧
    (fl64 (-cfg.amplitude + cfg.min) = -cfg.amplitude + cfg.min →
      GetSinusoidPrice sin cfg (m * cfg.period + 3 * (cfg.period / 4)) = some cfg.min) ∧
    (∀ t u : Int, 0 ≤ t → 0 ≤ u → t % cfg.period = u % cfg.period →
      GetSinusoidPrice sin cfg t = GetSinusoidPrice sin cfg u) ∧
    (∀ t : Int, 0 ≤ t →
      GetSinusoidPrice sin cfg (t + cfg.period) = GetSinusoidPrice sin cfg t) := by
  obtain ⟨k, hk⟩ := h4
  have hkpos : 0 < k := by omega
  have hq : cfg.period / 4 = k := by omega
  have hmp : 0 ≤ m * cfg.period := mul_nonneg hm (le_of_lt hpos)
  have hrad := radian_quarters k hkpos (by omega)
  have ha : fl64 cfg.amplitude = cfg.amplitude := by
    unfold SinusoidConfig.amplitude; exact fl64_idem _
  have hna : fl64 (-cfg.amplitude) = -cfg.amplitude := fl64_neg_of_fixed _ ha
  have hzero : GetSinusoidPrice sin cfg (m * cfg.period) =
      some (fl64 (cfg.min + cfg.amplitude)) := by
    rw [GetSinusoidPrice_of_nonneg sin cfg hpos _ hmp]
    have : m * cfg.period % cfg.period = 0 := Int.mul_emod_left _ _
    rw [this]
    simp only [Int.cast_zero, fl64_zero, zero_div, zero_mul, h0, zero_add, hmin]
  have hone : GetSinusoidPrice sin cfg (m * cfg.period + cfg.period / 4) =
      some (fl64 (fl64 (cfg.amplitude + cfg.min) + cfg.amplitude)) := by
    rw [GetSinusoidPrice_of_nonneg sin cfg hpos _ (by omega)]
    have : (m * cfg.period + cfg.period / 4) % cfg.period = k := by
      rw [hq, add_comm, Int.add_mul_emod_self]
      exact Int.emod_eq_of_lt (le_of_lt hkpos) (by omega)
    rw [this]
    have hp : cfg.period = 4 * k := hk
    rw [hp, hrad.1, h1, one_mul, ha]
  have hthree : GetSinusoidPrice sin cfg (m * cfg.period + 3 * (cfg.period / 4)) =
      some (fl64 (fl64 (-cfg.amplitude + cfg.min) + cfg.amplitude)) := by
    rw [GetSinusoidPrice_of_nonneg sin cfg hpos _ (by omega)]
    have : (m * cfg.period + 3 * (cfg.period / 4)) % cfg.period = 3 * k := by
      rw [hq, add_comm, Int.add_mul_emod_self]
      exact Int.emod_eq_of_lt (by omega) (by omega)
    rw [this]
    have hp : cfg.period = 4 * k := hk
    rw [hp, hrad.2, h3, neg_one_mul, hna]
  refine ⟨hzero, hone, hthree, ?_, ?_, ?_, ?_⟩
  · intro hx h2
    rw [hone, hx]
    have : cfg.amplitude + cfg.min + cfg.amplitude = cfg.max := by linarith
    rw [this, hmax]
  · intro hx
    rw [hthree, hx]
    have : -cfg.amplitude + cfg.min + cfg.amplitude = cfg.min := by ring
    rw [this, hmin]
  · intro t u ht hu htu
    rw [GetSinusoidPrice_of_nonneg sin cfg hpos t ht,
      GetSinusoidPrice_of_nonneg sin cfg hpos u hu, htu]
  · intro t ht
    rw [GetSinusoidPrice_of_nonneg sin cfg hpos t ht,
      GetSinusoidPrice_of_nonneg sin cfg hpos _ (by omega), Int.add_emod_self]

theorem sinAtQuarters_values :
    sinAtQuarters 0 = 0 ∧ sinAtQuarters (pi64 / 2) = 1 ∧ sinAtQuarters (3 * pi64 / 2) = -1 := by
  refine ⟨?_, ?_, ?_⟩
  · unfold sinAtQuarters
    rw [if_neg (by norm_num [pi64]), if_neg (by norm_num [pi64])]
  · unfold sinAtQuarters; rw [if_pos rfl]
  · unfold sinAtQuarters
    rw [if_neg (by norm_num [pi64]), if_pos rfl]

/-- C20 (amended), on the configuration of `TestGetSinusoidPrice` (minimum 1, maximum 2,
period 60): the value is 1.5 at 60 seconds, 2 at 75 seconds and 1 at 105 seconds. -/
theorem GetSinusoidPrice_quarters_witness :
    GetSinusoidPrice sinAtQuarters sampleSinusoid 60 = some (3 / 2) ∧
    GetSinusoidPrice sinAtQuarters sampleSinusoid 75 = some 2 ∧
    GetSinusoidPrice sinAtQuarters sampleSinusoid 105 = some 1 := by
  have ha : sampleSinusoid.amplitude = 1 / 2 := by
    unfold SinusoidConfig.amplitude
    have h1 : sampleSinusoid.max - sampleSinusoid.min = 1 := by norm_num [sampleSinusoid]
    rw [h1, fl64_one]
    exact fl64_exact_of _ 1 (-1) (by norm_num) (by norm_num) (by norm_num)
  have hmin : sampleSinusoid.min = 1 := rfl
  have hmax : sampleSinusoid.max = 2 := rfl
  have h := GetSinusoidPrice_quarters sinAtQuarters sinAtQuarters_values.1
    sinAtQuarters_values.2.1 sinAtQuarters_values.2.2 sampleSinusoid
    (by rw [hmin]; exact fl64_one)
    (by rw [hmax]; exact fl64_exact_of _ 2 0 (by norm_num) (by norm_num) (by norm_num))
    (by rw [hmin, hmax]; norm_num [abs_of_pos])
    (by norm_num [sampleSinusoid]) (by norm_num [sampleSinusoid])
    (by norm_num [sampleSinusoid]) 1 (by norm_num)
  have hp : sampleSinusoid.period = 60 := rfl
  rw [hp, ha, hmin, hmax] at h
  obtain ⟨h60, -, -, h75, h105, -, -⟩ := h
  refine ⟨?_, ?_, ?_⟩
  · have e : fl64 ((1 : ℚ) + 1 / 2) = 3 / 2 := by
      rw [fl64_exact_of _ 3 (-1) (by norm_num) (by norm_num) (by norm_num)]; norm_num
    rw [e] at h60
    exact h60
  · exact h75 (fl64_exact_of _ 3 (-1) (by norm_num) (by norm_num) (by norm_num)) (by norm_num)
  · exact h105 (fl64_exact_of _ 1 (-1) (by norm_num) (by norm_num) (by norm_num))

/-- C20 (as stated, refuted): with `Min = 0.01` and `Max = 0.03` as `float64` values and a
period of 60 seconds, the difference `Max - Min` rounds to 0.019999999999999997, and a quarter
period past zero `GetSinusoidPrice` returns 0.029999999999999995, which is not `Max`. -/
theorem GetSinusoidPrice_quarter_below_max :
    GetSinusoidPrice sinAtQuarters narrowSinusoid 15 = some (8646911284551351 / 2 ^ 58) ∧
    (8646911284551351 / 2 ^ 58 : ℚ) ≠ narrowSinusoid.max := by
  refine ⟨?_, by norm_num [narrowSinusoid]⟩
  have e1 : fl64 (11529215046068469 / 2 ^ 59) = 2882303761517117 / 2 ^ 57 :=
    fl64_tie_even _ _ (-58) 5764607523034234 (by norm_num) (by norm_num [abs_of_pos, abs_of_neg])
      (by norm_num [abs_of_pos, abs_of_neg]) (by norm_num) (by norm_num) (by norm_num)
  have e2 : fl64 (2882303761517117 / 2 ^ 57 / 2) = 2882303761517117 / 2 ^ 58 :=
    fl64_exact_val _ _ 2882303761517117 (-58) (by norm_num) (by norm_num) (by norm_num)
      (by norm_num)
  have e3 : fl64 (2882303761517117 / 2 ^ 58) = 2882303761517117 / 2 ^ 58 :=
    fl64_exact_val _ _ 2882303761517117 (-58) (by norm_num) (by norm_num) (by norm_num)
      (by norm_num)
  have e4 : fl64 (2882303761517117 / 2 ^ 58 + 5764607523034235 / 2 ^ 59) = 2882303761517117 / 2 ^ 57
    :=
    fl64_tie_even _ _ (-58) 5764607523034234 (by norm_num) (by norm_num [abs_of_pos, abs_of_neg])
      (by norm_num [abs_of_pos, abs_of_neg]) (by norm_num) (by norm_num) (by norm_num)
  have e5 : fl64 (2882303761517117 / 2 ^ 57 + 2882303761517117 / 2 ^ 58) = 8646911284551351 / 2 ^ 58
    :=
    fl64_exact_val _ _ 8646911284551351 (-58) (by norm_num) (by norm_num) (by norm_num)
      (by norm_num)
  have ha : narrowSinusoid.amplitude = 2882303761517117 / 2 ^ 58 := by
    unfold SinusoidConfig.amplitude
    have h1 : narrowSinusoid.max - narrowSinusoid.min = 11529215046068469 / 2 ^ 59 := by
      norm_num [narrowSinusoid]
    rw [h1, e1, e2]
  have hmin : narrowSinusoid.min = 5764607523034235 / 2 ^ 59 := rfl
  have hrad := (radian_quarters 15 (by norm_num) (by norm_num)).1
  rw [GetSinusoidPrice_of_nonneg sinAtQuarters narrowSinusoid (by norm_num [narrowSinusoid]) 15
    (by norm_num)]
  have hp : narrowSinusoid.period = 4 * 15 := rfl
  have hmod : (15 : Int) % (4 * 15) = 15 := by norm_num
  rw [hp, hmod, hrad, sinAtQuarters_values.2.1, ha, hmin, one_mul, e3, e4, e5]

/-! ## `createOrders`: volumes, totals and termination -/

theorem soldOf_append (asset : GrapheneID) (l1 l2 : List Operation) :
    soldOf asset (l1 ++ l2) = soldOf asset l1 + soldOf asset l2 := by
  simp [soldOf, List.filter_append, List.map_append, List.sum_append]

theorem soldOf_nil (asset : GrapheneID) : soldOf asset [] = 0 := rfl

/-- A sell step that returns appends nothing, or one create operation that offers the truncated
sell volume of the base asset. -/
theorem sellStep_mem (m : MarketMaker) (rate sv f : BigFloat) (e : Int) (l : List Operation)
    (h : m.sellStep rate sv f e = some l) :
    l = [] ∨ ∃ recv : Int, orderAmountThreshold < sv.Uint64 ∧
      l = [Operation.create m.account
        { asset := m.market.base.id, amount := wrapInt64 sv.Uint64 }
        { asset := m.market.quote.id, amount := recv } false e] := by
  unfold MarketMaker.sellStep at h
  simp only [Option.bind_eq_bind, Option.bind_eq_some] at h
  obtain ⟨x, -, y, -, h⟩ := h
  split at h
  · rename_i hg
    right
    exact ⟨_, hg.1, by simpa using h.symm⟩
  · left; simpa using h.symm

/-- A buy step that returns appends nothing, or one create operation that asks for the
truncated buy volume of the base asset. -/
theorem buyStep_mem (m : MarketMaker) (rate bv f : BigFloat) (e : Int) (l : List Operation)
    (h : m.buyStep rate bv f e = some l) :
    l = [] ∨ ∃ sell : Int, orderAmountThreshold < bv.Uint64 ∧
      l = [Operation.create m.account
        { asset := m.market.quote.id, amount := sell }
        { asset := m.market.base.id, amount := wrapInt64 bv.Uint64 } false e] := by
  unfold MarketMaker.buyStep at h
  simp only [Option.bind_eq_bind, Option.bind_eq_some] at h
  obtain ⟨x, -, y, -, h⟩ := h
  split at h
  · rename_i hg
    right
    exact ⟨_, hg.2, by simpa using h.symm⟩
  · left; simpa using h.symm

/-- Every operation the loop appends is a sell order offering the truncated sell volume or a
buy order asking for the truncated buy volume. -/
theorem ladder_volumes (m : MarketMaker) (rate sv bv : BigFloat) (e : Int) :
    ∀ (n : Nat) (spread : ℚ) (ops0 ops : List Operation),
      m.ladder rate sv bv e n spread ops0 = some ops →
      ∀ op ∈ ops, op ∈ ops0 ∨
        (∃ recv : Int, orderAmountThreshold < sv.Uint64 ∧
          op = Operation.create m.account
            { asset := m.market.base.id, amount := wrapInt64 sv.Uint64 }
            { asset := m.market.quote.id, amount := recv } false e) ∨
        (∃ sell : Int, orderAmountThreshold < bv.Uint64 ∧
          op = Operation.create m.account
            { asset := m.market.quote.id, amount := sell }
            { asset := m.market.base.id, amount := wrapInt64 bv.Uint64 } false e) := by
  intro n
  induction n with
  | zero =>
    intro spread ops0 ops h op hop
    simp only [MarketMaker.ladder, Option.some.injEq] at h
    subst h; exact Or.inl hop
  | succ n ih =>
    intro spread ops0 ops h op hop
    obtain ⟨sellOps, buyOps, hs, hb, hrest⟩ := (ladder_succ m rate sv bv e n spread ops0 ops).mp h
    rcases ih _ _ _ hrest op hop with hmem | hnew
    · rw [List.append_assoc, List.mem_append] at hmem
      rcases hmem with h0 | h1
      · exact Or.inl h0
      · right
        rw [List.mem_append] at h1
        rcases h1 with h1 | h1
        · rcases sellStep_mem m rate sv _ e sellOps hs with hnil | ⟨recv, hg, hl⟩
          · rw [hnil] at h1; simp at h1
          · rw [hl, List.mem_singleton] at h1
            exact Or.inl ⟨recv, hg, h1⟩
        · rcases buyStep_mem m rate bv _ e buyOps hb with hnil | ⟨sell, hg, hl⟩
          · rw [hnil] at h1; simp at h1
          · rw [hl, List.mem_singleton] at h1
            exact Or.inr ⟨sell, hg, h1⟩
    · exact Or.inr hnew

/-- The loop appends at most two operations per iteration. -/
theorem ladder_length (m : MarketMaker) (rate sv bv : BigFloat) (e : Int) :
    ∀ (n : Nat) (spread : ℚ) (ops0 ops : List Operation),
      m.ladder rate sv bv e n spread ops0 = some ops →
      ops.length ≤ ops0.length + 2 * n := by
  intro n
  induction n with
  | zero =>
    intro spread ops0 ops h
    simp only [MarketMaker.ladder, Option.some.injEq] at h
    subst h; simp
  | succ n ih =>
    intro spread ops0 ops h
    obtain ⟨sellOps, buyOps, hs, hb, hrest⟩ := (ladder_succ m rate sv bv e n spread ops0 ops).mp h
    have h1 := ih _ _ _ hrest
    have hsl : sellOps.length ≤ 1 := by
      rcases sellStep_mem m rate sv _ e sellOps hs with hnil | ⟨_, _, hl⟩
      · rw [hnil]; simp
      · rw [hl]; simp
    have hbl : buyOps.length ≤ 1 := by
      rcases buyStep_mem m rate bv _ e buyOps hb with hnil | ⟨_, _, hl⟩
      · rw [hnil]; simp
      · rw [hl]; simp
    simp only [List.length_append] at h1
    omega

/-- The stored amount of a `uint64` value read from a non-negative finite number is at most
that number. -/
theorem wrapInt64_Uint64_le (x : ℚ) (hx : 0 ≤ x) :
    ((max (wrapInt64 ((BigFloat.fin x).Uint64 : Int)) 0 : Int) : ℚ) ≤ x := by
  have hfl : (0 : Int) ≤ ⌊x⌋ := Int.floor_nonneg.mpr hx
  have h1 : ((BigFloat.fin x).Uint64 : Int) ≤ ⌊x⌋ := by
    show ((min (Int.toNat ⌊x⌋) maxUint64 : ℕ) : Int) ≤ ⌊x⌋
    have : ((Int.toNat ⌊x⌋ : ℕ) : Int) = ⌊x⌋ := Int.toNat_of_nonneg hfl
    have h2 : ((min (Int.toNat ⌊x⌋) maxUint64 : ℕ) : Int) ≤ ((Int.toNat ⌊x⌋ : ℕ) : Int) := by
      exact_mod_cast min_le_left _ _
    omega
  have h3 : wrapInt64 ((BigFloat.fin x).Uint64 : Int) ≤ ((BigFloat.fin x).Uint64 : Int) := by
    have hle := BigFloat.Uint64_le (BigFloat.fin x)
    unfold maxUint64 at hle
    unfold wrapInt64
    omega
  have h4 : max (wrapInt64 ((BigFloat.fin x).Uint64 : Int)) 0 ≤ ⌊x⌋ := by
    apply max_le <;> omega
  calc ((max (wrapInt64 ((BigFloat.fin x).Uint64 : Int)) 0 : Int) : ℚ)
      ≤ ((⌊x⌋ : Int) : ℚ) := by exact_mod_cast h4
    _ ≤ x := Int.floor_le x

/-- The amount a single create operation offers of an asset. -/
theorem soldOf_singleton (asset : GrapheneID) (acct : GrapheneID) (sell recv : AssetAmount)
    (f : Bool) (e : Int) :
    soldOf asset [Operation.create acct sell recv f e] =
      if sell.asset = asset then sell.amount else 0 := by
  unfold soldOf
  by_cases h : sell.asset = asset
  · simp [Operation.sells, Operation.offered, h]
  · simp [Operation.sells, Operation.offered, h]

/-- The base asset sold by the loop: at most the truncated sell volume per iteration. -/
theorem ladder_sold_base (m : MarketMaker) (hne : m.market.base.id ≠ m.market.quote.id)
    (rate sv bv : BigFloat) (e : Int) :
    ∀ (n : Nat) (spread : ℚ) (ops0 ops : List Operation),
      m.ladder rate sv bv e n spread ops0 = some ops →
      soldOf m.market.base.id ops ≤
        soldOf m.market.base.id ops0 + n * max (wrapInt64 sv.Uint64) 0 := by
  intro n
  induction n with
  | zero =>
    intro spread ops0 ops h
    simp only [MarketMaker.ladder, Option.some.injEq] at h
    subst h; simp
  | succ n ih =>
    intro spread ops0 ops h
    obtain ⟨sellOps, buyOps, hs, hb, hrest⟩ := (ladder_succ m rate sv bv e n spread ops0 ops).mp h
    have h1 := ih _ _ _ hrest
    have hbuy : soldOf m.market.base.id buyOps = 0 := by
      unfold soldOf
      rw [filter_sells_buyStep m hne _ _ _ _ _ hb]; rfl
    have hsell : soldOf m.market.base.id sellOps ≤ max (wrapInt64 sv.Uint64) 0 := by
      rcases sellStep_mem m rate sv _ e sellOps hs with hnil | ⟨recv, _, hl⟩
      · rw [hnil, soldOf_nil]; exact le_max_right _ _
      · rw [hl, soldOf_singleton, if_pos rfl]
        exact le_max_left _ _
    rw [soldOf_append, soldOf_append, hbuy] at h1
    push_cast
    linarith

/-- On a valid reference price with a non-zero order count, a `createOrders` that returns ran
its loop with the finite rate and the two finite per-order volumes. -/
theorem createOrders_ladder (createAmount : Asset → ℚ → AssetAmount) (m : MarketMaker)
    (price : Price) (ob : OrderBook) (now : Int) (a q : ℚ) (ops : List Operation)
    (hv : price.Valid = true)
    (hB : price.base.amount < 2 ^ 64) (hQ : price.quote.amount < 2 ^ 64)
    (hN : m.cfg.market.orderCount ≠ 0)
    (ha : m.baseAvailable ob = some (BigFloat.fin a))
    (hq : m.quoteAvailable ob = some (BigFloat.fin q))
    (hret : m.createOrders createAmount price ob now = some ops) :
    m.ladder (BigFloat.fin ((price.base.amount : ℚ) / price.quote.amount))
      (BigFloat.fin
        (min ((wrapUint64 (createAmount m.market.base m.cfg.market.amount).amount : ℕ) : ℚ) a /
          m.cfg.market.orderCount))
      (BigFloat.fin
        (min ((wrapUint64 (createAmount m.market.base m.cfg.market.amount).amount : ℕ) : ℚ)
            (q * ((price.base.amount : ℚ) / price.quote.amount)) /
          m.cfg.market.orderCount))
      (now + m.orderDuration) m.cfg.market.orderCount.toNat m.cfg.market.spread [] =
        some ops := by
  obtain ⟨rate, sv, bv, hrate, hsv, hbv, hl⟩ := (createOrders_unfold _ _ _ _ _ _).mp hret
  obtain ⟨hrate', -⟩ := refRate_of_valid price hv hB hQ
  rw [hrate'] at hrate
  obtain rfl := Option.some.inj hrate
  rw [sellOrderVolume_fin createAmount m ob a ha hN] at hsv
  rw [buyOrderVolume_fin createAmount m ob q _ hq hN] at hbv
  obtain rfl := Option.some.inj hsv
  obtain rfl := Option.some.inj hbv
  exact hl

/-- A `createOrders` that returns, returns at most two operations per configured order. -/
theorem createOrders_length (createAmount : Asset → ℚ → AssetAmount) (m : MarketMaker)
    (price : Price) (ob : OrderBook) (now : Int) (ops : List Operation)
    (hret : m.createOrders createAmount price ob now = some ops) :
    ops.length ≤ 2 * m.cfg.market.orderCount.toNat := by
  obtain ⟨rate, sv, bv, -, -, -, hl⟩ := (createOrders_unfold _ _ _ _ _ _).mp hret
  have := ladder_length m rate sv bv _ _ _ _ _ hl
  simpa using this

/-- With an order count of zero or less, a `createOrders` that returns, returns nothing. -/
theorem createOrders_nonpos (createAmount : Asset → ℚ → AssetAmount) (m : MarketMaker)
    (price : Price) (ob : OrderBook) (now : Int) (ops : List Operation)
    (hN : m.cfg.market.orderCount ≤ 0)
    (hret : m.createOrders createAmount price ob now = some ops) :
    ops = [] := by
  have h := createOrders_length createAmount m price ob now ops hret
  have h0 : m.cfg.market.orderCount.toNat = 0 := by omega
  rw [h0] at h
  exact List.length_eq_zero.mp (by omega)

/-- The amount available on a side is not negative; when the fee reserve is not subtracted
from it, or the fee in smallest units did not wrap to a negative `int64`, it is at most the
`uint64` sum of the wallet balance and the resting volume. -/
theorem baseAvailable_le (m : MarketMaker) (ob : OrderBook) :
    ∃ a : ℚ, m.baseAvailable ob = some (BigFloat.fin a) ∧ 0 ≤ a ∧
      (m.cfg.feeReserve.IsZero = true ∨ m.market.base.id ≠ m.feeAsset ∨
          0 ≤ feeUnits m.cfg.feeReserve m.market.base.precision →
        a ≤ (walletPlusResting m.baseBalance.amount ob.SellAmount : ℕ)) := by
  by_cases hfee : (!m.cfg.feeReserve.IsZero) = true ∧ m.market.base.id = m.feeAsset
  · have hdef : m.baseAvailable ob =
        reserveFee (BigFloat.fin (walletPlusResting m.baseBalance.amount ob.SellAmount : ℕ))
          m.cfg.feeReserve m.market.base.precision := by
      unfold MarketMaker.baseAvailable BigFloat.SetUint64 walletPlusResting
      simp only [hfee, and_self, if_true]
    rw [hdef, reserveFee_fin]
    refine ⟨_, rfl, ?_, ?_⟩
    · split
      · rename_i h; linarith
      · exact le_refl 0
    · intro h
      have h0 : 0 ≤ feeUnits m.cfg.feeReserve m.market.base.precision := by
        rcases h with h | h | h
        · rw [h] at hfee; simp at hfee
        · exact absurd hfee.2 h
        · exact h
      have hq : (0 : ℚ) ≤ (feeUnits m.cfg.feeReserve m.market.base.precision : ℚ) := by
        exact_mod_cast h0
      split
      · linarith
      · exact Nat.cast_nonneg _
  · have hdef : m.baseAvailable ob =
        some (BigFloat.fin (walletPlusResting m.baseBalance.amount ob.SellAmount : ℕ)) := by
      unfold MarketMaker.baseAvailable BigFloat.SetUint64 walletPlusResting
      simp only [hfee, if_false]
    exact ⟨_, hdef, Nat.cast_nonneg _, fun _ => le_refl _⟩

/-- C25: on a valid reference price, for a market of two distinct assets and an order count
of at least one, the amounts of the base asset offered by the orders `createOrders` returns
sum to at most the smaller of the configured amount and the base amount available; the amount
available is not negative and, when the fee reserve is not subtracted from the base side or
the fee in smallest units is not negative, at most the sum of the wallet balance and the
resting Sell volume. -/
theorem createOrders_base_sold_le (createAmount : Asset → ℚ → AssetAmount) (m : MarketMaker)
    (price : Price) (ob : OrderBook) (now : Int) (ops : List Operation)
    (hne : m.market.base.id ≠ m.market.quote.id)
    (hv : price.Valid = true)
    (hB : price.base.amount < 2 ^ 63) (hQ : price.quote.amount < 2 ^ 63)
    (hN : 1 ≤ m.cfg.market.orderCount)
    (hret : m.createOrders createAmount price ob now = some ops) :
    ∃ a : ℚ, m.baseAvailable ob = some (BigFloat.fin a) ∧ 0 ≤ a ∧
      (soldOf m.market.base.id ops : ℚ) ≤
        min ((wrapUint64 (createAmount m.market.base m.cfg.market.amount).amount : ℕ) : ℚ) a ∧
      (m.cfg.feeReserve.IsZero = true ∨ m.market.base.id ≠ m.feeAsset ∨
          0 ≤ feeUnits m.cfg.feeReserve m.market.base.precision →
        a ≤ (walletPlusResting m.baseBalance.amount ob.SellAmount : ℕ)) := by
  obtain ⟨a, ha, ha0, hle⟩ := baseAvailable_le m ob
  obtain ⟨q, hq, -⟩ := quoteAvailable_fin m ob
  refine ⟨a, ha, ha0, ?_, hle⟩
  have hN0 : m.cfg.market.orderCount ≠ 0 := by omega
  have hl := createOrders_ladder createAmount m price ob now a q ops hv (by omega) (by omega)
    hN0 ha hq hret
  have hsum := ladder_sold_base m hne _ _ _ _ _ _ _ _ hl
  rw [soldOf_nil, zero_add] at hsum
  have hNq : (0 : ℚ) < (m.cfg.market.orderCount : ℚ) := by exact_mod_cast (by omega : 0 < m.cfg.market.orderCount)
  have hlim : (0 : ℚ) ≤
      min ((wrapUint64 (createAmount m.market.base m.cfg.market.amount).amount : ℕ) : ℚ) a :=
    le_min (Nat.cast_nonneg _) ha0
  have hs0 : (0 : ℚ) ≤
      min ((wrapUint64 (createAmount m.market.base m.cfg.market.amount).amount : ℕ) : ℚ) a /
        m.cfg.market.orderCount := div_nonneg hlim hNq.le
  have hmax := wrapInt64_Uint64_le _ hs0
  have hcast : ((m.cfg.market.orderCount.toNat : ℕ) : ℚ) = (m.cfg.market.orderCount : ℚ) := by
    have : ((m.cfg.market.orderCount.toNat : ℕ) : Int) = m.cfg.market.orderCount :=
      Int.toNat_of_nonneg (by omega)
    exact_mod_cast this
  have hsumq : (soldOf m.market.base.id ops : ℚ) ≤
      (m.cfg.market.orderCount.toNat : ℚ) *
        ((max (wrapInt64 ((BigFloat.fin
          (min ((wrapUint64 (createAmount m.market.base m.cfg.market.amount).amount : ℕ) : ℚ) a /
            m.cfg.market.orderCount)).Uint64 : Int)) 0 : Int) : ℚ) := by
    exact_mod_cast hsum
  calc (soldOf m.market.base.id ops : ℚ)
      ≤ (m.cfg.market.orderCount.toNat : ℚ) * _ := hsumq
    _ ≤ (m.cfg.market.orderCount.toNat : ℚ) *
        (min ((wrapUint64 (createAmount m.market.base m.cfg.market.amount).amount : ℕ) : ℚ) a /
          m.cfg.market.orderCount) :=
        mul_le_mul_of_nonneg_left hmax (Nat.cast_nonneg _)
    _ = min ((wrapUint64 (createAmount m.market.base m.cfg.market.amount).amount : ℕ) : ℚ) a := by
        rw [hcast]; field_simp

theorem quoteHolder_baseAvailable :
    quoteHolder.baseAvailable { sell := [], buy := [] } = some (BigFloat.fin 0) := by
  rw [baseAvailable_of_no_reserve _ _ (by decide)]
  have : (wrapUint64 quoteHolder.baseBalance.amount +
      OrderBook.SellAmount { sell := [], buy := [] }) % 2 ^ 64 = 0 := by decide
  rw [this]; norm_num

theorem quoteHolder_quoteAvailable :
    quoteHolder.quoteAvailable { sell := [], buy := [] } = some (BigFloat.fin 1000) := by
  rw [quoteAvailable_of_no_reserve _ _ (by decide)]
  have : (wrapUint64 quoteHolder.quoteBalance.amount +
      OrderBook.BuyAmount { sell := [], buy := [] }) % 2 ^ 64 = 1000 := by decide
  rw [this]; norm_num

theorem quoteHolder_createOrders :
    quoteHolder.createOrders (fixedCreateAmount 1000) (priceOTNBTC 1 2)
        { sell := [], buy := [] } 10 =
      some [Operation.create idSeller { asset := idBTC, amount := 1000 }
        { asset := idOTN, amount := 500 } false 600000000010] := by
  rw [createOrders_fin (fixedCreateAmount 1000) quoteHolder (priceOTNBTC 1 2) _ 10 0 1000
    (by decide) (by decide) (by decide) (by decide) quoteHolder_baseAvailable
    quoteHolder_quoteAvailable (by
      intro i _
      simp [MarketMaker.spreadAt, quoteHolder, sampleMaker, sampleMarketConfig])]
  have hN : quoteHolder.cfg.market.orderCount.toNat = 1 := by decide
  have hL : wrapUint64 (fixedCreateAmount 1000 quoteHolder.market.base
      quoteHolder.cfg.market.amount).amount = 1000 := by decide
  rw [hN, hL]
  simp only [List.range_succ, List.range_zero, List.nil_append, List.flatMap_cons,
    List.flatMap_nil, List.append_nil, MarketMaker.stepOps, MarketMaker.spreadAt]
  norm_num [quoteHolder, sampleMaker, sampleMarketConfig, priceOTNBTC, marketOTNBTC, assetOTN,
    assetBTC, BigFloat.Uint64, maxUint64, wrapInt64]

/-- C23 (as stated, refuted): with 1000 quote units available, a configured amount of 1000
and the reference price of 1 base unit for 2 quote units, the buy order asks for 500 base
units, the truncation of `min(1000, 1000 * 1/2) / 1`, while
`floor(min(configuredAmount, availableQuote) / orderCount)` is 1000. -/
theorem createOrders_buy_limit_converted :
    quoteHolder.quoteAvailable { sell := [], buy := [] } = some (BigFloat.fin 1000) ∧
    quoteHolder.createOrders (fixedCreateAmount 1000) (priceOTNBTC 1 2)
        { sell := [], buy := [] } 10 =
      some [Operation.create idSeller { asset := idBTC, amount := 1000 }
        { asset := idOTN, amount := 500 } false 600000000010] ∧
    ⌊min ((wrapUint64 (fixedCreateAmount 1000 quoteHolder.market.base
        quoteHolder.cfg.market.amount).amount : ℕ) : ℚ) 1000 /
      quoteHolder.cfg.market.orderCount⌋ = 1000 := by
  refine ⟨quoteHolder_quoteAvailable, quoteHolder_createOrders, ?_⟩
  have hL : wrapUint64 (fixedCreateAmount 1000 quoteHolder.market.base
      quoteHolder.cfg.market.amount).amount = 1000 := by decide
  have hN : quoteHolder.cfg.market.orderCount = 1 := by decide
  rw [hL, hN]
  norm_num

/-- C25 on the sample maker (110 base units, configured amount 1000) at the price 1 : 2: the
one sell order offers 110 base units. -/
theorem createOrders_base_sold_le_witness :
    ∃ a : ℚ, sampleMaker.baseAvailable { sell := [], buy := [] } = some (BigFloat.fin a) ∧
      0 ≤ a ∧
      (soldOf sampleMaker.market.base.id
          [Operation.create idSeller { asset := idOTN, amount := 110 }
            { asset := idBTC, amount := 220 } false 600000000010] : ℚ) ≤
        min ((wrapUint64 (fixedCreateAmount 1000 sampleMaker.market.base
          sampleMaker.cfg.market.amount).amount : ℕ) : ℚ) a ∧
      (sampleMaker.cfg.feeReserve.IsZero = true ∨
          sampleMaker.market.base.id ≠ sampleMaker.feeAsset ∨
          0 ≤ feeUnits sampleMaker.cfg.feeReserve sampleMaker.market.base.precision →
        a ≤ (walletPlusResting sampleMaker.baseBalance.amount
          (OrderBook.SellAmount { sell := [], buy := [] }) : ℕ)) :=
  createOrders_base_sold_le (fixedCreateAmount 1000) sampleMaker (priceOTNBTC 1 2)
    { sell := [], buy := [] } 10 _ (by decide) (by decide) (by decide) (by decide) (by decide)
    sampleMaker_createOrders

/-- Both amounts of `NewPrice` carry the base id of the market. -/
theorem NewPrice_assets (m : Market) (b q : Nat) :
    (m.NewPrice b q).base.asset = m.base.id ∧ (m.NewPrice b q).quote.asset = m.base.id :=
  ⟨rfl, rfl⟩

/-- In a market of two distinct assets the rate of every price built by `NewPrice` is zero. -/
theorem GetRate_NewPrice (m : Market) (hne : m.base.id ≠ m.quote.id) (b q : Nat) :
    m.GetRate (m.NewPrice b q) = 0 :=
  GetRate_of_no_match m _ (fun h => hne h.2) (fun h => hne h.1)

/-- C24 (failing input): on the OTN/BTC market `NewPrice(1, 1)` is the price of 1 OTN unit for
1 OTN unit, its quote asset being the base id and not the quote id of the market, and
`GetRate` maps it to the zero rate; the price of 1 OTN unit for 1 BTC unit, which the claim
describes, has rate 1. -/
theorem NewPrice_quote_asset :
    marketOTNBTC.NewPrice 1 1 =
      { base := { asset := idOTN, amount := 1 }, quote := { asset := idOTN, amount := 1 } } ∧
    (marketOTNBTC.NewPrice 1 1).quote.asset ≠ marketOTNBTC.quote.id ∧
    marketOTNBTC.GetRate (marketOTNBTC.NewPrice 1 1) = 0 ∧
    marketOTNBTC.GetRate (priceOTNBTC 1 1) = 1 := by
  refine ⟨by decide, by decide, GetRate_NewPrice marketOTNBTC (by decide) 1 1, ?_⟩
  have := sampleMaker_rate 1 (by norm_num)
  exact_mod_cast this

namespace cmc
open priceProviderFactory

/-- The rate `Market.GetRate` reads off the price built from two tickers: the truncated quote
amount over `10 ^ quotePrecision`, the quote amount being `10 ^ basePrecision * baseBtc /
quoteBtc` as `float64` arithmetic gives it. -/
theorem tickerPrice_rate (market : Market) (b q : Ticker)
    (hbp : 0 < b.btcPrice) (hqp : 0 < q.btcPrice)
    (hprec : 0 ≤ market.base.precision ∧ market.base.precision ≤ 18)
    (hfit : fl64 (fl64 ((10 : ℚ) ^ market.base.precision * b.btcPrice) / q.btcPrice) < 2 ^ 63)
    (hone : 1 ≤ fl64 (fl64 ((10 : ℚ) ^ market.base.precision * b.btcPrice) / q.btcPrice)) :
    market.GetRate (tickerPrice market (some b) (some q)) =
      (⌊fl64 (fl64 ((10 : ℚ) ^ market.base.precision * b.btcPrice) / q.btcPrice)⌋ : ℚ) /
        (10 : ℚ) ^ market.quote.precision := by
  rw [tickerPrice_some market b q hbp hqp hprec hfit]
  have hpowpos : (0 : Int) < 10 ^ market.base.precision.toNat := by positivity
  have hfl : (0 : Int) <
      ⌊fl64 (fl64 ((10 : ℚ) ^ market.base.precision * b.btcPrice) / q.btcPrice)⌋ := by
    rw [Int.lt_iff_add_one_le, zero_add, Int.le_floor]
    exact_mod_cast hone
  rw [GetRate_of_match market _ (by simp [Price.Valid, hpowpos, hfl]) ⟨rfl, rfl⟩]
  have hpow : (10 : ℚ) ^ market.base.precision = ((10 ^ market.base.precision.toNat : Int) : ℚ) := by
    conv_lhs => rw [← Int.toNat_of_nonneg hprec.1]
    push_cast; rw [zpow_natCast]
  have hne : (10 : ℚ) ^ market.base.precision ≠ 0 := (zpow_pos (by norm_num) _).ne'
  simp only [Price.Rate]
  rw [← hpow, div_self hne, div_one]

/-- For assets of equal precision the rate read off the price is the quote amount that
`float64` arithmetic gives, in whole units of the quote asset, up to the truncation: it is at
most that and misses it by less than one smallest unit. -/
theorem tickerPrice_rate_equal_precision (market : Market) (b q : Ticker)
    (hbp : 0 < b.btcPrice) (hqp : 0 < q.btcPrice)
    (hprec : 0 ≤ market.base.precision ∧ market.base.precision ≤ 18)
    (hsame : market.quote.precision = market.base.precision)
    (hfit : fl64 (fl64 ((10 : ℚ) ^ market.base.precision * b.btcPrice) / q.btcPrice) < 2 ^ 63)
    (hone : 1 ≤ fl64 (fl64 ((10 : ℚ) ^ market.base.precision * b.btcPrice) / q.btcPrice)) :
    market.GetRate (tickerPrice market (some b) (some q)) ≤
      fl64 (fl64 ((10 : ℚ) ^ market.base.precision * b.btcPrice) / q.btcPrice) /
        (10 : ℚ) ^ market.base.precision ∧
    fl64 (fl64 ((10 : ℚ) ^ market.base.precision * b.btcPrice) / q.btcPrice) /
        (10 : ℚ) ^ market.base.precision - 1 / (10 : ℚ) ^ market.base.precision <
      market.GetRate (tickerPrice market (some b) (some q)) := by
  rw [tickerPrice_rate market b q hbp hqp hprec hfit hone, hsame]
  have hpos : (0 : ℚ) < (10 : ℚ) ^ market.base.precision := zpow_pos (by norm_num) _
  have h1 := Int.floor_le
    (fl64 (fl64 ((10 : ℚ) ^ market.base.precision * b.btcPrice) / q.btcPrice))
  have h2 := Int.lt_floor_add_one
    (fl64 (fl64 ((10 : ℚ) ^ market.base.precision * b.btcPrice) / q.btcPrice))
  constructor
  · exact div_le_div_of_nonneg_right h1 hpos.le
  · rw [← sub_div]
    exact div_lt_div_of_pos_right (by linarith) hpos

/-- C27 (failing input): on the market of OTN (precision 8) against an asset of precision 5,
with both cached BTC prices equal to 1, `GetPrice` returns `10^8` base units for `10^8` quote
units, whose rate in the market's units is 1000, while the ratio of the BTC prices is 1. -/
theorem GetPrice_rate_mixed_precision :
    GetPrice marketMixedPrecision (sampleFactory 1 1) (quietEnv 10) (quietEnv 10) =
      some (sampleFactory 1 1,
        { base := { asset := idOTN, amount := 100000000 }
          quote := { asset := idBTC, amount := 100000000 } }, []) ∧
    marketMixedPrecision.GetRate
        { base := { asset := idOTN, amount := 100000000 }
          quote := { asset := idBTC, amount := 100000000 } } = 1000 ∧
    Ticker.btcPrice { symbol := "OTN", btcPrice := 1 } /
      Ticker.btcPrice { symbol := "BTC", btcPrice := 1 } = 1 := by
  refine ⟨?_, ?_, by norm_num⟩
  · have hb : (sampleFactory 1 1).getTicker (quietEnv 10) marketMixedPrecision.base.symbol =
        some (sampleFactory 1 1, some { symbol := "OTN", btcPrice := 1 }, []) := by
      rw [getTicker_fresh _ _ _ (by decide)]
      simp [sampleFactory, marketMixedPrecision, assetOTN]
    have hq : (sampleFactory 1 1).getTicker (quietEnv 10) marketMixedPrecision.quote.symbol =
        some (sampleFactory 1 1, some { symbol := "BTC", btcPrice := 1 }, []) := by
      rw [getTicker_fresh _ _ _ (by decide)]
      simp [sampleFactory, marketMixedPrecision]
    have hval : fl64 (fl64 ((10 : ℚ) ^ marketMixedPrecision.base.precision * 1) / 1) =
        ((100000000 : Int) : ℚ) := by
      have h1 : (10 : ℚ) ^ marketMixedPrecision.base.precision * 1 = ((100000000 : Int) : ℚ) := by
        norm_num [marketMixedPrecision, assetOTN]
      rw [h1, fl64_intCast _ (by norm_num), div_one, fl64_intCast _ (by norm_num)]
    rw [GetPrice_of_lookups marketMixedPrecision _ _ _ _ _ _ _ [] [] hb hq,
      tickerPrice_some marketMixedPrecision _ _ (by norm_num) (by norm_num) (by decide)
        (by rw [hval]; norm_num)]
    have hfloor : ⌊fl64 (fl64 ((10 : ℚ) ^ marketMixedPrecision.base.precision * 1) / 1)⌋ =
        100000000 := by
      rw [hval, Int.floor_intCast]
    simp only [hfloor]
    rfl
  · rw [GetRate_of_match marketMixedPrecision _ (by decide) ⟨rfl, rfl⟩]
    norm_num [Price.Rate, marketMixedPrecision, assetOTN]

end cmc

/-! ## Overflow of the cross products; the divisions of `createOrders` -/

namespace blockchain

/-- When both per-asset prices are valid and both products are below 2^63, the price built
from them is valid and its amounts are the plain products. -/
theorem crossPrice_of_fit (market : Market) (bp qp : Price)
    (hb : bp.Valid = true) (hq : qp.Valid = true)
    (h1 : bp.base.amount * qp.quote.amount < 2 ^ 63)
    (h2 : bp.quote.amount * qp.base.amount < 2 ^ 63) :
    crossPrice market bp qp =
      { base := { asset := market.base.id, amount := bp.base.amount * qp.quote.amount }
        quote := { asset := market.quote.id, amount := bp.quote.amount * qp.base.amount } } ∧
    (crossPrice market bp qp).Valid = true := by
  have hb1 := hb; have hq1 := hq
  simp only [Price.Valid, Bool.and_eq_true, decide_eq_true_eq] at hb1 hq1
  have hp1 : 0 < bp.base.amount * qp.quote.amount := mul_pos hb1.1 hq1.2
  have hp2 : 0 < bp.quote.amount * qp.base.amount := mul_pos hb1.2 hq1.1
  have heq : crossPrice market bp qp =
      { base := { asset := market.base.id, amount := bp.base.amount * qp.quote.amount }
        quote := { asset := market.quote.id, amount := bp.quote.amount * qp.base.amount } } := by
    unfold crossPrice
    simp only [hb, hq, Bool.not_true, Bool.or_self, Bool.false_eq_true, if_false]
    rw [wrapInt64_of_range (by omega) h1, wrapInt64_of_range (by omega) h2]
  refine ⟨heq, ?_⟩
  rw [heq]
  simp [Price.Valid, hp1, hp2]

/-- C28 (failing input): the settlement prices of 2^32 units of the base asset for one core
unit and of one unit of the quote asset for 2^31 core units are both valid; the base amount of
the price `GetPrice` builds from them is the `int64` product `2^32 * 2^31`, which wraps to
`-2^63`, so the price returned is not valid and its base amount is not the exact product. -/
theorem GetPrice_cross_overflow :
    getAssetPrice feedAnswers feedMarket.base =
      some { base := { asset := feedMarket.base.id, amount := 4294967296 }
             quote := { asset := coreAsset, amount := 1 } } ∧
    getAssetPrice feedAnswers feedMarket.quote =
      some { base := { asset := feedMarket.quote.id, amount := 1 }
             quote := { asset := coreAsset, amount := 2147483648 } } ∧
    Price.Valid { base := { asset := feedMarket.base.id, amount := 4294967296 }
                  quote := { asset := coreAsset, amount := 1 } } = true ∧
    Price.Valid { base := { asset := feedMarket.quote.id, amount := 1 }
                  quote := { asset := coreAsset, amount := 2147483648 } } = true ∧
    GetPrice feedAnswers feedMarket =
      some { base := { asset := feedMarket.base.id, amount := -9223372036854775808 }
             quote := { asset := feedMarket.quote.id, amount := 1 } } ∧
    Price.Valid { base := { asset := feedMarket.base.id, amount := -9223372036854775808 }
                  quote := { asset := feedMarket.quote.id, amount := 1 } } = false ∧
    (4294967296 : Int) * 2147483648 = 9223372036854775808 := by
  refine ⟨by decide, by decide, by decide, by decide, by decide, by decide, by norm_num⟩

end blockchain

/-- With an order count of zero the per-order sell volume is a division by zero: it panics
when the base limit is zero. -/
theorem sellOrderVolume_zero_count (createAmount : Asset → ℚ → AssetAmount) (m : MarketMaker)
    (ob : OrderBook) (a : ℚ) (ha : m.baseAvailable ob = some (BigFloat.fin a))
    (hN : m.cfg.market.orderCount = 0) :
    m.sellOrderVolume createAmount ob =
      (BigFloat.fin
        (min ((wrapUint64 (createAmount m.market.base m.cfg.market.amount).amount : ℕ) : ℚ)
          a)).Quo (BigFloat.fin 0) := by
  unfold MarketMaker.sellOrderVolume MarketMaker.baseLimit
  simp only [ha, amountLimit_eq, Option.bind_eq_bind, Option.some_bind, Option.pure_def,
    limit_select, BigFloat.SetInt64, hN, Int.cast_zero]

theorem buyOrderVolume_zero_count (createAmount : Asset → ℚ → AssetAmount) (m : MarketMaker)
    (ob : OrderBook) (q r : ℚ) (hq : m.quoteAvailable ob = some (BigFloat.fin q))
    (hN : m.cfg.market.orderCount = 0) :
    m.buyOrderVolume createAmount (BigFloat.fin r) ob =
      (BigFloat.fin
        (min ((wrapUint64 (createAmount m.market.base m.cfg.market.amount).amount : ℕ) : ℚ)
          (q * r))).Quo (BigFloat.fin 0) := by
  unfold MarketMaker.buyOrderVolume MarketMaker.quoteLimit
  simp only [hq, amountLimit_eq, Option.bind_eq_bind, Option.some_bind, Option.pure_def,
    BigFloat.Mul_fin, limit_select, BigFloat.SetInt64, hN, Int.cast_zero]

/-- On a valid reference price with an order count of zero, `createOrders` panics exactly
when the limit of one side is zero, and returns no operation otherwise. -/
theorem createOrders_zero_count (createAmount : Asset → ℚ → AssetAmount) (m : MarketMaker)
    (price : Price) (ob : OrderBook) (now : Int) (a q : ℚ)
    (hv : price.Valid = true)
    (hB : price.base.amount < 2 ^ 64) (hQ : price.quote.amount < 2 ^ 64)
    (hN : m.cfg.market.orderCount = 0)
    (ha : m.baseAvailable ob = some (BigFloat.fin a))
    (hq : m.quoteAvailable ob = some (BigFloat.fin q)) :
    m.createOrders createAmount price ob now =
      if min ((wrapUint64 (createAmount m.market.base m.cfg.market.amount).amount : ℕ) : ℚ) a = 0 ∨
          min ((wrapUint64 (createAmount m.market.base m.cfg.market.amount).amount : ℕ) : ℚ)
            (q * ((price.base.amount : ℚ) / price.quote.amount)) = 0
      then none else some [] := by
  obtain ⟨hrate, -⟩ := refRate_of_valid price hv hB hQ
  have hn : m.cfg.market.orderCount.toNat = 0 := by rw [hN]; rfl
  unfold MarketMaker.createOrders
  simp only [hrate, sellOrderVolume_zero_count createAmount m ob a ha hN,
    buyOrderVolume_zero_count createAmount m ob q _ hq hN, Option.bind_eq_bind,
    Option.some_bind, hn]
  by_cases h1 : min ((wrapUint64 (createAmount m.market.base m.cfg.market.amount).amount : ℕ) : ℚ)
      a = 0
  · simp [h1, BigFloat.Quo]
  · by_cases h2 : min ((wrapUint64 (createAmount m.market.base m.cfg.market.amount).amount : ℕ)
        : ℚ) (q * ((price.base.amount : ℚ) / price.quote.amount)) = 0
    · simp [h1, h2, BigFloat.Quo]
    · simp [h1, h2, BigFloat.Quo, MarketMaker.ladder]

theorem emptyLadderMaker_baseAvailable :
    emptyLadderMaker.baseAvailable { sell := [], buy := [] } = some (BigFloat.fin 0) := by
  rw [baseAvailable_of_no_reserve _ _ (by decide)]
  have : (wrapUint64 emptyLadderMaker.baseBalance.amount +
      OrderBook.SellAmount { sell := [], buy := [] }) % 2 ^ 64 = 0 := by decide
  rw [this]; norm_num

theorem emptyLadderMaker_quoteAvailable :
    emptyLadderMaker.quoteAvailable { sell := [], buy := [] } = some (BigFloat.fin 0) := by
  rw [quoteAvailable_of_no_reserve _ _ (by decide)]
  have : (wrapUint64 emptyLadderMaker.quoteBalance.amount +
      OrderBook.BuyAmount { sell := [], buy := [] }) % 2 ^ 64 = 0 := by decide
  rw [this]; norm_num

/-- C29 (failing input): with an order count of zero and nothing available, at the valid
reference price of 1 base unit for 2 quote units, the per-order volume is the division of
zero by zero, on which `big.Float.Quo` panics: `createOrders` does not return. -/
theorem createOrders_zero_by_zero :
    (priceOTNBTC 1 2).Valid = true ∧
    emptyLadderMaker.cfg.market.orderCount = 0 ∧
    emptyLadderMaker.baseAvailable { sell := [], buy := [] } = some (BigFloat.fin 0) ∧
    emptyLadderMaker.quoteAvailable { sell := [], buy := [] } = some (BigFloat.fin 0) ∧
    emptyLadderMaker.sellOrderVolume (fixedCreateAmount 1000) { sell := [], buy := [] } = none ∧
    emptyLadderMaker.createOrders (fixedCreateAmount 1000) (priceOTNBTC 1 2)
      { sell := [], buy := [] } 10 = none := by
  refine ⟨by decide, by decide, emptyLadderMaker_baseAvailable, emptyLadderMaker_quoteAvailable,
    ?_, ?_⟩
  · rw [sellOrderVolume_zero_count _ _ _ 0 emptyLadderMaker_baseAvailable (by decide)]
    simp [BigFloat.Quo]
  · rw [createOrders_zero_count (fixedCreateAmount 1000) emptyLadderMaker (priceOTNBTC 1 2) _ 10
      0 0 (by decide) (by decide) (by decide) (by decide) emptyLadderMaker_baseAvailable
      emptyLadderMaker_quoteAvailable]
    simp

/-- With one order per side, a spread of -2 (spread factor zero) and no quote asset available,
the amount the buy order offers is the division of zero by zero: `createOrders` panics. -/
theorem createOrders_zero_factor :
    zeroFactorMaker.createOrders (fixedCreateAmount 1000) (priceOTNBTC 1 2)
      { sell := [], buy := [] } 10 = none := by
  have ha : zeroFactorMaker.baseAvailable { sell := [], buy := [] } = some (BigFloat.fin 110) := by
    rw [baseAvailable_of_no_reserve _ _ (by decide)]
    have : (wrapUint64 zeroFactorMaker.baseBalance.amount +
        OrderBook.SellAmount { sell := [], buy := [] }) % 2 ^ 64 = 110 := by decide
    rw [this]; norm_num
  have hq : zeroFactorMaker.quoteAvailable { sell := [], buy := [] } = some (BigFloat.fin 0) := by
    rw [quoteAvailable_of_no_reserve _ _ (by decide)]
    have : (wrapUint64 zeroFactorMaker.quoteBalance.amount +
        OrderBook.BuyAmount { sell := [], buy := [] }) % 2 ^ 64 = 0 := by decide
    rw [this]; norm_num
  obtain ⟨hrate, hpos⟩ := refRate_of_valid (priceOTNBTC 1 2) (by decide) (by decide) (by decide)
  have hN : zeroFactorMaker.cfg.market.orderCount.toNat = 1 := by decide
  have hs : zeroFactorMaker.cfg.market.spread = -2 := rfl
  unfold MarketMaker.createOrders
  simp only [hrate, sellOrderVolume_fin (fixedCreateAmount 1000) zeroFactorMaker _ 110 ha
      (by decide),
    buyOrderVolume_fin (fixedCreateAmount 1000) zeroFactorMaker _ 0 _ hq (by decide),
    Option.bind_eq_bind, Option.some_bind, hN, MarketMaker.ladder,
    sellStep_fin _ _ _ _ _ hpos.ne', hs]
  simp [MarketMaker.buyStep, BigFloat.Quo]

/-! ## `createOrders` with the rounding of the program -/

namespace Machine

theorem Quo_round {x y : ℚ} (hy : y ≠ 0) :
    Quo (BigFloat.fin x) (BigFloat.fin y) = some (BigFloat.fin (round64 (x / y))) := by
  simp [Quo, BigFloat.Quo, hy, BigFloat.round]

theorem Mul_round (x y : ℚ) :
    Mul (BigFloat.fin x) (BigFloat.fin y) = some (BigFloat.fin (round64 (x * y))) := rfl

/-- On a valid price below 2^64 the ratio of `createOrders` is the quotient of the two amounts
rounded to 64 bits, and it is positive. -/
theorem refRate_round (price : Price) (hv : price.Valid = true)
    (hB : price.base.amount < 2 ^ 64) (hQ : price.quote.amount < 2 ^ 64) :
    refRate price =
      some (BigFloat.fin (round64 ((price.base.amount : ℚ) / price.quote.amount))) ∧
    (0 : ℚ) < round64 ((price.base.amount : ℚ) / price.quote.amount) := by
  unfold Price.Valid at hv
  simp only [Bool.and_eq_true, decide_eq_true_eq] at hv
  have hb : ((wrapUint64 price.base.amount : ℕ) : ℚ) = (price.base.amount : ℚ) := by
    have := wrapUint64_of_range hv.1.le hB
    exact_mod_cast congrArg (fun z : Int => (z : ℚ)) this
  have hq : ((wrapUint64 price.quote.amount : ℕ) : ℚ) = (price.quote.amount : ℚ) := by
    have := wrapUint64_of_range hv.2.le hQ
    exact_mod_cast congrArg (fun z : Int => (z : ℚ)) this
  have hq0 : (0 : ℚ) < (price.quote.amount : ℚ) := by exact_mod_cast hv.2
  have hb0 : (0 : ℚ) < (price.base.amount : ℚ) := by exact_mod_cast hv.1
  constructor
  · unfold refRate BigFloat.SetUint64
    rw [hb, hq, Quo_round hq0.ne']
  · exact round64_pos _ (div_pos hb0 hq0)

theorem sellStep_round (m : MarketMaker) (r s spread : ℚ) (e : Int) (hr : r ≠ 0) :
    sellStep m (BigFloat.fin r) (BigFloat.fin s) (BigFloat.fin (spreadValue spread)) e =
      some (if 10 < ⌊s⌋ ∧ 10 < ⌊receiveAmount s r spread⌋ then
        [Operation.create m.account
          { asset := m.market.base.id, amount := wrapInt64 (BigFloat.fin s).Uint64 }
          { asset := m.market.quote.id,
            amount := wrapInt64 (BigFloat.fin (receiveAmount s r spread)).Uint64 }
          false e]
      else []) := by
  unfold sellStep receiveAmount
  simp only [Quo_round hr, Mul_round, Option.bind_eq_bind, Option.some_bind,
    BigFloat.threshold_lt_Uint64_fin, gt_iff_lt]
  split <;> rfl

theorem buyStep_round (m : MarketMaker) (r b spread : ℚ) (e : Int) (hr : r ≠ 0)
    (hf : spreadValue spread ≠ 0) :
    buyStep m (BigFloat.fin r) (BigFloat.fin b) (BigFloat.fin (spreadValue spread)) e =
      some (if 10 < ⌊offerAmount b r spread⌋ ∧ 10 < ⌊b⌋ then
        [Operation.create m.account
          { asset := m.market.quote.id,
            amount := wrapInt64 (BigFloat.fin (offerAmount b r spread)).Uint64 }
          { asset := m.market.base.id, amount := wrapInt64 (BigFloat.fin b).Uint64 }
          false e]
      else []) := by
  unfold buyStep offerAmount
  simp only [Quo_round hr, Quo_round hf, Option.bind_eq_bind, Option.some_bind,
    BigFloat.threshold_lt_Uint64_fin, gt_iff_lt]
  split <;> rfl

/-- A sell step that returns appends nothing, or one create operation that offers the
truncated sell volume of the base asset for the quote asset. -/
theorem sellStep_round_mem (m : MarketMaker) (rate sv f : BigFloat) (e : Int)
    (l : List Operation) (h : sellStep m rate sv f e = some l) :
    l = [] ∨ ∃ recv : Int, orderAmountThreshold < sv.Uint64 ∧
      l = [Operation.create m.account
        { asset := m.market.base.id, amount := wrapInt64 sv.Uint64 }
        { asset := m.market.quote.id, amount := recv } false e] := by
  unfold sellStep at h
  simp only [Option.bind_eq_bind, Option.bind_eq_some] at h
  obtain ⟨x, -, y, -, h⟩ := h
  split at h
  · rename_i hg
    right
    exact ⟨_, hg.1, by simpa using h.symm⟩
  · left; simpa using h.symm

/-- A buy step that returns appends nothing, or one create operation that asks for the
truncated buy volume of the base asset and offers the quote asset. -/
theorem buyStep_round_mem (m : MarketMaker) (rate bv f : BigFloat) (e : Int)
    (l : List Operation) (h : buyStep m rate bv f e = some l) :
    l = [] ∨ ∃ sell : Int, orderAmountThreshold < bv.Uint64 ∧
      l = [Operation.create m.account
        { asset := m.market.quote.id, amount := sell }
        { asset := m.market.base.id, amount := wrapInt64 bv.Uint64 } false e] := by
  unfold buyStep at h
  simp only [Option.bind_eq_bind, Option.bind_eq_some] at h
  obtain ⟨x, -, y, -, h⟩ := h
  split at h
  · rename_i hg
    right
    exact ⟨_, hg.2, by simpa using h.symm⟩
  · left; simpa using h.symm

/-- Unfolding of one iteration of the loop. -/
theorem ladder_round_succ (m : MarketMaker) (rate sv bv : BigFloat) (e : Int) (n : Nat)
    (spread : ℚ) (ops0 ops : List Operation) :
    ladder m rate sv bv e (n + 1) spread ops0 = some ops ↔
      ∃ sellOps buyOps,
        sellStep m rate sv (BigFloat.fin (spreadValue spread)) e = some sellOps ∧
        buyStep m rate bv (BigFloat.fin (spreadValue spread)) e = some buyOps ∧
        ladder m rate sv bv e n (fl64 (spread + m.cfg.market.spreadStep))
          (ops0 ++ sellOps ++ buyOps) = some ops := by
  rw [ladder]
  simp only [Option.bind_eq_bind, Option.bind_eq_some, spreadValue]
  constructor
  · rintro ⟨a, h1, b, h2, h3⟩; exact ⟨a, b, h1, h2, h3⟩
  · rintro ⟨a, b, h1, h2, h3⟩; exact ⟨a, h1, b, h2, h3⟩

theorem createOrders_round_unfold (createAmount : Asset → ℚ → AssetAmount) (m : MarketMaker)
    (price : Price) (ob : OrderBook) (now : Int) (ops : List Operation) :
    createOrders createAmount m price ob now = some ops ↔
      ∃ rate sv bv, refRate price = some rate ∧
        sellOrderVolume createAmount m ob = some sv ∧
        buyOrderVolume createAmount m rate ob = some bv ∧
        ladder m rate sv bv (now + m.orderDuration) m.cfg.market.orderCount.toNat
          m.cfg.market.spread [] = some ops := by
  unfold createOrders
  simp only [Option.bind_eq_bind, Option.bind_eq_some]
  constructor
  · rintro ⟨a, h1, b, h2, c, h3, h4⟩; exact ⟨a, b, c, h1, h2, h3, h4⟩
  · rintro ⟨a, b, c, h1, h2, h3, h4⟩; exact ⟨a, h1, b, h2, c, h3, h4⟩

theorem filter_sells_sellStep_round (m : MarketMaker) (r s spread : ℚ) (e : Int)
    (h1 : ⌊s⌋ < 2 ^ 63) (h2 : ⌊receiveAmount s r spread⌋ < 2 ^ 63) :
    (if 10 < ⌊s⌋ ∧ 10 < ⌊receiveAmount s r spread⌋ then
        [Operation.create m.account
          { asset := m.market.base.id, amount := wrapInt64 (BigFloat.fin s).Uint64 }
          { asset := m.market.quote.id,
            amount := wrapInt64 (BigFloat.fin (receiveAmount s r spread)).Uint64 }
          false e]
      else []).filter (Operation.sells m.market.base.id) =
    (sellOrderFor m s r spread e).toList := by
  unfold sellOrderFor
  split
  · rename_i hg
    rw [BigFloat.wrapInt64_Uint64_fin _ (by omega) h1,
      BigFloat.wrapInt64_Uint64_fin _ (by omega) h2]
    simp [Operation.sells]
  · simp

theorem filter_sells_buyStep_round (m : MarketMaker)
    (hne : m.market.base.id ≠ m.market.quote.id)
    (rate bv f : BigFloat) (e : Int) (l : List Operation)
    (h : buyStep m rate bv f e = some l) :
    l.filter (Operation.sells m.market.base.id) = [] := by
  rcases buyStep_round_mem m rate bv f e l h with hnil | ⟨sa, -, hl⟩
  · rw [hnil]; rfl
  · rw [hl]; simp [Operation.sells, Ne.symm hne]

/-- The sell orders the loop appends, in ladder order. -/
theorem ladder_round_sells (m : MarketMaker) (hne : m.market.base.id ≠ m.market.quote.id)
    (r s : ℚ) (bv : BigFloat) (e : Int) (hr : r ≠ 0) (hs : ⌊s⌋ < 2 ^ 63) :
    ∀ (n : Nat) (spread : ℚ) (ops0 ops : List Operation),
      (∀ i : ℕ, i < n →
        ⌊receiveAmount s r (spreadFrom m.cfg.market.spreadStep spread i)⌋ < 2 ^ 63) →
      ladder m (BigFloat.fin r) (BigFloat.fin s) bv e n spread ops0 = some ops →
      ops.filter (Operation.sells m.market.base.id) =
        ops0.filter (Operation.sells m.market.base.id) ++
          (List.range n).filterMap
            (fun i : ℕ => sellOrderFor m s r (spreadFrom m.cfg.market.spreadStep spread i) e) := by
  intro n
  induction n with
  | zero =>
    intro spread ops0 ops _ h
    simp only [ladder, Option.some.injEq] at h
    subst h; simp
  | succ n ih =>
    intro spread ops0 ops hfit h
    obtain ⟨sellOps, buyOps, hsell, hbuy, hrest⟩ :=
      (ladder_round_succ m _ _ bv e n spread ops0 ops).mp h
    rw [sellStep_round m r s _ e hr] at hsell
    have hfit0 := hfit 0 (Nat.succ_pos n)
    simp only [spreadFrom] at hfit0
    have hrec := ih (fl64 (spread + m.cfg.market.spreadStep)) _ ops (by
      intro i hi
      exact hfit (i + 1) (Nat.succ_lt_succ hi)) hrest
    rw [hrec, List.filter_append, List.filter_append,
      filter_sells_buyStep_round m hne _ _ _ _ _ hbuy,
      ← Option.some.inj hsell, filter_sells_sellStep_round m r s spread e hs hfit0,
      List.range_succ_eq_map, List.filterMap_cons, List.filterMap_map]
    have hfun : (fun i : ℕ => sellOrderFor m s r
          (spreadFrom m.cfg.market.spreadStep (fl64 (spread + m.cfg.market.spreadStep)) i) e) =
        ((fun i : ℕ => sellOrderFor m s r (spreadFrom m.cfg.market.spreadStep spread i) e) ∘
          Nat.succ) := by
      funext i
      rfl
    rw [hfun]
    simp only [spreadFrom, List.append_nil, List.append_assoc]
    cases sellOrderFor m s r spread e <;> simp

end Machine

namespace Machine

/-- With a finite non-zero rate, finite volumes and non-zero spread factors, the loop
returns, and appends the operations of its steps in order. -/
theorem ladder_round_fin (m : MarketMaker) (r s b : ℚ) (e : Int) (hr : r ≠ 0) :
    ∀ (n : Nat) (spread : ℚ) (ops0 : List Operation),
      (∀ i : ℕ, i < n → spreadValue (spreadFrom m.cfg.market.spreadStep spread i) ≠ 0) →
      ladder m (BigFloat.fin r) (BigFloat.fin s) (BigFloat.fin b) e n spread ops0 =
        some (ops0 ++ (List.range n).flatMap
          (fun i : ℕ => stepOps m r s b (spreadFrom m.cfg.market.spreadStep spread i) e)) := by
  intro n
  induction n with
  | zero => intro spread ops0 _; simp [ladder]
  | succ n ih =>
    intro spread ops0 hf
    have hf0 := hf 0 (Nat.succ_pos n)
    simp only [spreadFrom] at hf0
    rw [ladder]
    have hsv : BigFloat.fin (fl64 (1 + fl64 (spread / 2))) =
        BigFloat.fin (spreadValue spread) := rfl
    simp only [hsv, sellStep_round m r s _ e hr, buyStep_round m r b _ e hr hf0,
      Option.bind_eq_bind, Option.some_bind]
    rw [ih (fl64 (spread + m.cfg.market.spreadStep)) _ (by
      intro i hi
      exact hf (i + 1) (Nat.succ_lt_succ hi))]
    rw [List.range_succ_eq_map, List.flatMap_cons, List.flatMap_map]
    simp only [spreadFrom, List.append_assoc, stepOps, Function.comp_def]

theorem reserveFee_round (balance : ℚ) (fee : Decimal) (precision : Int) :
    reserveFee (BigFloat.fin balance) fee precision =
      some (BigFloat.fin (if (feeUnits fee precision : ℚ) < balance
        then round64 (balance - feeUnits fee precision) else 0)) := by
  unfold reserveFee BigFloat.SetInt64 BigFloat.Cmp
  by_cases h : (feeUnits fee precision : ℚ) < balance
  · have h2 : ¬ balance < (feeUnits fee precision : ℚ) := not_lt.mpr h.le
    simp [h, h2, Sub, BigFloat.Sub, BigFloat.round]
  · by_cases h3 : balance < (feeUnits fee precision : ℚ)
    · simp [h, h3]
    · simp [h, h3]

/-- The base amount available is a finite number that is not negative. -/
theorem baseAvailable_round (m : MarketMaker) (ob : OrderBook) :
    ∃ a : ℚ, baseAvailable m ob = some (BigFloat.fin a) ∧ 0 ≤ a := by
  unfold baseAvailable BigFloat.SetUint64
  simp only []
  split
  · refine ⟨_, reserveFee_round _ _ _, ?_⟩
    split
    · rename_i h; exact round64_nonneg _ (by linarith)
    · exact le_refl 0
  · exact ⟨_, rfl, Nat.cast_nonneg _⟩

/-- The quote amount available is a finite number that is not negative. -/
theorem quoteAvailable_round (m : MarketMaker) (ob : OrderBook) :
    ∃ a : ℚ, quoteAvailable m ob = some (BigFloat.fin a) ∧ 0 ≤ a := by
  unfold quoteAvailable BigFloat.SetUint64
  simp only []
  split
  · refine ⟨_, reserveFee_round _ _ _, ?_⟩
    split
    · rename_i h; exact round64_nonneg _ (by linarith)
    · exact le_refl 0
  · exact ⟨_, rfl, Nat.cast_nonneg _⟩

/-- The base amount available is a whole number. -/
theorem baseAvailable_round_nat (m : MarketMaker) (ob : OrderBook) :
    ∃ A : Nat, baseAvailable m ob = some (BigFloat.fin (A : ℚ)) := by
  unfold baseAvailable BigFloat.SetUint64
  simp only []
  split
  · rw [reserveFee_round]
    split
    · rename_i h
      have hcast : (((wrapUint64 m.baseBalance.amount + ob.SellAmount) % 2 ^ 64 : ℕ) : ℚ) -
          (feeUnits m.cfg.feeReserve m.market.base.precision : ℚ) =
          (((((wrapUint64 m.baseBalance.amount + ob.SellAmount) % 2 ^ 64 : ℕ) : Int) -
            feeUnits m.cfg.feeReserve m.market.base.precision : Int) : ℚ) := by
        rw [Int.cast_sub, Int.cast_natCast]
      rw [hcast]
      obtain ⟨z, hz⟩ := round64_intCast_int
        ((((wrapUint64 m.baseBalance.amount + ob.SellAmount) % 2 ^ 64 : ℕ) : Int) -
          feeUnits m.cfg.feeReserve m.market.base.precision)
      have hz0 : (0 : ℚ) ≤ (z : ℚ) := by
        rw [← hz]
        apply round64_nonneg
        rw [← hcast]; linarith
      have hz1 : 0 ≤ z := by exact_mod_cast hz0
      refine ⟨z.toNat, ?_⟩
      rw [hz]
      have : ((z.toNat : ℕ) : ℚ) = (z : ℚ) := by
        have := Int.toNat_of_nonneg hz1
        exact_mod_cast congrArg (fun t : Int => (t : ℚ)) this
      rw [this]
    · exact ⟨0, by simp⟩
  · exact ⟨_, rfl⟩

theorem baseAvailable_round_no_reserve (m : MarketMaker) (ob : OrderBook)
    (h : m.cfg.feeReserve.IsZero = true) :
    baseAvailable m ob = some (BigFloat.fin
      (((wrapUint64 m.baseBalance.amount + ob.SellAmount) % 2 ^ 64 : ℕ) : ℚ)) := by
  unfold baseAvailable BigFloat.SetUint64
  simp [h]

theorem quoteAvailable_round_no_reserve (m : MarketMaker) (ob : OrderBook)
    (h : m.cfg.feeReserve.IsZero = true) :
    quoteAvailable m ob = some (BigFloat.fin
      (((wrapUint64 m.quoteBalance.amount + ob.BuyAmount) % 2 ^ 64 : ℕ) : ℚ)) := by
  unfold quoteAvailable BigFloat.SetUint64
  simp [h]

/-- The per-order sell volume: the smaller of the configured amount and the base amount
available, divided by the order count and rounded to 64 bits. -/
theorem sellOrderVolume_round (createAmount : Asset → ℚ → AssetAmount) (m : MarketMaker)
    (ob : OrderBook) (a : ℚ) (ha : baseAvailable m ob = some (BigFloat.fin a))
    (hN : m.cfg.market.orderCount ≠ 0) :
    sellOrderVolume createAmount m ob = some (BigFloat.fin (round64
      (min ((wrapUint64 (createAmount m.market.base m.cfg.market.amount).amount : ℕ) : ℚ) a /
        m.cfg.market.orderCount))) := by
  have hN' : (m.cfg.market.orderCount : ℚ) ≠ 0 := by exact_mod_cast hN
  unfold sellOrderVolume baseLimit
  simp only [ha, amountLimit_eq, Option.bind_eq_bind, Option.some_bind, Option.pure_def,
    limit_select, BigFloat.SetInt64, Quo_round hN']

/-- The per-order buy volume: the smaller of the configured amount and the quote amount
available times the rate, that product rounded to 64 bits, divided by the order count and
rounded to 64 bits. -/
theorem buyOrderVolume_round (createAmount : Asset → ℚ → AssetAmount) (m : MarketMaker)
    (ob : OrderBook) (q r : ℚ) (hq : quoteAvailable m ob = some (BigFloat.fin q))
    (hN : m.cfg.market.orderCount ≠ 0) :
    buyOrderVolume createAmount m (BigFloat.fin r) ob = some (BigFloat.fin (round64
      (min ((wrapUint64 (createAmount m.market.base m.cfg.market.amount).amount : ℕ) : ℚ)
          (round64 (q * r)) /
        m.cfg.market.orderCount))) := by
  have hN' : (m.cfg.market.orderCount : ℚ) ≠ 0 := by exact_mod_cast hN
  unfold buyOrderVolume quoteLimit
  simp only [hq, amountLimit_eq, Option.bind_eq_bind, Option.some_bind, Option.pure_def,
    Mul_round, limit_select, BigFloat.SetInt64, Quo_round hN']

/-- On a valid reference price, with at least one order per side and no spread factor equal
to zero, `createOrders` returns the operations of its ladder steps in order. -/
theorem createOrders_round_fin (createAmount : Asset → ℚ → AssetAmount) (m : MarketMaker)
    (price : Price) (ob : OrderBook) (now : Int) (a q : ℚ)
    (hv : price.Valid = true)
    (hB : price.base.amount < 2 ^ 64) (hQ : price.quote.amount < 2 ^ 64)
    (hN : 1 ≤ m.cfg.market.orderCount)
    (ha : baseAvailable m ob = some (BigFloat.fin a))
    (hq : quoteAvailable m ob = some (BigFloat.fin q))
    (hf : ∀ i : ℕ, i < m.cfg.market.orderCount.toNat → spreadValue (spreadAt m i) ≠ 0) :
    createOrders createAmount m price ob now =
      some ((List.range m.cfg.market.orderCount.toNat).flatMap (fun i : ℕ =>
        stepOps m (round64 ((price.base.amount : ℚ) / price.quote.amount))
          (round64
            (min ((wrapUint64 (createAmount m.market.base m.cfg.market.amount).amount : ℕ) : ℚ)
              a / m.cfg.market.orderCount))
          (round64
            (min ((wrapUint64 (createAmount m.market.base m.cfg.market.amount).amount : ℕ) : ℚ)
              (round64 (q * round64 ((price.base.amount : ℚ) / price.quote.amount))) /
            m.cfg.market.orderCount))
          (spreadAt m i) (now + m.orderDuration))) := by
  obtain ⟨hrate, hpos⟩ := refRate_round price hv hB hQ
  have hN0 : m.cfg.market.orderCount ≠ 0 := by omega
  unfold createOrders
  simp only [hrate, sellOrderVolume_round createAmount m ob a ha hN0,
    buyOrderVolume_round createAmount m ob q _ hq hN0, Option.bind_eq_bind, Option.some_bind]
  rw [ladder_round_fin m _ _ _ _ hpos.ne' _ _ _ hf]
  simp only [List.nil_append, spreadAt]

/-- On a valid reference price, with at least one order per side and no spread factor equal
to zero, `createOrders` returns. -/
theorem createOrders_round_total (createAmount : Asset → ℚ → AssetAmount) (m : MarketMaker)
    (price : Price) (ob : OrderBook) (now : Int)
    (hv : price.Valid = true)
    (hB : price.base.amount < 2 ^ 64) (hQ : price.quote.amount < 2 ^ 64)
    (hN : 1 ≤ m.cfg.market.orderCount)
    (hf : ∀ i : ℕ, i < m.cfg.market.orderCount.toNat → spreadValue (spreadAt m i) ≠ 0) :
    ∃ ops, createOrders createAmount m price ob now = some ops := by
  obtain ⟨a, ha, -⟩ := baseAvailable_round m ob
  obtain ⟨q, hq, -⟩ := quoteAvailable_round m ob
  exact ⟨_, createOrders_round_fin createAmount m price ob now a q hv hB hQ hN ha hq hf⟩

/-- Every operation the loop appends is a sell order offering the truncated sell volume or a
buy order asking for the truncated buy volume. -/
theorem ladder_round_volumes (m : MarketMaker) (rate sv bv : BigFloat) (e : Int) :
    ∀ (n : Nat) (spread : ℚ) (ops0 ops : List Operation),
      ladder m rate sv bv e n spread ops0 = some ops →
      ∀ op ∈ ops, op ∈ ops0 ∨
        (∃ recv : Int, orderAmountThreshold < sv.Uint64 ∧
          op = Operation.create m.account
            { asset := m.market.base.id, amount := wrapInt64 sv.Uint64 }
            { asset := m.market.quote.id, amount := recv } false e) ∨
        (∃ sell : Int, orderAmountThreshold < bv.Uint64 ∧
          op = Operation.create m.account
            { asset := m.market.quote.id, amount := sell }
            { asset := m.market.base.id, amount := wrapInt64 bv.Uint64 } false e) := by
  intro n
  induction n with
  | zero =>
    intro spread ops0 ops h op hop
    simp only [ladder, Option.some.injEq] at h
    subst h; exact Or.inl hop
  | succ n ih =>
    intro spread ops0 ops h op hop
    obtain ⟨sellOps, buyOps, hs, hb, hrest⟩ :=
      (ladder_round_succ m rate sv bv e n spread ops0 ops).mp h
    rcases ih _ _ _ hrest op hop with hmem | hnew
    · rw [List.append_assoc, List.mem_append] at hmem
      rcases hmem with h0 | h1
      · exact Or.inl h0
      · right
        rw [List.mem_append] at h1
        rcases h1 with h1 | h1
        · rcases sellStep_round_mem m rate sv _ e sellOps hs with hnil | ⟨recv, hg, hl⟩
          · rw [hnil] at h1; simp at h1
          · rw [hl, List.mem_singleton] at h1
            exact Or.inl ⟨recv, hg, h1⟩
        · rcases buyStep_round_mem m rate bv _ e buyOps hb with hnil | ⟨sell, hg, hl⟩
          · rw [hnil] at h1; simp at h1
          · rw [hl, List.mem_singleton] at h1
            exact Or.inr ⟨sell, hg, h1⟩
    · exact Or.inr hnew

/-- On a valid reference price with a non-zero order count, a `createOrders` that returns ran
its loop with the rounded rate and the two rounded per-order volumes. -/
theorem createOrders_round_ladder (createAmount : Asset → ℚ → AssetAmount) (m : MarketMaker)
    (price : Price) (ob : OrderBook) (now : Int) (a q : ℚ) (ops : List Operation)
    (hv : price.Valid = true)
    (hB : price.base.amount < 2 ^ 64) (hQ : price.quote.amount < 2 ^ 64)
    (hN : m.cfg.market.orderCount ≠ 0)
    (ha : baseAvailable m ob = some (BigFloat.fin a))
    (hq : quoteAvailable m ob = some (BigFloat.fin q))
    (hret : createOrders createAmount m price ob now = some ops) :
    ladder m (BigFloat.fin (round64 ((price.base.amount : ℚ) / price.quote.amount)))
      (BigFloat.fin (round64
        (min ((wrapUint64 (createAmount m.market.base m.cfg.market.amount).amount : ℕ) : ℚ) a /
          m.cfg.market.orderCount)))
      (BigFloat.fin (round64
        (min ((wrapUint64 (createAmount m.market.base m.cfg.market.amount).amount : ℕ) : ℚ)
            (round64 (q * round64 ((price.base.amount : ℚ) / price.quote.amount))) /
          m.cfg.market.orderCount)))
      (now + m.orderDuration) m.cfg.market.orderCount.toNat m.cfg.market.spread [] =
        some ops := by
  obtain ⟨rate, sv, bv, hrate, hsv, hbv, hl⟩ := (createOrders_round_unfold _ _ _ _ _ _).mp hret
  obtain ⟨hrate', -⟩ := refRate_round price hv hB hQ
  rw [hrate'] at hrate
  obtain rfl := Option.some.inj hrate
  rw [sellOrderVolume_round createAmount m ob a ha hN] at hsv
  rw [buyOrderVolume_round createAmount m ob q _ hq hN] at hbv
  obtain rfl := Option.some.inj hsv
  obtain rfl := Option.some.inj hbv
  exact hl

end Machine

/-- C7 (amended): on a valid reference price, when the amounts fit in `int64`, the sell
orders `createOrders` returns are, in ladder order, one for each step `i < orderCount` whose
two amounts exceed the threshold; the order of step `i` sells `floor(sellVolume)` of the base
asset and asks for the integer part of `sellVolume / r * (1 + spread_i/2)` of the quote asset
as the program computes it: `r` is `price.Base.Amount / price.Quote.Amount` (base per quote)
rounded to 64 bits, the quotient `sellVolume / r` and its product with the spread factor are
each rounded to 64 bits, the spread factor `1 + spread_i/2` is computed in `float64`, and
`spread_i` is the configured spread with `i` spread steps added one after the other in
`float64`.  With an order count of at least one and spread factors that are not zero,
`createOrders` returns.  The spreads are taken below 2^1023 in absolute value, within the
range of `float64`: the embedding does not model an overflow to an infinity. -/
theorem createOrders_sell_orders (createAmount : Asset → ℚ → AssetAmount) (m : MarketMaker)
    (price : Price) (ob : OrderBook) (now : Int) (s : ℚ)
    (hne : m.market.base.id ≠ m.market.quote.id)
    (hv : price.Valid = true)
    (hB : price.base.amount < 2 ^ 63) (hQ : price.quote.amount < 2 ^ 63)
    (hs : Machine.sellOrderVolume createAmount m ob = some (BigFloat.fin s))
    (_hrange : ∀ i : ℕ, i < m.cfg.market.orderCount.toNat →
      |Machine.spreadAt m i| < 2 ^ 1023)
    (hfit : ⌊s⌋ < 2 ^ 63 ∧ ∀ i : ℕ, i < m.cfg.market.orderCount.toNat →
      ⌊Machine.receiveAmount s (round64 ((price.base.amount : ℚ) / price.quote.amount))
        (Machine.spreadAt m i)⌋ < 2 ^ 63) :
    (∀ ops : List Operation, Machine.createOrders createAmount m price ob now = some ops →
      ops.filter (Operation.sells m.market.base.id) =
        (List.range m.cfg.market.orderCount.toNat).filterMap (fun i : ℕ =>
          Machine.sellOrderFor m s (round64 ((price.base.amount : ℚ) / price.quote.amount))
            (Machine.spreadAt m i) (now + m.orderDuration))) ∧
    (1 ≤ m.cfg.market.orderCount →
      (∀ i : ℕ, i < m.cfg.market.orderCount.toNat →
        Machine.spreadValue (Machine.spreadAt m i) ≠ 0) →
      ∃ ops, Machine.createOrders createAmount m price ob now = some ops) := by
  constructor
  · intro ops hret
    obtain ⟨rate, sv, bv, hrate, hsv, -, hl⟩ :=
      (Machine.createOrders_round_unfold _ _ _ _ _ _).mp hret
    obtain ⟨hrate', hpos⟩ := Machine.refRate_round price hv (by omega) (by omega)
    rw [hrate'] at hrate
    rw [hs] at hsv
    obtain rfl := Option.some.inj hrate
    obtain rfl := Option.some.inj hsv
    have := Machine.ladder_round_sells m hne _ s bv (now + m.orderDuration) hpos.ne' hfit.1
      m.cfg.market.orderCount.toNat m.cfg.market.spread [] ops hfit.2 hl
    simpa [Machine.spreadAt] using this
  · intro hN hf
    exact Machine.createOrders_round_total createAmount m price ob now hv (by omega) (by omega)
      hN hf

/-- C23 (amended): on a valid reference price with an order count of at least one, the
per-order sell volume is `min(configuredAmount, availableBase) / orderCount` rounded to 64
bits, and the per-order buy volume is `min(configuredAmount, availableQuote * r) / orderCount`
rounded to 64 bits, where `r` is `price.Base.Amount / price.Quote.Amount` rounded to 64 bits,
which converts the quote amount available into base units, the product `availableQuote * r`
being rounded to 64 bits as well; when both volumes fit in `int64`, every order `createOrders`
returns is a sell order that offers `floor(min(configuredAmount, availableBase) / orderCount)`
of the base asset, which the rounding of the sell volume leaves unchanged, or a buy order that
asks for the integer part of the rounded buy volume of the base asset.  With spread factors
that are not zero, `createOrders` returns.  The spreads are taken below 2^1023 in absolute
value, within the range of `float64`: the embedding does not model an overflow to an
infinity. -/
theorem createOrders_volumes (createAmount : Asset → ℚ → AssetAmount) (m : MarketMaker)
    (price : Price) (ob : OrderBook) (now : Int) (a q : ℚ)
    (hv : price.Valid = true)
    (hB : price.base.amount < 2 ^ 63) (hQ : price.quote.amount < 2 ^ 63)
    (hN : 1 ≤ m.cfg.market.orderCount)
    (ha : Machine.baseAvailable m ob = some (BigFloat.fin a))
    (hq : Machine.quoteAvailable m ob = some (BigFloat.fin q))
    (_hrange : ∀ i : ℕ, i < m.cfg.market.orderCount.toNat →
      |Machine.spreadAt m i| < 2 ^ 1023)
    (hfit :
      ⌊min ((wrapUint64 (createAmount m.market.base m.cfg.market.amount).amount : ℕ) : ℚ) a /
          m.cfg.market.orderCount⌋ < 2 ^ 63 ∧
      ⌊round64
        (min ((wrapUint64 (createAmount m.market.base m.cfg.market.amount).amount : ℕ) : ℚ)
            (round64 (q * round64 ((price.base.amount : ℚ) / price.quote.amount))) /
          m.cfg.market.orderCount)⌋ < 2 ^ 63) :
    Machine.sellOrderVolume createAmount m ob = some (BigFloat.fin (round64
      (min ((wrapUint64 (createAmount m.market.base m.cfg.market.amount).amount : ℕ) : ℚ) a /
        m.cfg.market.orderCount))) ∧
    Machine.buyOrderVolume createAmount m
        (BigFloat.fin (round64 ((price.base.amount : ℚ) / price.quote.amount))) ob =
      some (BigFloat.fin (round64
        (min ((wrapUint64 (createAmount m.market.base m.cfg.market.amount).amount : ℕ) : ℚ)
            (round64 (q * round64 ((price.base.amount : ℚ) / price.quote.amount))) /
          m.cfg.market.orderCount))) ∧
    (∀ ops : List Operation, Machine.createOrders createAmount m price ob now = some ops →
      ∀ op ∈ ops, ∃ sell recv : AssetAmount,
        op = Operation.create m.account sell recv false (now + m.orderDuration) ∧
        ((sell.asset = m.market.base.id ∧ recv.asset = m.market.quote.id ∧
            sell.amount =
              ⌊min ((wrapUint64 (createAmount m.market.base m.cfg.market.amount).amount : ℕ) : ℚ)
                  a / m.cfg.market.orderCount⌋) ∨
         (sell.asset = m.market.quote.id ∧ recv.asset = m.market.base.id ∧
            recv.amount =
              ⌊round64
                (min
                  ((wrapUint64 (createAmount m.market.base m.cfg.market.amount).amount : ℕ) : ℚ)
                  (round64 (q * round64 ((price.base.amount : ℚ) / price.quote.amount))) /
                m.cfg.market.orderCount)⌋))) ∧
    ((∀ i : ℕ, i < m.cfg.market.orderCount.toNat →
        Machine.spreadValue (Machine.spreadAt m i) ≠ 0) →
      ∃ ops, Machine.createOrders createAmount m price ob now = some ops) := by
  have hN0 : m.cfg.market.orderCount ≠ 0 := by omega
  refine ⟨Machine.sellOrderVolume_round createAmount m ob a ha hN0,
    Machine.buyOrderVolume_round createAmount m ob q _ hq hN0, ?_, ?_⟩
  · have hfl : ⌊round64
        (min ((wrapUint64 (createAmount m.market.base m.cfg.market.amount).amount : ℕ) : ℚ) a /
          m.cfg.market.orderCount)⌋ =
        ⌊min ((wrapUint64 (createAmount m.market.base m.cfg.market.amount).amount : ℕ) : ℚ) a /
          m.cfg.market.orderCount⌋ := by
      obtain ⟨A, hA⟩ := Machine.baseAvailable_round_nat m ob
      rw [ha] at hA
      have haA : a = (A : ℚ) := BigFloat.fin.inj (Option.some.inj hA)
      rw [haA, ← Nat.cast_min]
      apply floor_round64_div _ _ _ hN
      have hL : wrapUint64 (createAmount m.market.base m.cfg.market.amount).amount < 2 ^ 64 := by
        unfold wrapUint64; omega
      exact lt_of_le_of_lt (min_le_left _ _) hL
    intro ops hret
    have hl := Machine.createOrders_round_ladder createAmount m price ob now a q ops hv
      (by omega) (by omega) hN0 ha hq hret
    intro op hop
    rcases Machine.ladder_round_volumes m _ _ _ _ _ _ _ _ hl op hop with
      h0 | ⟨recv, hg, rfl⟩ | ⟨sell, hg, rfl⟩
    · simp at h0
    · refine ⟨_, _, rfl, Or.inl ⟨rfl, rfl, ?_⟩⟩
      rw [BigFloat.threshold_lt_Uint64_fin] at hg
      rw [← hfl]
      exact BigFloat.wrapInt64_Uint64_fin _ (by omega) (by rw [hfl]; exact hfit.1)
    · refine ⟨_, _, rfl, Or.inr ⟨rfl, rfl, ?_⟩⟩
      rw [BigFloat.threshold_lt_Uint64_fin] at hg
      exact BigFloat.wrapInt64_Uint64_fin _ (by omega) hfit.2
  · intro hf
    exact Machine.createOrders_round_total createAmount m price ob now hv (by omega) (by omega)
      hN hf

theorem sampleMaker_round_baseAvailable :
    Machine.baseAvailable sampleMaker { sell := [], buy := [] } = some (BigFloat.fin 110) := by
  rw [Machine.baseAvailable_round_no_reserve _ _ (by decide)]
  have : (wrapUint64 sampleMaker.baseBalance.amount +
      OrderBook.SellAmount { sell := [], buy := [] }) % 2 ^ 64 = 110 := by decide
  rw [this]; norm_num

theorem sampleMaker_round_quoteAvailable :
    Machine.quoteAvailable sampleMaker { sell := [], buy := [] } = some (BigFloat.fin 0) := by
  rw [Machine.quoteAvailable_round_no_reserve _ _ (by decide)]
  have : (wrapUint64 sampleMaker.quoteBalance.amount +
      OrderBook.BuyAmount { sell := [], buy := [] }) % 2 ^ 64 = 0 := by decide
  rw [this]; norm_num

theorem quoteHolder_round_baseAvailable :
    Machine.baseAvailable quoteHolder { sell := [], buy := [] } = some (BigFloat.fin 0) := by
  rw [Machine.baseAvailable_round_no_reserve _ _ (by decide)]
  have : (wrapUint64 quoteHolder.baseBalance.amount +
      OrderBook.SellAmount { sell := [], buy := [] }) % 2 ^ 64 = 0 := by decide
  rw [this]; norm_num

theorem quoteHolder_round_quoteAvailable :
    Machine.quoteAvailable quoteHolder { sell := [], buy := [] } = some (BigFloat.fin 1000) := by
  rw [Machine.quoteAvailable_round_no_reserve _ _ (by decide)]
  have : (wrapUint64 quoteHolder.quoteBalance.amount +
      OrderBook.BuyAmount { sell := [], buy := [] }) % 2 ^ 64 = 1000 := by decide
  rw [this]; norm_num

/-- With the rounding of the program the sample maker, at the price 1 : 2, places the same
order as in exact arithmetic: all the values are small integers and one half. -/
theorem sampleMaker_round_createOrders :
    Machine.createOrders (fixedCreateAmount 1000) sampleMaker (priceOTNBTC 1 2)
        { sell := [], buy := [] } 10 =
      some [Operation.create idSeller { asset := idOTN, amount := 110 }
        { asset := idBTC, amount := 220 } false 600000000010] ∧
    Machine.createOrders (fixedCreateAmount 1000) sampleMaker (priceOTNBTC 1 2)
        { sell := [], buy := [] } 10 =
      sampleMaker.createOrders (fixedCreateAmount 1000) (priceOTNBTC 1 2)
        { sell := [], buy := [] } 10 := by
  have k0 : round64 0 = 0 := round64_zero
  have k1 : round64 (1 / 2) = 1 / 2 :=
    round64_exact_val _ _ 1 (-1) (by norm_num) (by norm_num) (by norm_num)
  have k2 : round64 110 = 110 :=
    round64_exact_val _ _ 55 1 (by norm_num) (by norm_num) (by norm_num)
  have k3 : round64 220 = 220 :=
    round64_exact_val _ _ 55 2 (by norm_num) (by norm_num) (by norm_num)
  have g0 : fl64 0 = 0 := fl64_zero
  have g1 : fl64 1 = 1 := fl64_one
  have hsp : Machine.spreadValue (Machine.spreadAt sampleMaker 0) = 1 := by
    norm_num [Machine.spreadValue, Machine.spreadAt, Machine.spreadFrom, sampleMaker,
      sampleMarketConfig, g0, g1]
  have hmain : Machine.createOrders (fixedCreateAmount 1000) sampleMaker (priceOTNBTC 1 2)
        { sell := [], buy := [] } 10 =
      some [Operation.create idSeller { asset := idOTN, amount := 110 }
        { asset := idBTC, amount := 220 } false 600000000010] := by
    rw [Machine.createOrders_round_fin (fixedCreateAmount 1000) sampleMaker (priceOTNBTC 1 2) _
      10 110 0 (by decide) (by decide) (by decide) (by decide) sampleMaker_round_baseAvailable
      sampleMaker_round_quoteAvailable (by
        intro i hi
        have hN : sampleMaker.cfg.market.orderCount.toNat = 1 := by decide
        rw [hN] at hi
        obtain rfl : i = 0 := by omega
        rw [hsp]; norm_num)]
    have hN : sampleMaker.cfg.market.orderCount.toNat = 1 := by decide
    have hN1 : sampleMaker.cfg.market.orderCount = 1 := by decide
    have hL : wrapUint64 (fixedCreateAmount 1000 sampleMaker.market.base
        sampleMaker.cfg.market.amount).amount = 1000 := by decide
    have hrate : round64 (((priceOTNBTC 1 2).base.amount : ℚ) / (priceOTNBTC 1 2).quote.amount)
        = 1 / 2 := by
      norm_num [priceOTNBTC, k1]
    have hs : round64 (min ((1000 : ℕ) : ℚ) 110 / ((1 : Int) : ℚ)) = 110 := by
      norm_num [k2]
    have hb : round64 (min ((1000 : ℕ) : ℚ) (round64 (0 * (1 / 2))) / ((1 : Int) : ℚ)) = 0 := by
      norm_num [k0]
    have hrec : Machine.receiveAmount 110 (1 / 2) (Machine.spreadAt sampleMaker 0) = 220 := by
      unfold Machine.receiveAmount
      rw [hsp]
      norm_num [k3]
    have hoff : Machine.offerAmount 0 (1 / 2) (Machine.spreadAt sampleMaker 0) = 0 := by
      unfold Machine.offerAmount
      rw [hsp]
      norm_num [k0]
    rw [hN, hL, hN1, hrate, hs, hb]
    simp only [List.range_succ, List.range_zero, List.nil_append, List.flatMap_cons,
      List.flatMap_nil, List.append_nil, Machine.stepOps, hoff, hrec]
    norm_num [sampleMaker, sampleMarketConfig, priceOTNBTC, marketOTNBTC, assetOTN, assetBTC,
      BigFloat.Uint64, maxUint64, wrapInt64]
  exact ⟨hmain, by rw [hmain, sampleMaker_createOrders]⟩

/-- With the rounding of the program the maker holding 1000 quote units, at the price 1 : 2,
places the same order as in exact arithmetic. -/
theorem quoteHolder_round_createOrders :
    Machine.createOrders (fixedCreateAmount 1000) quoteHolder (priceOTNBTC 1 2)
        { sell := [], buy := [] } 10 =
      some [Operation.create idSeller { asset := idBTC, amount := 1000 }
        { asset := idOTN, amount := 500 } false 600000000010] ∧
    Machine.createOrders (fixedCreateAmount 1000) quoteHolder (priceOTNBTC 1 2)
        { sell := [], buy := [] } 10 =
      quoteHolder.createOrders (fixedCreateAmount 1000) (priceOTNBTC 1 2)
        { sell := [], buy := [] } 10 := by
  have k0 : round64 0 = 0 := round64_zero
  have k1 : round64 (1 / 2) = 1 / 2 :=
    round64_exact_val _ _ 1 (-1) (by norm_num) (by norm_num) (by norm_num)
  have k2 : round64 500 = 500 :=
    round64_exact_val _ _ 125 2 (by norm_num) (by norm_num) (by norm_num)
  have k3 : round64 1000 = 1000 :=
    round64_exact_val _ _ 125 3 (by norm_num) (by norm_num) (by norm_num)
  have g0 : fl64 0 = 0 := fl64_zero
  have g1 : fl64 1 = 1 := fl64_one
  have hsp : Machine.spreadValue (Machine.spreadAt quoteHolder 0) = 1 := by
    norm_num [Machine.spreadValue, Machine.spreadAt, Machine.spreadFrom, quoteHolder,
      sampleMaker, sampleMarketConfig, g0, g1]
  have hmain : Machine.createOrders (fixedCreateAmount 1000) quoteHolder (priceOTNBTC 1 2)
        { sell := [], buy := [] } 10 =
      some [Operation.create idSeller { asset := idBTC, amount := 1000 }
        { asset := idOTN, amount := 500 } false 600000000010] := by
    rw [Machine.createOrders_round_fin (fixedCreateAmount 1000) quoteHolder (priceOTNBTC 1 2) _
      10 0 1000 (by decide) (by decide) (by decide) (by decide) quoteHolder_round_baseAvailable
      quoteHolder_round_quoteAvailable (by
        intro i hi
        have hN : quoteHolder.cfg.market.orderCount.toNat = 1 := by decide
        rw [hN] at hi
        obtain rfl : i = 0 := by omega
        rw [hsp]; norm_num)]
    have hN : quoteHolder.cfg.market.orderCount.toNat = 1 := by decide
    have hN1 : quoteHolder.cfg.market.orderCount = 1 := by decide
    have hL : wrapUint64 (fixedCreateAmount 1000 quoteHolder.market.base
        quoteHolder.cfg.market.amount).amount = 1000 := by decide
    have hrate : round64 (((priceOTNBTC 1 2).base.amount : ℚ) / (priceOTNBTC 1 2).quote.amount)
        = 1 / 2 := by
      norm_num [priceOTNBTC, k1]
    have hs : round64 (min ((1000 : ℕ) : ℚ) 0 / ((1 : Int) : ℚ)) = 0 := by
      norm_num [k0]
    have hb : round64 (min ((1000 : ℕ) : ℚ) (round64 (1000 * (1 / 2))) / ((1 : Int) : ℚ)) =
        500 := by
      norm_num [k2]
    have hrec : Machine.receiveAmount 0 (1 / 2) (Machine.spreadAt quoteHolder 0) = 0 := by
      unfold Machine.receiveAmount
      rw [hsp]
      norm_num [k0]
    have hoff : Machine.offerAmount 500 (1 / 2) (Machine.spreadAt quoteHolder 0) = 1000 := by
      unfold Machine.offerAmount
      rw [hsp]
      norm_num [k3]
    rw [hN, hL, hN1, hrate, hs, hb]
    simp only [List.range_succ, List.range_zero, List.nil_append, List.flatMap_cons,
      List.flatMap_nil, List.append_nil, Machine.stepOps, hoff, hrec]
    norm_num [quoteHolder, sampleMaker, sampleMarketConfig, priceOTNBTC, marketOTNBTC,
      assetOTN, assetBTC, BigFloat.Uint64, maxUint64, wrapInt64]
  exact ⟨hmain, by rw [hmain, quoteHolder_createOrders]⟩

theorem spreadMaker_baseAvailable :
    Machine.baseAvailable spreadMaker { sell := [], buy := [] } = some (BigFloat.fin 1000) := by
  rw [Machine.baseAvailable_round_no_reserve _ _ (by decide)]
  have : (wrapUint64 spreadMaker.baseBalance.amount +
      OrderBook.SellAmount { sell := [], buy := [] }) % 2 ^ 64 = 1000 := by decide
  rw [this]; norm_num

theorem spreadMaker_quoteAvailable :
    Machine.quoteAvailable spreadMaker { sell := [], buy := [] } = some (BigFloat.fin 0) := by
  rw [Machine.quoteAvailable_round_no_reserve _ _ (by decide)]
  have : (wrapUint64 spreadMaker.quoteBalance.amount +
      OrderBook.BuyAmount { sell := [], buy := [] }) % 2 ^ 64 = 0 := by decide
  rw [this]; norm_num

theorem spreadMaker_sellOrderVolume :
    Machine.sellOrderVolume (fixedCreateAmount 1000) spreadMaker { sell := [], buy := [] } =
      some (BigFloat.fin 1000) := by
  have r1000 : round64 1000 = 1000 :=
    round64_exact_val _ _ 125 3 (by norm_num) (by norm_num) (by norm_num)
  rw [Machine.sellOrderVolume_round _ _ _ 1000 spreadMaker_baseAvailable (by decide)]
  have hL : wrapUint64 (fixedCreateAmount 1000 spreadMaker.market.base
      spreadMaker.cfg.market.amount).amount = 1000 := by decide
  have hN : spreadMaker.cfg.market.orderCount = 1 := by decide
  rw [hL, hN]
  norm_num [r1000]

/-- The spread factor of the first ladder step of a maker with spread 0.01: `1 + 0.005`
rounded to `float64`. -/
theorem spreadMaker_spreadValue :
    Machine.spreadValue (Machine.spreadAt spreadMaker 0) = 1131529406376837 / 1125899906842624 := by
  have f1 : fl64 (5764607523034235 / 1152921504606846976) = 5764607523034235 / 1152921504606846976
    :=
    fl64_exact_val _ _ 5764607523034235 (-60) (by norm_num) (by norm_num) (by norm_num)
      (by norm_num)
  have f2 : fl64 (1158686112129881211 / 1152921504606846976) = 1131529406376837 / 1125899906842624
    :=
    fl64_val _ _ (-52) 4526117625507348 (by norm_num) (by norm_num [abs_of_pos, abs_of_neg])
      (by norm_num [abs_of_pos, abs_of_neg]) (by norm_num) (by norm_num) (by norm_num)
  norm_num [Machine.spreadValue, Machine.spreadAt, Machine.spreadFrom, spreadMaker,
    sampleMaker, sampleMarketConfig, f1, f2]

/-- The quote amount the first sell order of that maker asks for at the price 1 : 1:
`1000 * 1.005` in the arithmetic of the program is just below 1005. -/
theorem spreadMaker_receiveAmount :
    Machine.receiveAmount 1000 1 (Machine.spreadAt spreadMaker 0) = 141441175797104625 / 140737488355328 ∧
    ⌊Machine.receiveAmount 1000 1 (Machine.spreadAt spreadMaker 0)⌋ = 1004 := by
  have r1000 : round64 (1000) = 1000 :=
    round64_exact_val _ _ 125 3 (by norm_num) (by norm_num) (by norm_num)
  have r2 : round64 (141441175797104625 / 140737488355328) = 141441175797104625 / 140737488355328 :=
    round64_exact_val _ _ 141441175797104625 (-47) (by norm_num) (by norm_num) (by norm_num)
  have hv : Machine.receiveAmount 1000 1 (Machine.spreadAt spreadMaker 0) = 141441175797104625 / 140737488355328 := by
    unfold Machine.receiveAmount
    rw [spreadMaker_spreadValue]
    norm_num [r1000, r2]
  refine ⟨hv, ?_⟩
  rw [hv, Int.floor_eq_iff]
  norm_num

theorem spreadMaker_createOrders :
    Machine.createOrders (fixedCreateAmount 1000) spreadMaker (priceOTNBTC 1 1)
        { sell := [], buy := [] } 10 =
      some [Operation.create idSeller { asset := idOTN, amount := 1000 }
        { asset := idBTC, amount := 1004 } false 600000000010] := by
  have r1 : round64 (1) = 1 :=
    round64_exact_val _ _ 1 0 (by norm_num) (by norm_num) (by norm_num)
  have r1000 : round64 (1000) = 1000 :=
    round64_exact_val _ _ 125 3 (by norm_num) (by norm_num) (by norm_num)
  have r0 : round64 (0) = 0 :=
    round64_exact_val _ _ 0 0 (by norm_num) (by norm_num) (by norm_num)
  have hsv : Machine.spreadValue (Machine.spreadAt spreadMaker 0) ≠ 0 := by
    rw [spreadMaker_spreadValue]; norm_num
  rw [Machine.createOrders_round_fin (fixedCreateAmount 1000) spreadMaker (priceOTNBTC 1 1) _ 10
    1000 0 (by decide) (by decide) (by decide) (by decide) spreadMaker_baseAvailable
    spreadMaker_quoteAvailable (by
      intro i hi
      have hN : spreadMaker.cfg.market.orderCount.toNat = 1 := by decide
      rw [hN] at hi
      obtain rfl : i = 0 := by omega
      exact hsv)]
  have hN : spreadMaker.cfg.market.orderCount.toNat = 1 := by decide
  have hN1 : spreadMaker.cfg.market.orderCount = 1 := by decide
  have hL : wrapUint64 (fixedCreateAmount 1000 spreadMaker.market.base
      spreadMaker.cfg.market.amount).amount = 1000 := by decide
  have hrate : round64 (((priceOTNBTC 1 1).base.amount : ℚ) / (priceOTNBTC 1 1).quote.amount)
      = 1 := by
    norm_num [priceOTNBTC, r1]
  have hs : round64 (min ((1000 : ℕ) : ℚ) 1000 / ((1 : Int) : ℚ)) = 1000 := by
    norm_num [r1000]
  have hb : round64 (min ((1000 : ℕ) : ℚ) (round64 (0 * 1)) / ((1 : Int) : ℚ)) = 0 := by
    norm_num [r0]
  have hoff : Machine.offerAmount 0 1 (Machine.spreadAt spreadMaker 0) = 0 := by
    unfold Machine.offerAmount
    rw [spreadMaker_spreadValue]
    norm_num [r0]
  rw [hN, hL, hN1, hrate, hs, hb]
  simp only [List.range_succ, List.range_zero, List.nil_append, List.flatMap_cons,
    List.flatMap_nil, List.append_nil, Machine.stepOps, hoff, spreadMaker_receiveAmount.1]
  have hfl : ⌊(141441175797104625 / 140737488355328 : ℚ)⌋ = 1004 := by
    rw [Int.floor_eq_iff]; norm_num
  norm_num [hfl, spreadMaker, sampleMaker, sampleMarketConfig, priceOTNBTC, marketOTNBTC,
    assetOTN, assetBTC, BigFloat.Uint64, maxUint64, wrapInt64]

/-- C7 (amended) on the maker with spread 0.01 holding 1000 base units, at the price 1 : 1:
`createOrders` returns one sell order, of 1000 base units for 1004 quote units, the integer
part of `1000 * (1 + 0.01/2)` as the program computes it (the `float64` nearest to 1.005 is
below 1.005). -/
theorem createOrders_sell_orders_witness :
    Machine.createOrders (fixedCreateAmount 1000) spreadMaker (priceOTNBTC 1 1)
        { sell := [], buy := [] } 10 =
      some [Operation.create idSeller { asset := idOTN, amount := 1000 }
        { asset := idBTC, amount := 1004 } false 600000000010] ∧
    List.filter (Operation.sells spreadMaker.market.base.id)
        [Operation.create idSeller { asset := idOTN, amount := 1000 }
          { asset := idBTC, amount := 1004 } false 600000000010] =
      (List.range spreadMaker.cfg.market.orderCount.toNat).filterMap (fun i : ℕ =>
        Machine.sellOrderFor spreadMaker 1000
          (round64 (((priceOTNBTC 1 1).base.amount : ℚ) / (priceOTNBTC 1 1).quote.amount))
          (Machine.spreadAt spreadMaker i) (10 + spreadMaker.orderDuration)) ∧
    ⌊Machine.receiveAmount 1000 1 (Machine.spreadAt spreadMaker 0)⌋ = 1004 := by
  have r1 : round64 1 = 1 :=
    round64_exact_val _ _ 1 0 (by norm_num) (by norm_num) (by norm_num)
  have hrate : round64 (((priceOTNBTC 1 1).base.amount : ℚ) / (priceOTNBTC 1 1).quote.amount)
      = 1 := by
    norm_num [priceOTNBTC, r1]
  refine ⟨spreadMaker_createOrders, ?_, spreadMaker_receiveAmount.2⟩
  exact (createOrders_sell_orders (fixedCreateAmount 1000) spreadMaker (priceOTNBTC 1 1)
    { sell := [], buy := [] } 10 1000 (by decide) (by decide) (by decide) (by decide)
    spreadMaker_sellOrderVolume
    (by
      intro i hi
      have hN : spreadMaker.cfg.market.orderCount.toNat = 1 := by decide
      rw [hN] at hi
      obtain rfl : i = 0 := by omega
      norm_num [Machine.spreadAt, Machine.spreadFrom, spreadMaker, sampleMaker,
        sampleMarketConfig, abs_of_pos])
    ⟨by norm_num, by
      intro i hi
      have hN : spreadMaker.cfg.market.orderCount.toNat = 1 := by decide
      rw [hN] at hi
      obtain rfl : i = 0 := by omega
      rw [hrate, spreadMaker_receiveAmount.2]
      norm_num⟩).1 _ spreadMaker_createOrders

/-- The spread accumulates in `float64`: starting at 0.1 with a spread step of 0.1, the spread
of the third ladder step is 0.30000000000000004, not `0.1 + 2 * 0.1`; its spread factor rounds
to the `float64` below 1.15, and a sell order of 1000 base units at the price 1 : 1 asks for
1149 quote units. -/
theorem spreadFrom_accumulates :
    Machine.spreadFrom (3602879701896397 / 2 ^ 55) (3602879701896397 / 2 ^ 55) 2 =
      1351079888211149 / 2 ^ 52 ∧
    (3602879701896397 / 2 ^ 55 + 2 * (3602879701896397 / 2 ^ 55) : ℚ) ≠ 1351079888211149 / 2 ^ 52 ∧
    ⌊Machine.receiveAmount 1000 1 (1351079888211149 / 2 ^ 52)⌋ = 1149 := by
  have a1 : fl64 (3602879701896397 / 18014398509481984) = 3602879701896397 / 18014398509481984 :=
    fl64_exact_val _ _ 3602879701896397 (-54) (by norm_num) (by norm_num) (by norm_num)
      (by norm_num)
  have a2 : fl64 (10808639105689191 / 36028797018963968) = 1351079888211149 / 4503599627370496 :=
    fl64_tie_odd _ _ (-54) 5404319552844595 (by norm_num) (by norm_num [abs_of_pos, abs_of_neg])
      (by norm_num [abs_of_pos, abs_of_neg]) (by norm_num) (by norm_num) (by norm_num)
  have hacc : Machine.spreadFrom (3602879701896397 / 2 ^ 55) (3602879701896397 / 2 ^ 55) 2 =
      1351079888211149 / 2 ^ 52 := by
    norm_num [Machine.spreadFrom, a1, a2]
  refine ⟨hacc, by norm_num, ?_⟩
  have b1 : fl64 (1351079888211149 / 9007199254740992) = 1351079888211149 / 9007199254740992 :=
    fl64_exact_val _ _ 1351079888211149 (-53) (by norm_num) (by norm_num) (by norm_num)
      (by norm_num)
  have b2 : fl64 (10358279142952141 / 9007199254740992) = 2589569785738035 / 2251799813685248 :=
    fl64_tie_even _ _ (-52) 5179139571476070 (by norm_num) (by norm_num [abs_of_pos, abs_of_neg])
      (by norm_num [abs_of_pos, abs_of_neg]) (by norm_num) (by norm_num) (by norm_num)
  have b3 : round64 (1000) = 1000 :=
    round64_exact_val _ _ 125 3 (by norm_num) (by norm_num) (by norm_num)
  have b4 : round64 (323696223217254375 / 281474976710656) = 323696223217254375 / 281474976710656 :=
    round64_exact_val _ _ 323696223217254375 (-48) (by norm_num) (by norm_num) (by norm_num)
  have hv : Machine.receiveAmount 1000 1 (1351079888211149 / 2 ^ 52) =
      323696223217254375 / 2 ^ 48 := by
    norm_num [Machine.receiveAmount, Machine.spreadValue, b1, b2, b3, b4]
  rw [hv, Int.floor_eq_iff]
  norm_num

theorem quoteHolder12345_baseAvailable :
    Machine.baseAvailable quoteHolder12345 { sell := [], buy := [] } =
      some (BigFloat.fin 0) := by
  rw [Machine.baseAvailable_round_no_reserve _ _ (by decide)]
  have : (wrapUint64 quoteHolder12345.baseBalance.amount +
      OrderBook.SellAmount { sell := [], buy := [] }) % 2 ^ 64 = 0 := by decide
  rw [this]; norm_num

theorem quoteHolder12345_quoteAvailable :
    Machine.quoteAvailable quoteHolder12345 { sell := [], buy := [] } =
      some (BigFloat.fin 12345) := by
  rw [Machine.quoteAvailable_round_no_reserve _ _ (by decide)]
  have : (wrapUint64 quoteHolder12345.quoteBalance.amount +
      OrderBook.BuyAmount { sell := [], buy := [] }) % 2 ^ 64 = 12345 := by decide
  rw [this]; norm_num

/-- The rate of the price 7 : 3 at 64 bits, which is below 7/3, and the buy volume it gives
for 12345 quote units: `12345 * 7/3` is 28805, and the program holds `28805 - 2^-49`. -/
theorem quoteHolder12345_volume :
    round64 (((priceOTNBTC 7 3).base.amount : ℚ) / (priceOTNBTC 7 3).quote.amount) =
      10760600709663905109 / 4611686018427387904 ∧
    round64 (min ((100000 : ℕ) : ℚ)
      (round64 (12345 * round64 (((priceOTNBTC 7 3).base.amount : ℚ) /
        (priceOTNBTC 7 3).quote.amount))) / ((1 : Int) : ℚ)) =
      16215773408300892159 / 562949953421312 ∧
    ⌊(16215773408300892159 / 562949953421312 : ℚ)⌋ = 28804 := by
  have k1 : round64 (7 / 3) = 10760600709663905109 / 4611686018427387904 :=
    round64_val _ _ (-62) 10760600709663905109 (by norm_num [abs_of_pos, abs_of_neg])
      (by norm_num [abs_of_pos, abs_of_neg]) (by norm_num) (by norm_num) (by norm_num)
  have k2 : round64 (132839615760800908570605 / 4611686018427387904) = 16215773408300892159 /
    562949953421312 :=
    round64_val _ _ (-49) 16215773408300892159 (by norm_num [abs_of_pos, abs_of_neg])
      (by norm_num [abs_of_pos, abs_of_neg]) (by norm_num) (by norm_num) (by norm_num)
  have k3 : round64 (16215773408300892159 / 562949953421312) = 16215773408300892159 /
    562949953421312 :=
    round64_exact_val _ _ 16215773408300892159 (-49) (by norm_num) (by norm_num) (by norm_num)
  have hrate : round64 (((priceOTNBTC 7 3).base.amount : ℚ) / (priceOTNBTC 7 3).quote.amount) =
      10760600709663905109 / 4611686018427387904 := by
    norm_num [priceOTNBTC, k1]
  refine ⟨hrate, ?_, ?_⟩
  · rw [hrate]
    norm_num [k2, k3]
  · rw [Int.floor_eq_iff]; norm_num

theorem quoteHolder12345_createOrders :
    Machine.createOrders (fixedCreateAmount 100000) quoteHolder12345 (priceOTNBTC 7 3)
        { sell := [], buy := [] } 10 =
      some [Operation.create idSeller { asset := idBTC, amount := 12345 }
        { asset := idOTN, amount := 28804 } false 600000000010] := by
  have k4 : round64 (44279871920266969522176 / 3586866903221301703) = 12345 :=
    round64_val _ _ (-50) 13899234349972193280 (by norm_num [abs_of_pos, abs_of_neg])
      (by norm_num [abs_of_pos, abs_of_neg]) (by norm_num) (by norm_num) (by norm_num)
  have k5 : round64 (12345) = 12345 :=
    round64_exact_val _ _ 12345 0 (by norm_num) (by norm_num) (by norm_num)
  have k0 : round64 (0) = 0 :=
    round64_exact_val _ _ 0 0 (by norm_num) (by norm_num) (by norm_num)
  have g0 : fl64 (0) = 0 :=
    fl64_exact_val _ _ 0 0 (by norm_num) (by norm_num) (by norm_num) (by norm_num)
  have g1 : fl64 (1) = 1 :=
    fl64_exact_val _ _ 1 0 (by norm_num) (by norm_num) (by norm_num) (by norm_num)
  have hsp : Machine.spreadValue (Machine.spreadAt quoteHolder12345 0) = 1 := by
    norm_num [Machine.spreadValue, Machine.spreadAt, Machine.spreadFrom, quoteHolder12345,
      sampleMaker, sampleMarketConfig, g0, g1]
  rw [Machine.createOrders_round_fin (fixedCreateAmount 100000) quoteHolder12345
    (priceOTNBTC 7 3) _ 10 0 12345 (by decide) (by decide) (by decide) (by decide)
    quoteHolder12345_baseAvailable quoteHolder12345_quoteAvailable (by
      intro i hi
      have hN : quoteHolder12345.cfg.market.orderCount.toNat = 1 := by decide
      rw [hN] at hi
      obtain rfl : i = 0 := by omega
      rw [hsp]; norm_num)]
  have hN : quoteHolder12345.cfg.market.orderCount.toNat = 1 := by decide
  have hN1 : quoteHolder12345.cfg.market.orderCount = 1 := by decide
  have hL : wrapUint64 (fixedCreateAmount 100000 quoteHolder12345.market.base
      quoteHolder12345.cfg.market.amount).amount = 100000 := by decide
  have hs : round64 (min ((100000 : ℕ) : ℚ) 0 / ((1 : Int) : ℚ)) = 0 := by
    norm_num [k0]
  have hrec : Machine.receiveAmount 0 (10760600709663905109 / 4611686018427387904)
      (Machine.spreadAt quoteHolder12345 0) = 0 := by
    unfold Machine.receiveAmount
    rw [hsp]
    norm_num [k0]
  have hoff : Machine.offerAmount (16215773408300892159 / 562949953421312)
      (10760600709663905109 / 4611686018427387904) (Machine.spreadAt quoteHolder12345 0) = 12345 := by
    unfold Machine.offerAmount
    rw [hsp]
    norm_num [k4, k5]
  rw [hN, hL, hN1, quoteHolder12345_volume.2.1, quoteHolder12345_volume.1, hs]
  simp only [List.range_succ, List.range_zero, List.nil_append, List.flatMap_cons,
    List.flatMap_nil, List.append_nil, Machine.stepOps, hoff, hrec]
  have hfl := quoteHolder12345_volume.2.2
  norm_num [hfl, quoteHolder12345, sampleMaker, sampleMarketConfig, priceOTNBTC, marketOTNBTC,
    assetOTN, assetBTC, BigFloat.Uint64, maxUint64, wrapInt64]

/-- C23 (amended) on the maker holding 12345 quote units at the price 7 : 3, with a
configured amount of 100000: `createOrders` returns one buy order, which asks for 28804 base
units, the integer part of the buy volume as the program computes it (`12345 * 7/3` is 28805,
and the program holds `28805 - 2^-49`). -/
theorem createOrders_volumes_witness :
    Machine.createOrders (fixedCreateAmount 100000) quoteHolder12345 (priceOTNBTC 7 3)
        { sell := [], buy := [] } 10 =
      some [Operation.create idSeller { asset := idBTC, amount := 12345 }
        { asset := idOTN, amount := 28804 } false 600000000010] ∧
    ∃ sell recv : AssetAmount,
      Operation.create idSeller { asset := idBTC, amount := 12345 }
          { asset := idOTN, amount := 28804 } false 600000000010 =
        Operation.create quoteHolder12345.account sell recv false
          (10 + quoteHolder12345.orderDuration) ∧
      ((sell.asset = quoteHolder12345.market.base.id ∧
          recv.asset = quoteHolder12345.market.quote.id ∧
          sell.amount =
            ⌊min ((wrapUint64 (fixedCreateAmount 100000 quoteHolder12345.market.base
                quoteHolder12345.cfg.market.amount).amount : ℕ) : ℚ)
                0 / quoteHolder12345.cfg.market.orderCount⌋) ∨
       (sell.asset = quoteHolder12345.market.quote.id ∧
          recv.asset = quoteHolder12345.market.base.id ∧
          recv.amount =
            ⌊round64 (min ((wrapUint64 (fixedCreateAmount 100000 quoteHolder12345.market.base
                quoteHolder12345.cfg.market.amount).amount : ℕ) : ℚ)
                (round64 (12345 * round64 (((priceOTNBTC 7 3).base.amount : ℚ) /
                  (priceOTNBTC 7 3).quote.amount))) /
              quoteHolder12345.cfg.market.orderCount)⌋)) := by
  have hL : wrapUint64 (fixedCreateAmount 100000 quoteHolder12345.market.base
      quoteHolder12345.cfg.market.amount).amount = 100000 := by decide
  have hN : quoteHolder12345.cfg.market.orderCount = 1 := by decide
  refine ⟨quoteHolder12345_createOrders, ?_⟩
  exact (createOrders_volumes (fixedCreateAmount 100000) quoteHolder12345 (priceOTNBTC 7 3)
    { sell := [], buy := [] } 10 0 12345 (by decide) (by decide) (by decide) (by decide)
    quoteHolder12345_baseAvailable quoteHolder12345_quoteAvailable
    (by
      intro i hi
      have hN1 : quoteHolder12345.cfg.market.orderCount.toNat = 1 := by decide
      rw [hN1] at hi
      obtain rfl : i = 0 := by omega
      norm_num [Machine.spreadAt, Machine.spreadFrom, quoteHolder12345, sampleMaker,
        sampleMarketConfig])
    (by
      rw [hL, hN, quoteHolder12345_volume.2.1, quoteHolder12345_volume.2.2]
      constructor
      · have : ⌊min ((100000 : ℕ) : ℚ) 0 / ((1 : Int) : ℚ)⌋ = 0 := by
          rw [Int.floor_eq_iff]; norm_num
        rw [this]; norm_num
      · norm_num)).2.2.1 _ quoteHolder12345_createOrders _ (List.mem_singleton.mpr rfl)

end MM
